import Mathlib

/-!
# Pathfinder: grid index, A* path planner, line of sight, physics step, pursuit

A shallow embedding of `src/ai_system.cpp`, `src/physics_system.cpp` and the
pursuit block of `src/world_system.cpp`, followed by theorems about it.

Conventions of the embedding.

* C++ `int` is `Int` (no wrap-around: signed overflow is undefined in C++ and
  the level geometry is far from the limits); `/` on `int` is `Int.tdiv`.
* C++ `float` is `ℚ`, i.e. exact arithmetic.
* The global `int grid[gridHeight][gridWidth]` is the function giving the
  value that the expression `grid[r][c]` reads.  For `r`, `c` inside the
  array this is the cell; outside it is whatever the neighbouring memory
  holds, about which nothing is assumed.  A write outside this array (which
  the source makes for an obstacle reaching above row 0) changes that memory
  and leaves every cell of the array as it is.
* `closedList` is a `std::vector` of vectors of `gridHeight` by `gridWidth`
  flags; `Closed.mark` is the write for an index inside it.  A write outside
  it (which the source makes for a start cell outside the grid that is not
  the target cell) is undefined behaviour, in practice the end of the
  program: `searchLoopChecked` and `bestPathChecked` give `none` for such a
  call, and `bestPath` is the sequence returned by every call that returns
  (`bestPathChecked_eq`, `bestPathChecked_returns`).
* The order in which `std::priority_queue` hands out nodes of equal `f` is
  left open: every pop takes a number `tie k` that settles it, and the
  theorems hold for every `tie`.
* `window_width_px` and `window_height_px` are declared in a header that is
  not part of the sources at hand, so `gridWidth` and `gridHeight` are
  parameters `gw`, `gh` of every definition.
-/

namespace Pathfinder

set_option maxRecDepth 100000

/-! ## Grid index (`AISystem::init`, `AISystem::updateGrid`) -/

/-- Edge length of a grid cell: `const int gridSize = 30`. -/
def gridSize : Int := 30

/-- Modelled from the spec: the record `initWall` (declared in
`level_manager.hpp`, which is missing): an axis-aligned rectangle given by
its centre `(x, y)` and full size `(xSize, ySize)`, all `int`. -/
structure InitWall where
  x : Int
  y : Int
  xSize : Int
  ySize : Int
deriving DecidableEq

/-- What `grid[r][c]` reads, for every pair of indices. -/
abbrev Grid := Int → Int → Int

/-- The assignment `grid[r][c] = v`. -/
def Grid.set (g : Grid) (r c v : Int) : Grid :=
  fun r1 c1 => if r1 = r ∧ c1 = c then v else g r1 c1

/-- A counting loop `for (i = lo; i <= hi; i++) body(i)`; the first argument
bounds the number of iterations. -/
def forUpTo {σ : Type} : Nat → Int → Int → (Int → σ → σ) → σ → σ
  | 0, _, _, _, s => s
  | fuel + 1, i, hi, body, s =>
      if i ≤ hi then forUpTo fuel (i + 1) hi body (body i s) else s

/-- The loop `for (i = lo; i <= hi; i++) body(i)` with exactly the number of
iterations it makes. -/
def forLoop {σ : Type} (lo hi : Int) (body : Int → σ → σ) (s : σ) : σ :=
  forUpTo (hi + 1 - lo).toNat lo hi body s

/-- `AISystem::init`: zero every cell of the array. -/
def init (gw gh : Int) (g : Grid) : Grid :=
  forLoop 0 (gh - 1) (fun i g1 => forLoop 0 (gw - 1) (fun j g2 => g2.set i j 0) g1) g

/-- The four cell-space extents computed at the top of the loop body of
`updateGrid`, before any clamping. -/
def wallLeft (w : InitWall) : Int := (w.x - w.xSize.tdiv 2).tdiv gridSize
def wallTop (w : InitWall) : Int := (w.y - w.ySize.tdiv 2).tdiv gridSize
def wallRight (w : InitWall) : Int := (w.x + w.xSize.tdiv 2).tdiv gridSize
def wallBottom (w : InitWall) : Int := (w.y + w.ySize.tdiv 2).tdiv gridSize

/-- The body of the `for (initWall w : walls)` loop of `updateGrid`. -/
def markWall (gw gh : Int) (g : Grid) (w : InitWall) : Grid :=
  let left := wallLeft w
  let top := wallTop w
  let right := wallRight w
  let bottom := wallBottom w
  let bottom := if bottom ≥ gh then gh - 1 else bottom
  let left := if left ≤ 0 then 0 else left
  let right := if right ≥ gw then gw - 1 else right
  forLoop left right
    (fun col g1 => forLoop top bottom (fun row g2 => g2.set row col 1) g1) g

/-- `AISystem::updateGrid`. -/
def updateGrid (gw gh : Int) (walls : List InitWall) (g : Grid) : Grid :=
  walls.foldl (markWall gw gh) (init gw gh g)

/-! ## Data model shared by the systems -/

/-- A `vec2`. -/
structure Vec2 where
  x : ℚ
  y : ℚ
deriving DecidableEq

/-- Modelled from the spec: the component `Motion` (declared in
`components.hpp`, which is missing), with the fields the data model of the
spec lists and the sources read or write. -/
structure Motion where
  position : Vec2
  velocity : Vec2
  acceleration : Vec2
  scale : Vec2
  fixed : Bool
  grounded : Bool
  isJumping : Bool
  notAffectedByGravity : Bool
  timeJumping : ℚ
  jumpsLeft : Int
  gravityScale : ℚ
deriving DecidableEq

/-- A non-fixed `Motion` at rest at the world position `(x, y)`, of scale
`(sx, sy)`; used to write down concrete inputs. -/
def motionAt (x y sx sy : ℚ) : Motion :=
  { position := ⟨x, y⟩, velocity := ⟨0, 0⟩, acceleration := ⟨0, 0⟩, scale := ⟨sx, sy⟩,
    fixed := false, grounded := false, isJumping := false, notAffectedByGravity := false,
    timeJumping := 0, jumpsLeft := 0, gravityScale := 1 }

/-! ## Path planner (`AISystem::bestPath`) -/

/-- A grid cell as stored in the returned path: `std::pair<int,int>` holding
`(x, y)`, i.e. (column, row). -/
abbrev Cell := Int × Int

/-- Modelled from the spec: the search node `Node` (declared in
`ai_system.hpp`, which is missing): grid coordinate `(x, y)`, accumulated
cost `g`, heuristic `h` and the link to the parent node (`nullptr` for the
root). -/
inductive Node where
  | mk (x y g h : Int) (parent : Option Node)

def Node.x : Node → Int
  | .mk x _ _ _ _ => x

def Node.y : Node → Int
  | .mk _ y _ _ _ => y

def Node.g : Node → Int
  | .mk _ _ g _ _ => g

def Node.h : Node → Int
  | .mk _ _ _ h _ => h

def Node.parent : Node → Option Node
  | .mk _ _ _ _ p => p

/-- The method `Node::f()`: `g + h`. -/
def Node.f (n : Node) : Int := n.g + n.h

/-- The value of `std::abs` on `int`. -/
def iabs (a : Int) : Int := if a < 0 then -a else a

/-- `manhattanDistance(x1, y1, x2, y2)`. -/
def manhattanDistance (x1 y1 x2 y2 : Int) : Int := iabs (x2 - x1) + iabs (y2 - y1)

/-- The loop `while (current != nullptr) { path.push_back(...); current =
current->parent; }`: the cells from a node up to the root. -/
def Node.chain : Node → List Cell
  | .mk x y _ _ none => [(x, y)]
  | .mk x y _ _ (some p) => (x, y) :: p.chain

/-- The test `0 <= x < gridWidth && 0 <= y < gridHeight`. -/
def inGrid (gw gh : Int) (x y : Int) : Prop := 0 ≤ x ∧ x < gw ∧ 0 ≤ y ∧ y < gh

instance (gw gh x y : Int) : Decidable (inGrid gw gh x y) :=
  inferInstanceAs (Decidable (0 ≤ x ∧ x < gw ∧ 0 ≤ y ∧ y < gh))

/-- Take out of a list of nodes a node of least `f`; among several of least
`f` the one that comes last in the list. -/
def extractMin : List Node → Option (Node × List Node)
  | [] => none
  | n :: rest =>
      match extractMin rest with
      | none => some (n, [])
      | some (m, rest1) => if n.f < m.f then some (n, rest) else some (m, n :: rest1)

/-- `openList.top(); openList.pop()` on the `std::priority_queue` ordered by
`CompareNodes`: a node of least `f` leaves the queue.  Which of several nodes
of least `f` leaves is not fixed by the source; here the number `choice`
decides it (the queue is rotated by `choice` before the last node of least
`f` is taken, so every node of least `f` is taken for some `choice`). -/
def popMin (choice : Nat) (openList : List Node) : Option (Node × List Node) :=
  extractMin (openList.rotate choice)

/-- The arrays `dx = {1, 0, -1, 0}` and `dy = {0, 1, 0, -1}`, index by index. -/
def dirs : List (Int × Int) := List.zip [1, 0, -1, 0] [0, 1, 0, -1]

/-- `closedList[y][x]`, read as `closedList y x`. -/
abbrev Closed := Int → Int → Bool

/-- The assignment `closedList[y][x] = true` for an index inside the vector.
With an index outside it the assignment is undefined behaviour; the loop in
which this is checked is `searchLoopChecked`. -/
def Closed.mark (cl : Closed) (y x : Int) : Closed :=
  fun r c => if r = y ∧ c = x then true else cl r c

/-- The loop `for (int i = 0; i < 4; ++i)` of `bestPath`: each neighbour of
`cur` that is in bounds, reads 0 in the grid and is not closed gets a new
node, pushed on the open list. -/
def expand (gw gh : Int) (grid : Grid) (closedList : Closed) (tx ty : Int) (cur : Node)
    (openList : List Node) : List Node :=
  dirs.foldl (fun o d =>
    let nextX := cur.x + d.1
    let nextY := cur.y + d.2
    if nextX ≥ 0 ∧ nextX < gw ∧ nextY ≥ 0 ∧ nextY < gh ∧ grid nextY nextX = 0 ∧
        closedList nextY nextX = false then
      o ++ [Node.mk nextX nextY (cur.g + 1) (manhattanDistance nextX nextY tx ty) (some cur)]
    else o) openList

/-- The loop `while (!openList.empty())` of `bestPath`.  The first argument
bounds the number of iterations (`none`: bound reached before the loop
ended); `k` counts the pops made so far and `tie k` settles the choice among
nodes of equal `f` at pop `k`.  The result is the vector `path` at the end of
the loop. -/
def searchLoop (gw gh : Int) (grid : Grid) (tie : Nat → Nat) (tx ty : Int) :
    Nat → Nat → List Node → Closed → Option (List Cell)
  | 0, _, _, _ => none
  | fuel + 1, k, openList, closedList =>
      match popMin (tie k) openList with
      | none => some []
      | some (cur, rest) =>
          if cur.x = tx ∧ cur.y = ty then some cur.chain.reverse
          else
            searchLoop gw gh grid tie tx ty fuel (k + 1)
              (expand gw gh grid (closedList.mark cur.y cur.x) tx ty cur rest)
              (closedList.mark cur.y cur.x)

/-- A number of iterations that the loop of `bestPath` never reaches (see
`searchLoop_terminates`). -/
def searchFuel (gw gh : Int) : Nat := 4 * 5 ^ (gw.toNat * gh.toNat) + 2

/-- `AISystem::bestPath` from the start cell `(sx, sy)` to the target cell
`(tx, ty)`: the early return, then the search. -/
def bestPathCells (gw gh : Int) (grid : Grid) (tie : Nat → Nat) (sx sy tx ty : Int) :
    List Cell :=
  if grid ty tx = 1 ∨ ty ≥ gh then []
  else
    (searchLoop gw gh grid tie tx ty (searchFuel gw gh) 0
      [Node.mk sx sy 0 (manhattanDistance sx sy tx ty) none] (fun _ _ => false)).getD []

/-- The conversion `ceil(p / gridSize) - 1` of a world coordinate to a cell
index. -/
def worldToCell (p : ℚ) : Int := ⌈p / (gridSize : ℚ)⌉ - 1

/-- `AISystem::bestPath(eMotion, pMotion)`. -/
def bestPath (gw gh : Int) (grid : Grid) (tie : Nat → Nat) (eMotion pMotion : Motion) :
    List Cell :=
  bestPathCells gw gh grid tie
    (worldToCell eMotion.position.x) (worldToCell eMotion.position.y)
    (worldToCell pMotion.position.x) (worldToCell pMotion.position.y)

/-! ## The entity registry -/

/-- An entity: an opaque identifier. -/
abbrev Entity := Nat

/-- The part of `registry` that the systems at hand use.  `motions` is the
container `registry.motions`: `entities[i]` paired with `components[i]`.
The other containers are kept by their `entities` vectors, in container
order; `collisions` holds for every entry its entity and the `other` entity
of the `Collision` component. -/
structure Registry where
  motions : List (Entity × Motion)
  players : List Entity
  platforms : List Entity
  paintCans : List Entity
  boulders : List Entity
  deathTimers : List Entity
  collisions : List (Entity × Entity)

/-- `registry.motions.get(e)`; `none` stands for the failed assertion of the
container when the entity has no `Motion`. -/
def Registry.getMotion (reg : Registry) (e : Entity) : Option Motion :=
  (reg.motions.find? fun em => em.1 == e).map Prod.snd

/-- Replace the component of entity `e` in a motion container. -/
def setInStore (e : Entity) (m : Motion) : List (Entity × Motion) → List (Entity × Motion)
  | [] => []
  | (e1, m1) :: rest => if e1 == e then (e1, m) :: rest else (e1, m1) :: setInStore e m rest

/-- A write through the reference `registry.motions.get(e)`. -/
def Registry.setMotion (reg : Registry) (e : Entity) (m : Motion) : Registry :=
  { reg with motions := setInStore e m reg.motions }

/-- Replace the component at index `i` of a motion container. -/
def setAtStore : Nat → Motion → List (Entity × Motion) → List (Entity × Motion)
  | _, _, [] => []
  | 0, m, (e1, _) :: rest => (e1, m) :: rest
  | i + 1, m, em :: rest => em :: setAtStore i m rest

/-- A write through the reference `registry.motions.components[i]`. -/
def Registry.setAt (reg : Registry) (i : Nat) (m : Motion) : Registry :=
  { reg with motions := setAtStore i m reg.motions }

/-- Two registries hold the same entities in every container and the same
collision events; only `Motion` components may differ. -/
def Registry.sameFrame (reg0 reg : Registry) : Prop :=
  reg.motions.map Prod.fst = reg0.motions.map Prod.fst ∧ reg.players = reg0.players ∧
    reg.platforms = reg0.platforms ∧ reg.paintCans = reg0.paintCans ∧
    reg.boulders = reg0.boulders ∧ reg.deathTimers = reg0.deathTimers ∧
    reg.collisions = reg0.collisions

/-! ## Line of sight (`AISystem::hasLineOfSight`) -/

/-- The loop of `hasLineOfSight` over the motion container. -/
def losLoop (platforms : List Entity) (minX maxX minY maxY : ℚ) :
    List (Entity × Motion) → Bool
  | [] => true
  | (entity, motion) :: rest =>
      if entity ∉ platforms then losLoop platforms minX maxX minY maxY rest
      else
        let platformLeft := motion.position.x - motion.scale.x / 2
        let platformRight := motion.position.x + motion.scale.x / 2
        let platformTop := motion.position.y + motion.scale.y / 2
        let platformBottom := motion.position.y - motion.scale.y / 2
        let intersectsX : Bool := decide (platformLeft ≤ maxX ∧ platformRight ≥ minX)
        let intersectsY : Bool := decide (platformBottom ≤ maxY ∧ platformTop ≥ minY)
        if intersectsX && intersectsY then false
        else losLoop platforms minX maxX minY maxY rest

/-- `AISystem::hasLineOfSight(start, end)`. -/
def hasLineOfSight (reg : Registry) (start stop : Vec2) : Bool :=
  losLoop reg.platforms (min start.x stop.x) (max start.x stop.x) (min start.y stop.y)
    (max start.y stop.y) reg.motions

/-- An axis-aligned rectangle given by its four edges. -/
structure Rect where
  xlo : ℚ
  xhi : ℚ
  ylo : ℚ
  yhi : ℚ

/-- The AABB of a `Motion`: centre `position`, full size `scale`. -/
def aabb (m : Motion) : Rect :=
  ⟨m.position.x - m.scale.x / 2, m.position.x + m.scale.x / 2,
    m.position.y - m.scale.y / 2, m.position.y + m.scale.y / 2⟩

/-- The axis-aligned bounding rectangle of two points. -/
def boundingRect (a b : Vec2) : Rect :=
  ⟨min a.x b.x, max a.x b.x, min a.y b.y, max a.y b.y⟩

/-- Two rectangles overlap, touching included: neither lies strictly to one
side of the other, on either axis. -/
def Rect.overlaps (r s : Rect) : Prop :=
  ¬ (r.xhi < s.xlo ∨ s.xhi < r.xlo ∨ r.yhi < s.ylo ∨ s.yhi < r.ylo)

/-! ## Physics (`PhysicsSystem`) -/

/-- The constants `gravity`, `terminal_velocity`, `jump_height` and
`window_width_px`, declared in headers that are not part of the sources at
hand. -/
structure Consts where
  gravity : ℚ
  terminal_velocity : ℚ
  jump_height : ℚ
  window_width_px : ℚ

/-- The two tests of `collisionSystem` that `PhysicsSystem` calls; the class
is not part of the sources at hand. -/
structure CollisionSystem where
  collides : Motion → Entity → Motion → Entity → Bool
  rectangleCollides : Motion → Motion → Bool

/-- Modelled from the spec: the rectangle test of the missing
`CollisionSystem` (`rectanglesOverlap`), "inclusive of touching edges:
`<=`/`>=` comparisons count as overlap", on the rectangles of centre
`position` and size `|scale|`. -/
def rectanglesOverlap (a b : Motion) : Bool :=
  decide (a.position.y - |a.scale.y| / 2 ≤ b.position.y + |b.scale.y| / 2 ∧
    b.position.y - |b.scale.y| / 2 ≤ a.position.y + |a.scale.y| / 2 ∧
    a.position.x - |a.scale.x| / 2 ≤ b.position.x + |b.scale.x| / 2 ∧
    b.position.x - |b.scale.x| / 2 ≤ a.position.x + |a.scale.x| / 2)

/-- `glm::clamp(x, lo, hi)`. -/
def clamp (x lo hi : ℚ) : ℚ := min (max x lo) hi

/-- The block "decide y accel and vel" of `PhysicsSystem::step`. -/
def verticalUpdate (c : Consts) (isBoulder : Bool) (elapsed_ms : ℚ) (m : Motion) : Motion :=
  if m.isJumping then
    if m.timeJumping ≤ 150 then
      { m with
        grounded := false
        velocity := ⟨m.velocity.x, -c.jump_height⟩
        acceleration := ⟨m.acceleration.x, 0⟩
        timeJumping := m.timeJumping + elapsed_ms }
    else { m with isJumping := false }
  else if m.grounded then
    { m with
      jumpsLeft := 1
      acceleration := ⟨m.acceleration.x, 0⟩
      velocity := ⟨m.velocity.x, 0⟩ }
  else if isBoulder then
    { m with
      acceleration := ⟨m.acceleration.x, c.gravity / 20⟩
      velocity := ⟨m.velocity.x,
        clamp (m.velocity.y + c.gravity / 20) (-c.terminal_velocity) c.terminal_velocity⟩ }
  else if !m.notAffectedByGravity then
    { m with
      acceleration := ⟨m.acceleration.x, c.gravity⟩
      velocity := ⟨m.velocity.x,
        clamp (m.velocity.y + c.gravity) (-c.terminal_velocity) c.terminal_velocity⟩ }
  else m

/-- `PhysicsSystem::checkWindowBoundary`. -/
def checkWindowBoundary (c : Consts) (m : Motion) : Motion :=
  if m.position.x - |m.scale.x| / 2 < 0 then
    { m with position := ⟨m.position.x + 1, m.position.y⟩, velocity := ⟨0, m.velocity.y⟩ }
  else if m.position.x + |m.scale.x| / 2 > c.window_width_px then
    { m with position := ⟨m.position.x - 1, m.position.y⟩, velocity := ⟨0, m.velocity.y⟩ }
  else if m.position.y - |m.scale.y| / 2 < 0 then
    { m with position := ⟨m.position.x, m.position.y + 1⟩, velocity := ⟨m.velocity.x, 0⟩ }
  else m

/-- `PhysicsSystem::applyFriction`. -/
def applyFriction (c : Consts) (m : Motion) : Motion :=
  if m.velocity.x ≠ 0 ∧ m.acceleration.x ≠ 0 then
    if |m.velocity.x| < |m.acceleration.x| then
      { m with velocity := ⟨0, m.velocity.y⟩ }
    else
      { m with velocity :=
          ⟨clamp (m.velocity.x + m.acceleration.x) (-c.terminal_velocity) c.terminal_velocity,
            m.velocity.y⟩ }
  else { m with acceleration := ⟨0, m.acceleration.y⟩ }

/-- The inner loop of `updatePaintCanGroundedState`: the `Motion` of the
first platform, in container order, that collides with `m`, if any; the
outer `none` is a platform without `Motion`. -/
def firstPlatformHit (cs : CollisionSystem) (reg : Registry) (m : Motion) :
    List Entity → Option (Option Motion)
  | [] => some none
  | platformEntity :: rest =>
      match reg.getMotion platformEntity with
      | none => none
      | some platformMotion =>
          if cs.rectangleCollides m platformMotion then some (some platformMotion)
          else firstPlatformHit cs reg m rest

/-- The body of the loop over the paint cans of `updatePaintCanGroundedState`. -/
def updatePaintCan (cs : CollisionSystem) (reg : Registry) (paintCanEntity : Entity) :
    Option Registry :=
  match reg.getMotion paintCanEntity with
  | none => none
  | some paintCanMotion =>
      match firstPlatformHit cs reg paintCanMotion reg.platforms with
      | none => none
      | some (some platformMotion) =>
          some (reg.setMotion paintCanEntity
            { paintCanMotion with
              grounded := true
              velocity := ⟨paintCanMotion.velocity.x, 0⟩
              position := ⟨paintCanMotion.position.x,
                platformMotion.position.y + platformMotion.scale.y / 2 -
                  paintCanMotion.scale.y / 2⟩ })
      | some none => some (reg.setMotion paintCanEntity { paintCanMotion with grounded := false })

/-- Run a fallible step over a list, threading the registry. -/
def forEachM {α : Type} (body : Registry → α → Option Registry) :
    List α → Registry → Option Registry
  | [], reg => some reg
  | a :: rest, reg =>
      match body reg a with
      | none => none
      | some reg1 => forEachM body rest reg1

/-- `PhysicsSystem::updatePaintCanGroundedState`. -/
def updatePaintCanGroundedState (cs : CollisionSystem) (reg : Registry) : Option Registry :=
  forEachM (updatePaintCan cs) reg.paintCans reg

/-- The body of the first loop of `PhysicsSystem::step`, for index `i` of the
motion container. -/
def integrateAt (c : Consts) (cs : CollisionSystem) (elapsed_ms : ℚ) (reg : Registry)
    (i : Nat) : Option Registry :=
  match reg.motions[i]? with
  | none => some reg
  | some (entity, motion) =>
      if motion.fixed then some reg
      else
        let step_seconds := elapsed_ms / 1000
        let m1 := verticalUpdate c (decide (entity ∈ reg.boulders)) elapsed_ms motion
        let m2 :=
          if entity ∈ reg.players then
            let m3 := applyFriction c (checkWindowBoundary c m1)
            if entity ∈ reg.deathTimers then { m3 with velocity := ⟨0, m3.velocity.y⟩ } else m3
          else m1
        match updatePaintCanGroundedState cs (reg.setAt i m2) with
        | none => none
        | some reg1 =>
            match reg1.motions[i]? with
            | none => some reg1
            | some (_, m4) =>
                some (reg1.setAt i
                  { m4 with position :=
                      ⟨m4.position.x + m4.velocity.x * step_seconds,
                        m4.position.y + m4.velocity.y * step_seconds⟩ })

/-- The first loop of `PhysicsSystem::step`. -/
def integrateAll (c : Consts) (cs : CollisionSystem) (elapsed_ms : ℚ) (reg : Registry) :
    Option Registry :=
  forEachM (integrateAt c cs elapsed_ms) (List.range reg.motions.length) reg

/-- The body of the inner loop of the collision pass for the indices `i`, `j`:
the events it adds. -/
def pairEvents (cs : CollisionSystem) (ms : List (Entity × Motion)) (i j : Nat) :
    List (Entity × Entity) :=
  match ms[i]?, ms[j]? with
  | some (entity_i, motion_i), some (entity_j, motion_j) =>
      if cs.collides motion_i entity_i motion_j entity_j then
        [(entity_i, entity_j), (entity_j, entity_i)]
      else []
  | _, _ => []

/-- The collision pass of `PhysicsSystem::step`: `for i in [0, n)`,
`for j in [i+1, n)`; the events it adds, in order. -/
def collisionEvents (cs : CollisionSystem) (ms : List (Entity × Motion)) :
    List (Entity × Entity) :=
  (List.range ms.length).flatMap fun i =>
    (List.range' (i + 1) (ms.length - (i + 1))).flatMap fun j => pairEvents cs ms i j

/-- The last loop of `PhysicsSystem::step`: does some platform, up to the
first that does, collide with the player; `none` is a platform without
`Motion`. -/
def touchingAnyPlatform (cs : CollisionSystem) (reg : Registry) (player : Motion) :
    List Entity → Option Bool
  | [] => some false
  | platformEntity :: rest =>
      match reg.getMotion platformEntity with
      | none => none
      | some platform =>
          if cs.rectangleCollides platform player then some true
          else touchingAnyPlatform cs reg player rest

/-- The end of `PhysicsSystem::step`: the grounded flag of the player, who is
`registry.players.entities[0]`. -/
def updatePlayerGrounded (cs : CollisionSystem) (reg : Registry) : Option Registry :=
  match reg.players.head? with
  | none => none
  | some playerEntity =>
      match reg.getMotion playerEntity with
      | none => none
      | some player =>
          match touchingAnyPlatform cs reg player reg.platforms with
          | none => none
          | some touching =>
              some (reg.setMotion playerEntity { player with grounded := touching })

/-- `PhysicsSystem::step(elapsed_ms)`; `none` stands for a failed lookup in a
container (a paint can, a platform or the player without `Motion`, or no
player at all). -/
def PhysicsSystem.step (c : Consts) (cs : CollisionSystem) (elapsed_ms : ℚ) (reg : Registry) :
    Option Registry :=
  match integrateAll c cs elapsed_ms reg with
  | none => none
  | some reg1 =>
      updatePlayerGrounded cs
        { reg1 with collisions := reg1.collisions ++ collisionEvents cs reg1.motions }

/-- The entities at the indices `i` and `j` of the motion container collide. -/
def collidesAt (cs : CollisionSystem) (ms : List (Entity × Motion)) (i j : Nat) : Bool :=
  match ms[i]?, ms[j]? with
  | some (entity_i, motion_i), some (entity_j, motion_j) =>
      cs.collides motion_i entity_i motion_j entity_j
  | _, _ => false

/-- The index pairs `i < j` of the motion container whose entities collide,
in the order of the index `i`, then `j`. -/
def collidingPairs (cs : CollisionSystem) (ms : List (Entity × Motion)) : List (Nat × Nat) :=
  (List.range ms.length).flatMap fun i =>
    ((List.range ms.length).filter fun j => decide (i < j) && collidesAt cs ms i j).map
      fun j => (i, j)

/-- The two directed events of the index pair `(i, j)`. -/
def directedEvents (ms : List (Entity × Motion)) (p : Nat × Nat) : List (Entity × Entity) :=
  match ms[p.1]?, ms[p.2]? with
  | some (entity_i, _), some (entity_j, _) => [(entity_i, entity_j), (entity_j, entity_i)]
  | _, _ => []

/-! ### A concrete registry, used to run the step on -/

/-- Constants for the example: gravity 10, terminal velocity 600, jump
height 500, window width 1920. -/
def exampleConsts : Consts := ⟨10, 600, 500, 1920⟩

/-- The collision system of the example: both tests are the rectangle test
of the spec. -/
def exampleCollisions : CollisionSystem :=
  ⟨fun a _ b _ => rectanglesOverlap a b, rectanglesOverlap⟩

/-- The example registry: the player (entity 0) standing on a fixed platform
(entity 1, centre (50,100), size 100x10), and a paint can (entity 2) on the
right end of the platform, moving right at 200 units per second. -/
def exampleRegistry : Registry :=
  { motions := [(0, { motionAt 50 92 10 10 with grounded := true }),
      (1, { motionAt 50 100 100 10 with fixed := true }),
      (2, { motionAt 104 92 10 10 with grounded := true, velocity := ⟨200, 0⟩ })],
    players := [0], platforms := [1], paintCans := [2], boulders := [], deathTimers := [],
    collisions := [] }

/-- The example registry after one step of 16 ms (see `step_example`). -/
def exampleAfter : Registry :=
  { motions := [(0, { motionAt 50 92 10 10 with grounded := true, jumpsLeft := 1 }),
      (1, { motionAt 50 100 100 10 with fixed := true }),
      (2, { motionAt (536 / 5) 100 10 10 with
        grounded := true, velocity := ⟨200, 0⟩, jumpsLeft := 1 })],
    players := [0], platforms := [1], paintCans := [2], boulders := [], deathTimers := [],
    collisions := [(0, 1), (1, 0)] }

/-! ### Notions used to state the properties of the search -/

/-- One move of the search: from a cell to one of its four neighbours, which
is inside the grid and reads 0 there. -/
def Step (gw gh : Int) (grid : Grid) (a b : Cell) : Prop :=
  ∃ d ∈ dirs, b = (a.1 + d.1, a.2 + d.2) ∧ inGrid gw gh b.1 b.2 ∧ grid b.2 b.1 = 0

instance (gw gh : Int) (grid : Grid) (a b : Cell) : Decidable (Step gw gh grid a b) :=
  inferInstanceAs (Decidable
    (∃ d ∈ dirs, b = (a.1 + d.1, a.2 + d.2) ∧ inGrid gw gh b.1 b.2 ∧ grid b.2 b.1 = 0))

/-- Every two consecutive cells of the list are one move of the search
apart; a check that can be run. -/
def stepsOK (gw gh : Int) (grid : Grid) : List Cell → Bool
  | a :: b :: rest => decide (Step gw gh grid a b) && stepsOK gw gh grid (b :: rest)
  | _ => true

/-- Cell `b` can be reached from cell `a` by moves of the search. -/
def Reach (gw gh : Int) (grid : Grid) : Cell → Cell → Prop :=
  Relation.ReflTransGen (Step gw gh grid)

/-- Two cells differ by exactly 1 in exactly one coordinate. -/
def unitStep (a b : Cell) : Prop :=
  (iabs (b.1 - a.1) = 1 ∧ b.2 = a.2) ∨ (b.1 = a.1 ∧ iabs (b.2 - a.2) = 1)

instance (a b : Cell) : Decidable (unitStep a b) :=
  inferInstanceAs (Decidable
    ((iabs (b.1 - a.1) = 1 ∧ b.2 = a.2) ∨ (b.1 = a.1 ∧ iabs (b.2 - a.2) = 1)))

/-- The nodes that a search from `(sx, sy)` to `(tx, ty)` can allocate: the
root, and for a node already allocated the node of a neighbour pushed by
`expand`. -/
inductive NodeOK (gw gh : Int) (grid : Grid) (sx sy tx ty : Int) : Node → Prop
  | root : NodeOK gw gh grid sx sy tx ty
      (Node.mk sx sy 0 (manhattanDistance sx sy tx ty) none)
  | child (p : Node) (d : Int × Int) :
      NodeOK gw gh grid sx sy tx ty p → d ∈ dirs →
      inGrid gw gh (p.x + d.1) (p.y + d.2) → grid (p.y + d.2) (p.x + d.1) = 0 →
      NodeOK gw gh grid sx sy tx ty
        (Node.mk (p.x + d.1) (p.y + d.2) (p.g + 1)
          (manhattanDistance (p.x + d.1) (p.y + d.2) tx ty) (some p))

/-! ### The measure that bounds the number of iterations of the search -/

/-- The cells of the grid as (row, column). -/
def gridCells (gw gh : Int) : List (Int × Int) :=
  (List.range gh.toNat).flatMap fun r =>
    (List.range gw.toNat).map fun c => (Int.ofNat r, Int.ofNat c)

/-- The number of cells of the grid that are not closed. -/
def unclosed (gw gh : Int) (cl : Closed) : Nat :=
  (gridCells gw gh).countP fun rc => !(cl rc.1 rc.2)

/-- A node sits on a cell of the grid that is not closed. -/
def fresh (gw gh : Int) (cl : Closed) (n : Node) : Prop :=
  inGrid gw gh n.x n.y ∧ cl n.y n.x = false

instance (gw gh : Int) (cl : Closed) (n : Node) : Decidable (fresh gw gh cl n) :=
  inferInstanceAs (Decidable (inGrid gw gh n.x n.y ∧ cl n.y n.x = false))

/-- A bound on the number of iterations one queued node can still cause. -/
def weight (gw gh : Int) (cl : Closed) (n : Node) : Nat :=
  if fresh gw gh cl n then 5 ^ unclosed gw gh cl else 4 * 5 ^ unclosed gw gh cl + 1

/-- The sum of the weights of the queued nodes: it falls with every
iteration of the search loop. -/
def loopMeasure (gw gh : Int) (o : List Node) (cl : Closed) : Nat :=
  (o.map (weight gw gh cl)).sum

/-- The invariant of the search loop on a grid without obstacles: the
nodes are ones the search allocates; no closed cell is the target, and each
neighbour of a closed cell that is closer to the target is closed or queued
with the least possible `f`; the same holds for the start cell; closed cells
lie in the grid. -/
def FreeInv (gw gh : Int) (grid : Grid) (sx sy tx ty : Int) (o : List Node) (cl : Closed) :
    Prop :=
  (∀ n ∈ o, NodeOK gw gh grid sx sy tx ty n) ∧
  (∀ r c, cl r c = true → ¬ (c = tx ∧ r = ty) ∧ ∀ d ∈ dirs,
    manhattanDistance (c + d.1) (r + d.2) tx ty + 1 = manhattanDistance c r tx ty →
      cl (r + d.2) (c + d.1) = true ∨
        ∃ n ∈ o, n.x = c + d.1 ∧ n.y = r + d.2 ∧ n.f = manhattanDistance sx sy tx ty) ∧
  (cl sy sx = true ∨ ∃ n ∈ o, n.x = sx ∧ n.y = sy ∧ n.f = manhattanDistance sx sy tx ty) ∧
  (∀ r c, cl r c = true → inGrid gw gh c r)

/-- The invariant of the search loop on any grid: the nodes are ones the
search allocates; no closed cell is the target, and every cell one move away
from a closed cell is closed or queued; the same holds for the start cell. -/
def ReachInv (gw gh : Int) (grid : Grid) (sx sy tx ty : Int) (o : List Node) (cl : Closed) :
    Prop :=
  (∀ n ∈ o, NodeOK gw gh grid sx sy tx ty n) ∧
  (∀ r c, cl r c = true → ¬ (c = tx ∧ r = ty) ∧ ∀ b, Step gw gh grid (c, r) b →
      cl b.2 b.1 = true ∨ ∃ n ∈ o, n.x = b.1 ∧ n.y = b.2) ∧
  (cl sy sx = true ∨ ∃ n ∈ o, n.x = sx ∧ n.y = sy)

/-! ### The search with its bookkeeping made visible -/

/-- What one run of the loop of `bestPath` leaves behind: the vector `path`;
the nodes created by `new Node` (the source has no `delete`, so these are
the nodes still allocated when the call returns); the cells of the nodes
popped as `current`, in order; and the open list at the end. -/
structure SearchRun where
  path : List Cell
  allocated : List Node
  popped : List Cell
  openAtEnd : List Node

/-- The loop of `bestPath` as in `searchLoop`, recording in addition every
`new Node` and every pop. -/
def searchRun (gw gh : Int) (grid : Grid) (tie : Nat → Nat) (tx ty : Int) :
    Nat → Nat → List Node → Closed → List Node → List Cell → Option SearchRun
  | 0, _, _, _, _, _ => none
  | fuel + 1, k, openList, closedList, heap, pops =>
      match popMin (tie k) openList with
      | none => some ⟨[], heap, pops, []⟩
      | some (cur, rest) =>
          if cur.x = tx ∧ cur.y = ty then
            some ⟨cur.chain.reverse, heap, pops ++ [(cur.x, cur.y)], rest⟩
          else
            searchRun gw gh grid tie tx ty fuel (k + 1)
              (expand gw gh grid (closedList.mark cur.y cur.x) tx ty cur rest)
              (closedList.mark cur.y cur.x)
              (expand gw gh grid (closedList.mark cur.y cur.x) tx ty cur heap)
              (pops ++ [(cur.x, cur.y)])

/-- `AISystem::bestPath` from cell to cell with its bookkeeping: after the
early return nothing was allocated or popped; otherwise the start node is
allocated and the loop runs. -/
def bestPathRun (gw gh : Int) (grid : Grid) (tie : Nat → Nat) (sx sy tx ty : Int) :
    SearchRun :=
  if grid ty tx = 1 ∨ ty ≥ gh then ⟨[], [], [], []⟩
  else
    (searchRun gw gh grid tie tx ty (searchFuel gw gh) 0
      [Node.mk sx sy 0 (manhattanDistance sx sy tx ty) none] (fun _ _ => false)
      [Node.mk sx sy 0 (manhattanDistance sx sy tx ty) none] []).getD ⟨[], [], [], []⟩

/-- The grid of four columns and two rows whose column 2 is occupied: the
cells of columns 0 and 1 are cut off from column 3. -/
def wallGrid : Grid := fun _ c => if c = 2 then 1 else 0

/-- `AISystem::bestPath(eMotion, pMotion)` with its bookkeeping. -/
def bestPathTrace (gw gh : Int) (grid : Grid) (tie : Nat → Nat) (eMotion pMotion : Motion) :
    SearchRun :=
  bestPathRun gw gh grid tie
    (worldToCell eMotion.position.x) (worldToCell eMotion.position.y)
    (worldToCell pMotion.position.x) (worldToCell pMotion.position.y)

/-- The grid of four columns and four rows whose cells (row 0, column 2) and
(row 1, column 3) are occupied: they cut the cell (row 0, column 3) off from
the other free cells. -/
def pocketGrid : Grid := fun r c => if (r = 0 ∧ c = 2) ∨ (r = 1 ∧ c = 3) then 1 else 0

/-! ### `AISystem::rectangleCollides` and the geometry of AABBs -/

/-- `AISystem::rectangleCollides(motion1, motion2)`. -/
def AISystem.rectangleCollides (motion1 motion2 : Motion) : Bool :=
  let y_val : Bool :=
    decide (motion1.position.y - |motion1.scale.y| / 2 <
        motion2.position.y + |motion2.scale.y| / 2 ∧
      motion2.position.y - |motion2.scale.y| / 2 <
        motion1.position.y + |motion1.scale.y| / 2)
  let x_val : Bool :=
    decide (motion1.position.x - |motion1.scale.x / 2| <
        motion2.position.x + |motion2.scale.x| / 2 ∧
      motion2.position.x - |motion2.scale.x / 2| <
        motion1.position.x + |motion1.scale.x| / 2)
  y_val && x_val

/-- The AABB of a `Motion` as a rectangle: centre `position`, size `|scale|`. -/
def aabbAbs (m : Motion) : Rect :=
  ⟨m.position.x - |m.scale.x| / 2, m.position.x + |m.scale.x| / 2,
    m.position.y - |m.scale.y| / 2, m.position.y + |m.scale.y| / 2⟩

/-- Two rectangles overlap by more than a boundary: on each axis the low
edge of either is strictly below the high edge of the other. -/
def Rect.overlapsStrictly (r s : Rect) : Prop :=
  ¬ (r.xhi ≤ s.xlo ∨ s.xhi ≤ r.xlo ∨ r.yhi ≤ s.ylo ∨ s.yhi ≤ r.ylo)

/-- A point lies inside a rectangle or on its boundary. -/
def Rect.contains (r : Rect) (p : Vec2) : Prop :=
  r.xlo ≤ p.x ∧ p.x ≤ r.xhi ∧ r.ylo ≤ p.y ∧ p.y ≤ r.yhi

/-- The point of the straight segment from `a` to `b` at parameter `t`. -/
def segmentPoint (a b : Vec2) (t : ℚ) : Vec2 :=
  ⟨a.x + t * (b.x - a.x), a.y + t * (b.y - a.y)⟩

/-- Apply `applyFriction` `n` times. -/
def frictionSteps (c : Consts) : Nat → Motion → Motion
  | 0, m => m
  | n + 1, m => frictionSteps c n (applyFriction c m)

/-- A `Motion` with horizontal velocity 12 and horizontal acceleration -5. -/
def brakingMotion : Motion :=
  { motionAt 100 100 10 10 with velocity := ⟨12, 0⟩, acceleration := ⟨-5, 0⟩ }

/-- A registry holding one platform (entity 1) of centre (50,100) and size
100x10 and nothing else. -/
def onePlatformRegistry : Registry :=
  { motions := [(1, { motionAt 50 100 100 10 with fixed := true })],
    players := [], platforms := [1], paintCans := [], boulders := [], deathTimers := [],
    collisions := [] }

/-! ## Following the path (`WorldSystem::step`, `advancedAIlerp`) -/

/-- `advancedAIlerp(x0, y0, x1, y1, t)`. -/
def advancedAIlerp (x0 y0 x1 y1 t : ℚ) : ℚ × ℚ :=
  (x0 + t * (x1 - x0), y0 + t * (y1 - y0))

/-- Conversion of a `float` to `int`: the fractional part is dropped. -/
def truncToInt (q : ℚ) : Int := if 0 ≤ q then ⌊q⌋ else ⌈q⌉

/-- The members of `WorldSystem` that the pursuit block of
`WorldSystem::step` reads or writes; `walls` stands for
`levelManager.levels[level].walls` and `grid` for the grid of `aiSystem`. -/
structure WorldSystem where
  level : Int
  player : Entity
  advancedBoulder : Entity
  walls : List InitWall
  FrameCount : Int
  FrameInterval : Int
  bestPath : List Cell
  currentNode : Int
  grid : Grid

/-- The point `(x1, y1)` that the pursuit block computes for the path cell
`next`, the hazard being at `(x0, y0)`: `(first + 1) * gridSize`, replaced by
`first * gridSize` when `x0 > x1`, and likewise for `second`. -/
def followTarget (x0 y0 : ℚ) (next : Cell) : ℚ × ℚ :=
  let x1 : ℚ := (((next.1 + 1) * gridSize : Int) : ℚ)
  let y1 : ℚ := (((next.2 + 1) * gridSize : Int) : ℚ)
  (if x0 > x1 then ((next.1 * gridSize : Int) : ℚ) else x1,
    if y0 > y1 then ((next.2 * gridSize : Int) : ℚ) else y1)

/-- The block `if (bestPath.size() != 0 && currentNode < bestPath.size() - 1)`
of `WorldSystem::step`.  The comparison is made in `size_t`, where a
negative `currentNode` is larger than every size; `distance < 1` for the
square root of the sum of the squares is the sum of the squares being below
1. -/
def followPath (elapsed_ms : ℚ) (w : WorldSystem) (eMotion : Motion) : WorldSystem × Motion :=
  if w.bestPath.length ≠ 0 ∧ 0 ≤ w.currentNode ∧
      w.currentNode < (w.bestPath.length : Int) - 1 then
    match w.bestPath[(w.currentNode + 1).toNat]? with
    | none => (w, eMotion)
    | some next =>
        let x0 := eMotion.position.x
        let y0 := eMotion.position.y
        let target := followTarget x0 y0 next
        if (target.1 - x0) ^ 2 + (target.2 - y0) ^ 2 < 1 then
          ({ w with currentNode := w.currentNode + 1 }, eMotion)
        else
          let interpolatedPoint := advancedAIlerp x0 y0 target.1 target.2 (elapsed_ms / 1000)
          (w, { eMotion with position := ⟨interpolatedPoint.1, interpolatedPoint.2⟩ })
  else (w, eMotion)

/-- The block `if (FrameCount >= FrameInterval)` of `WorldSystem::step`, after
`FrameCount += elapsed_ms_since_last_update`. -/
def recomputePath (gw gh : Int) (tie : Nat → Nat) (elapsed_ms : ℚ) (w : WorldSystem)
    (eMotion pMotion : Motion) : WorldSystem :=
  let frameCount := truncToInt ((w.FrameCount : ℚ) + elapsed_ms)
  if frameCount ≥ w.FrameInterval then
    let grid := updateGrid gw gh w.walls w.grid
    { w with
      grid := grid
      bestPath := bestPath gw gh grid tie eMotion pMotion
      currentNode := 0
      FrameCount := 0 }
  else { w with FrameCount := frameCount }

/-- The pursuit block `if (!registry.deathTimers.has(player) && level == 2)`
of `WorldSystem::step`; `none` stands for a failed lookup of the `Motion` of
the hazard or of the player. -/
def pursuitBlock (gw gh : Int) (tie : Nat → Nat) (elapsed_ms : ℚ) (w : WorldSystem)
    (reg : Registry) : Option (WorldSystem × Registry) :=
  if w.player ∉ reg.deathTimers ∧ w.level = 2 then
    match reg.getMotion w.advancedBoulder, reg.getMotion w.player with
    | some eMotion, some pMotion =>
        let w1 := recomputePath gw gh tie elapsed_ms w eMotion pMotion
        let r := followPath elapsed_ms w1 eMotion
        some (r.1, reg.setMotion w.advancedBoulder r.2)
    | _, _ => none
  else some (w, reg)

/-- A pursuit under way: the hazard (entity 1) follows the path (0,0), (1,0),
(2,0) and stands at its second cell; the next recompute is due. -/
def examplePursuit : WorldSystem :=
  { level := 2, player := 0, advancedBoulder := 1, walls := [],
    FrameCount := 59, FrameInterval := 60, bestPath := [(0, 0), (1, 0), (2, 0)],
    currentNode := 1, grid := fun _ _ => 0 }

/-- The example registry with the paint can (entity 2) fixed: it overlaps the
platform at (90,94) and has the velocity (0,5). -/
def fixedCanRegistry : Registry :=
  { motions := [(0, { motionAt 50 92 10 10 with grounded := true }),
      (1, { motionAt 50 100 100 10 with fixed := true }),
      (2, { motionAt 90 94 10 10 with fixed := true, velocity := ⟨0, 5⟩ })],
    players := [0], platforms := [1], paintCans := [2], boulders := [], deathTimers := [],
    collisions := [] }

/-- The registry `fixedCanRegistry` after one step of 16 ms (see
`step_fixedCan`). -/
def fixedCanAfter : Registry :=
  { motions := [(0, { motionAt 50 92 10 10 with grounded := true, jumpsLeft := 1 }),
      (1, { motionAt 50 100 100 10 with fixed := true }),
      (2, { motionAt 90 100 10 10 with fixed := true, grounded := true })],
    players := [0], platforms := [1], paintCans := [2], boulders := [], deathTimers := [],
    collisions := [(0, 1), (1, 0), (1, 2), (2, 1)] }

/-- A registry with three gravity-exempt entities of velocity (30,40) and
zero acceleration, none fixed: entity 3 floats, entity 4 is flagged grounded,
entity 5 is a boulder; the player (entity 0) stands on the platform (entity
1). -/
def driftRegistry : Registry :=
  { motions := [(0, { motionAt 50 92 10 10 with grounded := true }),
      (1, { motionAt 50 100 100 10 with fixed := true }),
      (3, { motionAt 300 50 10 10 with notAffectedByGravity := true, velocity := ⟨30, 40⟩ }),
      (4, { motionAt 400 50 10 10 with
        notAffectedByGravity := true, grounded := true, velocity := ⟨30, 40⟩ }),
      (5, { motionAt 500 50 10 10 with notAffectedByGravity := true, velocity := ⟨30, 40⟩ })],
    players := [0], platforms := [1], paintCans := [], boulders := [5], deathTimers := [],
    collisions := [] }

/-- The registry `driftRegistry` after one step of 100 ms (see `step_drift`). -/
def driftAfter : Registry :=
  { motions := [(0, { motionAt 50 92 10 10 with grounded := true, jumpsLeft := 1 }),
      (1, { motionAt 50 100 100 10 with fixed := true }),
      (3, { motionAt 303 54 10 10 with notAffectedByGravity := true, velocity := ⟨30, 40⟩ }),
      (4, { motionAt 403 50 10 10 with
        notAffectedByGravity := true, grounded := true, velocity := ⟨30, 0⟩, jumpsLeft := 1 }),
      (5, { motionAt 503 (1081 / 20) 10 10 with
        notAffectedByGravity := true, velocity := ⟨30, 81 / 2⟩, acceleration := ⟨0, 1 / 2⟩ })],
    players := [0], platforms := [1], paintCans := [], boulders := [5], deathTimers := [],
    collisions := [(0, 1), (1, 0)] }

/-- The example registry with the paint can (entity 2) falling at 40 units
per second onto the platform: it overlaps the platform's upper edge by 2. -/
def fallingCanRegistry : Registry :=
  { motions := [(0, { motionAt 50 92 10 10 with grounded := true }),
      (1, { motionAt 50 100 100 10 with fixed := true }),
      (2, { motionAt 80 92 10 10 with velocity := ⟨0, 40⟩ })],
    players := [0], platforms := [1], paintCans := [2], boulders := [], deathTimers := [],
    collisions := [] }

/-! ## Paint cans turning at platform edges (`AISystem::updatePaintCanMovement`) -/

/-- The loop over the platforms in `updatePaintCanMovement` for the paint can
`paintCanMotion`: the `Motion` of the can after the loop.  Only the first
platform that `AISystem::rectangleCollides` reports is looked at (`break`);
`rand` is the value `rand()` returns if it is called; `none` is a platform
without `Motion`. -/
def turnAtEdge (reg : Registry) (rand : Nat) (paintCanMotion : Motion) :
    List Entity → Option Motion
  | [] => some paintCanMotion
  | platformEntity :: rest =>
      match reg.getMotion platformEntity with
      | none => none
      | some platformMotion =>
          if AISystem.rectangleCollides paintCanMotion platformMotion then
            let platformLeftEdge := platformMotion.position.x - platformMotion.scale.x / 2
            let platformRightEdge := platformMotion.position.x + platformMotion.scale.x / 2
            let m1 :=
              if paintCanMotion.position.x ≤ platformLeftEdge + paintCanMotion.scale.x ∨
                  paintCanMotion.position.x ≥ platformRightEdge - paintCanMotion.scale.x then
                { paintCanMotion with
                  velocity := ⟨paintCanMotion.velocity.x * -1, paintCanMotion.velocity.y⟩ }
              else paintCanMotion
            if m1.velocity.x = 0 then
              some { m1 with velocity := ⟨if rand % 2 = 0 then -200 else 200, m1.velocity.y⟩ }
            else some m1
          else turnAtEdge reg rand paintCanMotion rest

/-- The body of the loop over the paint cans of `updatePaintCanMovement`.
`glm::distance(a, b) < safeDistance` with `safeDistance = 150` is the squared
distance being below `150 ^ 2`. -/
def movePaintCan (player_position : Vec2) (rand : Nat) (reg : Registry)
    (paintCanEntity : Entity) : Option Registry :=
  match reg.getMotion paintCanEntity with
  | none => none
  | some paintCanMotion =>
      if !paintCanMotion.grounded then some reg
      else
        let playerIsClose : Bool :=
          decide ((paintCanMotion.position.x - player_position.x) ^ 2 +
            (paintCanMotion.position.y - player_position.y) ^ 2 < 150 ^ 2)
        if playerIsClose then
          if paintCanMotion.position.x < player_position.x then
            some (reg.setMotion paintCanEntity
              { paintCanMotion with velocity := ⟨-200, paintCanMotion.velocity.y⟩ })
          else
            some (reg.setMotion paintCanEntity
              { paintCanMotion with velocity := ⟨200, paintCanMotion.velocity.y⟩ })
        else
          match turnAtEdge reg rand paintCanMotion reg.platforms with
          | none => none
          | some m1 => some (reg.setMotion paintCanEntity m1)

/-- `AISystem::updatePaintCanMovement(player_position)`; `rand i` is the
value that `rand()` returns if the iteration for the paint can at index `i`
of the container calls it. -/
def updatePaintCanMovement (player_position : Vec2) (rand : Nat → Nat) (reg : Registry) :
    Option Registry :=
  forEachM (fun r (ie : Nat × Entity) => movePaintCan player_position (rand ie.1) r ie.2)
    reg.paintCans.enum reg

/-- The example registry with the paint can (entity 2) grounded on the
platform, centre (8,92), moving right at 200 units per second; a second
paint can (entity 3) stands still further right. -/
def edgeCanRegistry : Registry :=
  { motions := [(0, { motionAt 500 92 10 10 with grounded := true }),
      (1, { motionAt 50 100 100 10 with fixed := true }),
      (2, { motionAt 8 92 10 10 with grounded := true, velocity := ⟨200, 0⟩ }),
      (3, { motionAt 50 92 10 10 with grounded := true })],
    players := [0], platforms := [1], paintCans := [3, 2], boulders := [], deathTimers := [],
    collisions := [] }

/-- Registry `reg` has the platforms of `reg0`, and every `Motion` of `reg0`
is in `reg` with the same position and scale. -/
def Registry.sameGeometry (reg0 reg : Registry) : Prop :=
  reg.platforms = reg0.platforms ∧
    ∀ x m0, reg0.getMotion x = some m0 →
      ∃ m1, reg.getMotion x = some m1 ∧ m1.position = m0.position ∧ m1.scale = m0.scale

/-! ### Shortest paths -/

/-- Cell `b` is reached from cell `a` by exactly `k` moves of the search. -/
inductive Walk (gw gh : Int) (grid : Grid) (a : Cell) : Cell → Nat → Prop
  | refl : Walk gw gh grid a a 0
  | tail {b c : Cell} {k : Nat} :
      Walk gw gh grid a b k → Step gw gh grid b c → Walk gw gh grid a c (k + 1)

/-- The invariant of the search loop that gives shortest paths: the nodes
are ones the search allocates; no closed cell is the target; every closed
cell has a number `gc` that no walk from the start to it undercuts, and each
cell one move away from it is closed or queued with `g` at most `gc + 1`;
the start cell is closed or queued with `g` at most 0. -/
def OptInv (gw gh : Int) (grid : Grid) (sx sy tx ty : Int) (o : List Node) (cl : Closed) :
    Prop :=
  (∀ n ∈ o, NodeOK gw gh grid sx sy tx ty n) ∧
  (∀ r c, cl r c = true → ¬ (c = tx ∧ r = ty) ∧
    ∃ gc : Int, (∀ k, Walk gw gh grid (sx, sy) (c, r) k → gc ≤ k) ∧
      ∀ b, Step gw gh grid (c, r) b →
        cl b.2 b.1 = true ∨ ∃ n ∈ o, n.x = b.1 ∧ n.y = b.2 ∧ n.g ≤ gc + 1) ∧
  (cl sy sx = true ∨ ∃ n ∈ o, n.x = sx ∧ n.y = sy ∧ n.g ≤ 0)

/-- The grid of three columns and three rows whose cells (row 1, column 0)
and (row 1, column 1) are occupied: from row 0 to row 2 the way leads
through column 2. -/
def detourGrid : Grid := fun r c => if r = 1 ∧ (c = 0 ∨ c = 1) then 1 else 0

/-! ### The index expressions that `bestPath` evaluates -/

/-- An index expression that `bestPath` evaluates: `grid[row][col]` or
`closedList[row][col]`. -/
inductive IndexUse where
  | grid (row col : Int)
  | closedList (row col : Int)
deriving DecidableEq

/-- The index is inside the array: both arrays have `gridHeight` rows and
`gridWidth` columns. -/
def IndexUse.inRange (gw gh : Int) : IndexUse → Prop
  | .grid row col => 0 ≤ row ∧ row < gh ∧ 0 ≤ col ∧ col < gw
  | .closedList row col => 0 ≤ row ∧ row < gh ∧ 0 ≤ col ∧ col < gw

instance (gw gh : Int) (u : IndexUse) : Decidable (u.inRange gw gh) :=
  match u with
  | .grid row col => inferInstanceAs (Decidable (0 ≤ row ∧ row < gh ∧ 0 ≤ col ∧ col < gw))
  | .closedList row col =>
      inferInstanceAs (Decidable (0 ≤ row ∧ row < gh ∧ 0 ≤ col ∧ col < gw))

/-- The index expressions evaluated in one iteration of the loop of
`bestPath` after the test for the target: the write
`closedList[current->y][current->x]`, and for each of the four neighbours the
reads of the `&&` chain, which stops at the first test that fails:
`grid[nextY][nextX]` only after the four bounds tests, and
`closedList[nextY][nextX]` only if `grid` read 0. -/
def popUses (gw gh : Int) (grid : Grid) (cur : Node) : List IndexUse :=
  IndexUse.closedList cur.y cur.x :: dirs.flatMap fun d =>
    let nextX := cur.x + d.1
    let nextY := cur.y + d.2
    if nextX ≥ 0 ∧ nextX < gw ∧ nextY ≥ 0 ∧ nextY < gh then
      if grid nextY nextX = 0 then [IndexUse.grid nextY nextX, IndexUse.closedList nextY nextX]
      else [IndexUse.grid nextY nextX]
    else []

/-- The loop of `bestPath` as in `searchLoop`, returning the index
expressions evaluated, in order, instead of the path. -/
def searchUses (gw gh : Int) (grid : Grid) (tie : Nat → Nat) (tx ty : Int) :
    Nat → Nat → List Node → Closed → List IndexUse → Option (List IndexUse)
  | 0, _, _, _, _ => none
  | fuel + 1, k, openList, closedList, uses =>
      match popMin (tie k) openList with
      | none => some uses
      | some (cur, rest) =>
          if cur.x = tx ∧ cur.y = ty then some uses
          else
            searchUses gw gh grid tie tx ty fuel (k + 1)
              (expand gw gh grid (closedList.mark cur.y cur.x) tx ty cur rest)
              (closedList.mark cur.y cur.x) (uses ++ popUses gw gh grid cur)

/-- The index expressions that `AISystem::bestPath(eMotion, pMotion)`
evaluates, in order: `grid[targetY][targetX]` in the test of the early
return, then those of the loop; `none` if the loop did not end within
`searchFuel` iterations. -/
def bestPathUses (gw gh : Int) (grid : Grid) (tie : Nat → Nat) (eMotion pMotion : Motion) :
    Option (List IndexUse) :=
  let startX := worldToCell eMotion.position.x
  let startY := worldToCell eMotion.position.y
  let targetX := worldToCell pMotion.position.x
  let targetY := worldToCell pMotion.position.y
  if grid targetY targetX = 1 ∨ targetY ≥ gh then some [IndexUse.grid targetY targetX]
  else
    searchUses gw gh grid tie targetX targetY (searchFuel gw gh) 0
      [Node.mk startX startY 0 (manhattanDistance startX startY targetX targetY) none]
      (fun _ _ => false) [IndexUse.grid targetY targetX]

/-! ### The search with the bounds of `closedList` checked -/

/-- The loop of `bestPath` as in `searchLoop`, with the index of the write
`closedList[current->y][current->x] = true` checked against the size of the
vector (`gridHeight` rows of `gridWidth` columns).  `some none` stands for a
write outside the vector: undefined behaviour, in practice the end of the
program, so that the call returns no sequence.  Only the start node can sit
outside the grid: every other node passed the bounds tests before it was
pushed.  The outer `none` is the bound on the number of iterations being
reached (see `searchLoopChecked_terminates`). -/
def searchLoopChecked (gw gh : Int) (grid : Grid) (tie : Nat → Nat) (tx ty : Int) :
    Nat → Nat → List Node → Closed → Option (Option (List Cell))
  | 0, _, _, _ => none
  | fuel + 1, k, openList, closedList =>
      match popMin (tie k) openList with
      | none => some (some [])
      | some (cur, rest) =>
          if cur.x = tx ∧ cur.y = ty then some (some cur.chain.reverse)
          else if inGrid gw gh cur.x cur.y then
            searchLoopChecked gw gh grid tie tx ty fuel (k + 1)
              (expand gw gh grid (closedList.mark cur.y cur.x) tx ty cur rest)
              (closedList.mark cur.y cur.x)
          else some none

/-- `AISystem::bestPath(eMotion, pMotion)` with the bounds of `closedList`
checked: `some path` is the sequence the call returns, `none` is a call that
writes outside `closedList` and returns nothing. -/
def bestPathChecked (gw gh : Int) (grid : Grid) (tie : Nat → Nat) (eMotion pMotion : Motion) :
    Option (List Cell) :=
  let startX := worldToCell eMotion.position.x
  let startY := worldToCell eMotion.position.y
  let targetX := worldToCell pMotion.position.x
  let targetY := worldToCell pMotion.position.y
  if grid targetY targetX = 1 ∨ targetY ≥ gh then some []
  else
    (searchLoopChecked gw gh grid tie targetX targetY (searchFuel gw gh) 0
      [Node.mk startX startY 0 (manhattanDistance startX startY targetX targetY) none]
      (fun _ _ => false)).join

/-! ### The pursuit block within the tick -/

/-- No entity other than a player is off screen to the left
(`position.x + abs(scale.x) < 0`): the loop at the top of `WorldSystem::step`
that removes such entities then removes nothing. -/
def Registry.onScreen (reg : Registry) : Prop :=
  ∀ em ∈ reg.motions, em.1 ∉ reg.players → ¬ (em.2.position.x + |em.2.scale.x| < 0)

/-- The block `if (pmotion.position.y - abs(pmotion.scale.y) / 2 >
window_height_px)` of `WorldSystem::step`: a player wholly below the window
gets a death timer, unless it has one.  `window_height_px` is declared in a
header that is not part of the sources at hand and is a parameter; `none` is
a player without `Motion`. -/
def deathCheck (window_height_px : Int) (w : WorldSystem) (reg : Registry) : Option Registry :=
  match reg.getMotion w.player with
  | none => none
  | some pmotion =>
      if pmotion.position.y - |pmotion.scale.y| / 2 > (window_height_px : ℚ) then
        if w.player ∈ reg.deathTimers then some reg
        else some { reg with deathTimers := reg.deathTimers ++ [w.player] }
      else some reg

/-- The part of `WorldSystem::step` from the test for the player having left
the window to the end of the pursuit block, for a registry that is
`onScreen`.  (Between the two, a boulder is spawned on level 1 only; the
pursuit block runs on level 2 only.) -/
def pursuitTick (window_height_px gw gh : Int) (tie : Nat → Nat) (elapsed_ms : ℚ)
    (w : WorldSystem) (reg : Registry) : Option (WorldSystem × Registry) :=
  match deathCheck window_height_px w reg with
  | none => none
  | some reg1 => pursuitBlock gw gh tie elapsed_ms w reg1

/-- A pursuit under way in a window of 120x60, i.e. a grid of 4x2 cells: the
hazard follows the path (0,0), (1,0), (2,0) and stands at its second cell;
the only obstacle, of centre (75,45) and size 30x30 (x from 60 to 90, y from
30 to 60), gets the cells of columns 2 and 3 in row 1 marked; the next
recompute is due. -/
def blockedPursuit : WorldSystem :=
  { level := 2, player := 0, advancedBoulder := 1, walls := [⟨75, 45, 30, 30⟩],
    FrameCount := 59, FrameInterval := 60, bestPath := [(0, 0), (1, 0), (2, 0)],
    currentNode := 1, grid := fun _ _ => 0 }

/-- The registry of `blockedPursuit`: the player (entity 0), of size 10x10, at
(105,45), inside the window and clear of the obstacle, in the cell (3,1),
which `updateGrid` marks for the obstacle; the hazard (entity 1) at (60,30),
in the cell (1,0). -/
def blockedRegistry : Registry :=
  { motions := [(0, motionAt 105 45 10 10), (1, motionAt 60 30 10 10)],
    players := [0], platforms := [], paintCans := [], boulders := [], deathTimers := [],
    collisions := [] }

/-! ### The writes of `updateGrid` -/

/-- A write `grid[row][col] = value`. -/
structure GridWrite where
  row : Int
  col : Int
  value : Int
deriving DecidableEq

/-- Carry out a write on the grid. -/
def GridWrite.apply (g : Grid) (wr : GridWrite) : Grid := g.set wr.row wr.col wr.value

/-- The writes `grid[i][j] = 0` of `AISystem::init`, in the order in which
they are made. -/
def initWrites (gw gh : Int) : List GridWrite :=
  forLoop 0 (gh - 1) (fun i l => forLoop 0 (gw - 1) (fun j l2 => l2 ++ [⟨i, j, 0⟩]) l) []

/-- The writes `grid[top][left] = 1` that the body of the loop of `updateGrid`
makes for the obstacle `w`, in order. -/
def wallWrites (gw gh : Int) (w : InitWall) : List GridWrite :=
  let left := wallLeft w
  let top := wallTop w
  let right := wallRight w
  let bottom := wallBottom w
  let bottom := if bottom ≥ gh then gh - 1 else bottom
  let left := if left ≤ 0 then 0 else left
  let right := if right ≥ gw then gw - 1 else right
  forLoop left right
    (fun col l => forLoop top bottom (fun row l2 => l2 ++ [⟨row, col, 1⟩]) l) []

/-- Every write to `grid` that `AISystem::updateGrid` makes, in order: those
of `init`, then those for each obstacle (see `updateGrid_eq_replay`). -/
def updateGridWrites (gw gh : Int) (walls : List InitWall) : List GridWrite :=
  initWrites gw gh ++ walls.flatMap (wallWrites gw gh)

/-! # Theorems -/

/-! ### Loop lemmas -/

/-- A counting loop whose body paints the cells selected by `P k` with `v`
paints the cells selected by some `k` of the range and leaves the rest. -/
theorem forUpTo_paint (body : Int → Grid → Grid) (v : Int) (P : Int → Int → Int → Prop)
    [∀ k r c, Decidable (P k r c)]
    (hbody : ∀ k g r c, body k g r c = if P k r c then v else g r c) :
    ∀ (n : Nat) (i hi : Int) (g : Grid), hi + 1 - i ≤ n → ∀ r c,
      ((∃ k, i ≤ k ∧ k ≤ hi ∧ P k r c) → forUpTo n i hi body g r c = v) ∧
      ((¬ ∃ k, i ≤ k ∧ k ≤ hi ∧ P k r c) → forUpTo n i hi body g r c = g r c) := by
  intro n
  induction n with
  | zero =>
      intro i hi g hn r c
      constructor
      · rintro ⟨k, h1, h2, -⟩
        omega
      · intro _
        rfl
  | succ n ih =>
      intro i hi g hn r c
      unfold forUpTo
      by_cases h : i ≤ hi
      · rw [if_pos h]
        obtain ⟨ih1, ih2⟩ := ih (i + 1) hi (body i g) (by omega) r c
        constructor
        · rintro ⟨k, h1, h2, h3⟩
          by_cases hk : ∃ k, i + 1 ≤ k ∧ k ≤ hi ∧ P k r c
          · exact ih1 hk
          · rw [ih2 hk, hbody]
            have hki : k = i := by
              by_contra hne
              exact hk ⟨k, by omega, h2, h3⟩
            subst hki
            rw [if_pos h3]
        · intro hno
          have hk : ¬ ∃ k, i + 1 ≤ k ∧ k ≤ hi ∧ P k r c := by
            rintro ⟨k, h1, h2, h3⟩
            exact hno ⟨k, by omega, h2, h3⟩
          rw [ih2 hk, hbody]
          have hi0 : ¬ P i r c := fun hp => hno ⟨i, le_refl i, h, hp⟩
          rw [if_neg hi0]
      · rw [if_neg h]
        constructor
        · rintro ⟨k, h1, h2, -⟩
          omega
        · intro _
          rfl

theorem forLoop_rows_set (col v lo hi : Int) (g : Grid) (r c : Int) :
    forLoop lo hi (fun row g2 => g2.set row col v) g r c =
      if (lo ≤ r ∧ r ≤ hi) ∧ c = col then v else g r c := by
  have hp := forUpTo_paint (fun row g2 => g2.set row col v) v (fun k r c => r = k ∧ c = col)
    (fun k g r c => rfl) (hi + 1 - lo).toNat lo hi g (by omega) r c
  unfold forLoop
  by_cases h : (lo ≤ r ∧ r ≤ hi) ∧ c = col
  · rw [if_pos h]
    exact hp.1 ⟨r, h.1.1, h.1.2, rfl, h.2⟩
  · rw [if_neg h]
    apply hp.2
    rintro ⟨k, h1, h2, h3, h4⟩
    subst h3
    exact h ⟨⟨h1, h2⟩, h4⟩

theorem forLoop_cols_set (top bottom v lo hi : Int) (g : Grid) (r c : Int) :
    forLoop lo hi
        (fun col g1 => forLoop top bottom (fun row g2 => g2.set row col v) g1) g r c =
      if (top ≤ r ∧ r ≤ bottom) ∧ (lo ≤ c ∧ c ≤ hi) then v else g r c := by
  have hp := forUpTo_paint
    (fun col g1 => forLoop top bottom (fun row g2 => g2.set row col v) g1) v
    (fun k r c => (top ≤ r ∧ r ≤ bottom) ∧ c = k)
    (fun k g r c => forLoop_rows_set k v top bottom g r c) (hi + 1 - lo).toNat lo hi g
    (by omega) r c
  unfold forLoop
  by_cases h : (top ≤ r ∧ r ≤ bottom) ∧ (lo ≤ c ∧ c ≤ hi)
  · rw [if_pos h]
    exact hp.1 ⟨c, h.2.1, h.2.2, h.1, rfl⟩
  · rw [if_neg h]
    apply hp.2
    rintro ⟨k, h1, h2, h3, h4⟩
    subst h4
    exact h ⟨h3, h1, h2⟩

/-- After `init`, a read inside the array gives 0 and a read outside it is
unchanged. -/
theorem init_apply (gw gh : Int) (g : Grid) (r c : Int) :
    init gw gh g r c = if (0 ≤ r ∧ r < gh) ∧ (0 ≤ c ∧ c < gw) then 0 else g r c := by
  have hrow : ∀ (k : Int) (g : Grid) (r c : Int),
      forLoop 0 (gw - 1) (fun j g2 => g2.set k j 0) g r c =
        if r = k ∧ (0 ≤ c ∧ c < gw) then 0 else g r c := by
    intro k g r c
    have hp := forUpTo_paint (fun j g2 => g2.set k j 0) 0 (fun j r c => r = k ∧ c = j)
      (fun j g r c => rfl) (gw - 1 + 1 - 0).toNat 0 (gw - 1) g (by omega) r c
    unfold forLoop
    by_cases h : r = k ∧ (0 ≤ c ∧ c < gw)
    · rw [if_pos h]
      exact hp.1 ⟨c, h.2.1, by omega, h.1, rfl⟩
    · rw [if_neg h]
      apply hp.2
      rintro ⟨j, h1, h2, h3, h4⟩
      subst h4
      exact h ⟨h3, h1, by omega⟩
  have hp := forUpTo_paint
    (fun i g1 => forLoop 0 (gw - 1) (fun j g2 => g2.set i j 0) g1) 0
    (fun k r c => r = k ∧ (0 ≤ c ∧ c < gw))
    (fun k g r c => hrow k g r c) (gh - 1 + 1 - 0).toNat 0 (gh - 1) g (by omega) r c
  unfold init forLoop
  by_cases h : (0 ≤ r ∧ r < gh) ∧ (0 ≤ c ∧ c < gw)
  · rw [if_pos h]
    exact hp.1 ⟨r, h.1.1, by omega, rfl, h.2⟩
  · rw [if_neg h]
    apply hp.2
    rintro ⟨k, h1, h2, h3, h4⟩
    subst h3
    exact h ⟨⟨h1, by omega⟩, h4⟩

/-- What `markWall` leaves in every cell. -/
theorem markWall_apply (gw gh : Int) (g : Grid) (w : InitWall) (r c : Int) :
    markWall gw gh g w r c =
      if (wallTop w ≤ r ∧ r ≤ min (wallBottom w) (gh - 1)) ∧
          (max (wallLeft w) 0 ≤ c ∧ c ≤ min (wallRight w) (gw - 1)) then 1 else g r c := by
  unfold markWall
  rw [forLoop_cols_set]
  have hb : (if wallBottom w ≥ gh then gh - 1 else wallBottom w) = min (wallBottom w) (gh - 1) := by
    split <;> omega
  have hl : (if wallLeft w ≤ 0 then 0 else wallLeft w) = max (wallLeft w) 0 := by
    split <;> omega
  have hr : (if wallRight w ≥ gw then gw - 1 else wallRight w) = min (wallRight w) (gw - 1) := by
    split <;> omega
  rw [hb, hl, hr]

/-! ### The open list -/

theorem extractMin_eq_none (l : List Node) : extractMin l = none ↔ l = [] := by
  cases l with
  | nil => simp [extractMin]
  | cons n rest =>
      simp only [extractMin]
      cases extractMin rest with
      | none => simp
      | some p =>
          obtain ⟨m, rest1⟩ := p
          by_cases h : n.f < m.f <;> simp [h]

theorem extractMin_some :
    ∀ (l : List Node) (m : Node) (rest : List Node), extractMin l = some (m, rest) →
      l.Perm (m :: rest) ∧ ∀ n ∈ l, m.f ≤ n.f := by
  intro l
  induction l with
  | nil =>
      intro m rest h
      simp [extractMin] at h
  | cons n tl ih =>
      intro m rest h
      simp only [extractMin] at h
      cases hq : extractMin tl with
      | none =>
          rw [hq] at h
          have htl : tl = [] := (extractMin_eq_none tl).1 hq
          simp only [Option.some.injEq, Prod.mk.injEq] at h
          obtain ⟨h1, h2⟩ := h
          subst h1 h2 htl
          exact ⟨List.Perm.refl _, by simp⟩
      | some q =>
          obtain ⟨m1, rest1⟩ := q
          rw [hq] at h
          dsimp only at h
          obtain ⟨hperm, hmin⟩ := ih m1 rest1 hq
          by_cases hlt : n.f < m1.f
          · rw [if_pos hlt] at h
            simp only [Option.some.injEq, Prod.mk.injEq] at h
            obtain ⟨h1, h2⟩ := h
            subst h1 h2
            refine ⟨List.Perm.refl _, ?_⟩
            intro x hx
            rcases List.mem_cons.1 hx with hx | hx
            · rw [hx]
            · have := hmin x hx
              omega
          · rw [if_neg hlt] at h
            simp only [Option.some.injEq, Prod.mk.injEq] at h
            obtain ⟨h1, h2⟩ := h
            subst h1 h2
            refine ⟨?_, ?_⟩
            · exact (List.Perm.cons n hperm).trans (List.Perm.swap m1 n rest1)
            · intro x hx
              rcases List.mem_cons.1 hx with hx | hx
              · rw [hx]
                omega
              · exact hmin x hx

theorem popMin_eq_none (choice : Nat) (l : List Node) : popMin choice l = none ↔ l = [] := by
  unfold popMin
  rw [extractMin_eq_none, List.rotate_eq_nil_iff]

/-- A pop takes one node of least `f` out of the open list and keeps the
others. -/
theorem popMin_some (choice : Nat) (l : List Node) (m : Node) (rest : List Node)
    (h : popMin choice l = some (m, rest)) :
    l.Perm (m :: rest) ∧ ∀ n ∈ l, m.f ≤ n.f := by
  unfold popMin at h
  obtain ⟨hperm, hmin⟩ := extractMin_some _ m rest h
  refine ⟨(List.rotate_perm l choice).symm.trans hperm, ?_⟩
  intro n hn
  exact hmin n ((List.mem_rotate).2 hn)

theorem extractMin_append_min (m : Node) :
    ∀ (xs : List Node), (∀ x ∈ xs, m.f ≤ x.f) → extractMin (xs ++ [m]) = some (m, xs) := by
  intro xs
  induction xs with
  | nil =>
      intro _
      rfl
  | cons a tl ih =>
      intro h
      have h1 := ih fun x hx => h x (List.mem_cons_of_mem _ hx)
      have h2 := h a (List.mem_cons_self _ _)
      rw [List.cons_append, extractMin, h1]
      dsimp only
      rw [if_neg (by omega)]

/-- Every node of least `f` in the open list is the one popped for some
value of the choice: the model of the pop leaves the order among nodes of
equal `f` open. -/
theorem popMin_any_min (l : List Node) (i : Nat) (hi : i < l.length)
    (hmin : ∀ n ∈ l, l[i].f ≤ n.f) :
    ∃ choice, popMin choice l = some (l[i], l.drop (i + 1) ++ l.take i) := by
  refine ⟨i + 1, ?_⟩
  unfold popMin
  rw [List.rotate_eq_drop_append_take (by omega), List.take_succ,
    List.getElem?_eq_getElem hi, Option.toList_some, ← List.append_assoc]
  apply extractMin_append_min
  intro x hx
  apply hmin
  rcases List.mem_append.1 hx with h | h
  · exact List.mem_of_mem_drop h
  · exact List.mem_of_mem_take h

/-- What `expand` leaves on the open list. -/
theorem expand_eq (gw gh : Int) (grid : Grid) (cl : Closed) (tx ty : Int) (cur : Node)
    (o : List Node) :
    expand gw gh grid cl tx ty cur o =
      o ++ (dirs.filter (fun d => decide (cur.x + d.1 ≥ 0 ∧ cur.x + d.1 < gw ∧ cur.y + d.2 ≥ 0 ∧
          cur.y + d.2 < gh ∧ grid (cur.y + d.2) (cur.x + d.1) = 0 ∧
          cl (cur.y + d.2) (cur.x + d.1) = false))).map
        (fun d => Node.mk (cur.x + d.1) (cur.y + d.2) (cur.g + 1)
          (manhattanDistance (cur.x + d.1) (cur.y + d.2) tx ty) (some cur)) := by
  unfold expand
  generalize dirs = ds
  induction ds generalizing o with
  | nil => simp
  | cons d tl ih =>
      rw [List.foldl_cons, ih]
      by_cases hc : cur.x + d.1 ≥ 0 ∧ cur.x + d.1 < gw ∧ cur.y + d.2 ≥ 0 ∧
          cur.y + d.2 < gh ∧ grid (cur.y + d.2) (cur.x + d.1) = 0 ∧
          cl (cur.y + d.2) (cur.x + d.1) = false
      · simp [hc, List.filter_cons]
      · simp [hc, List.filter_cons]

theorem mem_expand (gw gh : Int) (grid : Grid) (cl : Closed) (tx ty : Int) (cur : Node)
    (o : List Node) (n : Node) :
    n ∈ expand gw gh grid cl tx ty cur o ↔
      n ∈ o ∨ ∃ d ∈ dirs, (inGrid gw gh (cur.x + d.1) (cur.y + d.2) ∧
          grid (cur.y + d.2) (cur.x + d.1) = 0 ∧ cl (cur.y + d.2) (cur.x + d.1) = false) ∧
        n = Node.mk (cur.x + d.1) (cur.y + d.2) (cur.g + 1)
          (manhattanDistance (cur.x + d.1) (cur.y + d.2) tx ty) (some cur) := by
  rw [expand_eq, List.mem_append, List.mem_map]
  constructor
  · rintro (h | ⟨d, hd, rfl⟩)
    · exact Or.inl h
    · rw [List.mem_filter] at hd
      obtain ⟨hd1, hd2⟩ := hd
      have hd3 := of_decide_eq_true hd2
      exact Or.inr ⟨d, hd1, ⟨⟨hd3.1, hd3.2.1, hd3.2.2.1, hd3.2.2.2.1⟩, hd3.2.2.2.2.1,
        hd3.2.2.2.2.2⟩, rfl⟩
  · rintro (h | ⟨d, hd, ⟨hin, hg, hc⟩, rfl⟩)
    · exact Or.inl h
    · refine Or.inr ⟨d, ?_, rfl⟩
      rw [List.mem_filter]
      exact ⟨hd, decide_eq_true ⟨hin.1, hin.2.1, hin.2.2.1, hin.2.2.2, hg, hc⟩⟩

/-- Rule for invariants of the search loop: a property of the open and the
closed list that holds at the start and is kept by every iteration gives,
for whatever the loop returns, the post-condition that holds at its two
exits. -/
theorem searchLoop_rule (gw gh : Int) (grid : Grid) (tie : Nat → Nat) (tx ty : Int)
    (Inv : List Node → Closed → Prop) (Post : List Cell → Prop)
    (hempty : ∀ cl, Inv [] cl → Post [])
    (hfound : ∀ o cl cur rest, Inv o cl → o.Perm (cur :: rest) → (∀ n ∈ o, cur.f ≤ n.f) →
      cur.x = tx ∧ cur.y = ty → Post cur.chain.reverse)
    (hstep : ∀ o cl cur rest, Inv o cl → o.Perm (cur :: rest) → (∀ n ∈ o, cur.f ≤ n.f) →
      ¬ (cur.x = tx ∧ cur.y = ty) →
      Inv (expand gw gh grid (cl.mark cur.y cur.x) tx ty cur rest) (cl.mark cur.y cur.x)) :
    ∀ (fuel k : Nat) (o : List Node) (cl : Closed), Inv o cl →
      ∀ res, searchLoop gw gh grid tie tx ty fuel k o cl = some res → Post res := by
  intro fuel
  induction fuel with
  | zero =>
      intro k o cl _ res h
      simp [searchLoop] at h
  | succ fuel ih =>
      intro k o cl hinv res h
      unfold searchLoop at h
      cases hp : popMin (tie k) o with
      | none =>
          rw [hp] at h
          have ho : o = [] := (popMin_eq_none _ _).1 hp
          subst ho
          simp only [Option.some.injEq] at h
          subst h
          exact hempty cl hinv
      | some q =>
          obtain ⟨cur, rest⟩ := q
          rw [hp] at h
          obtain ⟨hperm, hmin⟩ := popMin_some _ _ _ _ hp
          by_cases ht : cur.x = tx ∧ cur.y = ty
          · simp only [ht, and_self, if_true, Option.some.injEq] at h
            subst h
            exact hfound o cl cur rest hinv hperm hmin ht
          · simp only [ht, if_false] at h
            exact ih (k + 1) _ _ (hstep o cl cur rest hinv hperm hmin ht) res h

/-! ### Nodes and their parent chains -/

theorem mem_dirs (d : Int × Int) :
    d ∈ dirs ↔ d = (1, 0) ∨ d = (0, 1) ∨ d = (-1, 0) ∨ d = (0, -1) := by
  simp [dirs]

theorem manhattan_dir_le (x y tx ty : Int) (d : Int × Int) (hd : d ∈ dirs) :
    manhattanDistance x y tx ty ≤ manhattanDistance (x + d.1) (y + d.2) tx ty + 1 ∧
      manhattanDistance (x + d.1) (y + d.2) tx ty ≤ manhattanDistance x y tx ty + 1 := by
  rw [mem_dirs] at hd
  unfold manhattanDistance iabs
  rcases hd with rfl | rfl | rfl | rfl <;> constructor <;> dsimp only <;> split_ifs <;> omega

theorem manhattan_nonneg (x y tx ty : Int) : 0 ≤ manhattanDistance x y tx ty := by
  unfold manhattanDistance iabs
  split_ifs <;> omega

theorem manhattan_eq_zero (x y tx ty : Int) :
    manhattanDistance x y tx ty = 0 ↔ x = tx ∧ y = ty := by
  unfold manhattanDistance iabs
  split_ifs <;> omega

theorem unitStep_of_dir (a : Cell) (d : Int × Int) (hd : d ∈ dirs) :
    unitStep a (a.1 + d.1, a.2 + d.2) := by
  rw [mem_dirs] at hd
  unfold unitStep iabs
  rcases hd with rfl | rfl | rfl | rfl <;> simp

@[simp] theorem Node.x_mk (x y g h : Int) (p : Option Node) : (Node.mk x y g h p).x = x := rfl

@[simp] theorem Node.y_mk (x y g h : Int) (p : Option Node) : (Node.mk x y g h p).y = y := rfl

@[simp] theorem Node.g_mk (x y g h : Int) (p : Option Node) : (Node.mk x y g h p).g = g := rfl

@[simp] theorem Node.h_mk (x y g h : Int) (p : Option Node) : (Node.mk x y g h p).h = h := rfl

theorem Node.chain_head (n : Node) : n.chain.head? = some (n.x, n.y) := by
  match n with
  | .mk x y g h none => rfl
  | .mk x y g h (some p) => rfl

theorem Node.chain_ne_nil (n : Node) : n.chain ≠ [] := by
  match n with
  | .mk x y g h none => simp [Node.chain]
  | .mk x y g h (some p) => simp [Node.chain]

section NodeFacts

variable {gw gh : Int} {grid : Grid} {sx sy tx ty : Int}

theorem NodeOK.h_eq {n : Node} (hn : NodeOK gw gh grid sx sy tx ty n) :
    n.h = manhattanDistance n.x n.y tx ty := by
  cases hn <;> rfl

/-- A node other than the root sits on a cell inside the grid that reads 0. -/
theorem NodeOK.cell {n : Node} (hn : NodeOK gw gh grid sx sy tx ty n) :
    (n.parent = none ∧ n.x = sx ∧ n.y = sy) ∨ (inGrid gw gh n.x n.y ∧ grid n.y n.x = 0) := by
  cases hn with
  | root => exact Or.inl ⟨rfl, rfl, rfl⟩
  | child p d hp hd hin hg => exact Or.inr ⟨hin, hg⟩

theorem NodeOK.chain_last {n : Node} (hn : NodeOK gw gh grid sx sy tx ty n) :
    n.chain.getLast? = some (sx, sy) := by
  induction hn with
  | root => rfl
  | child p d hp hd hin hg ih =>
      simp only [Node.chain]
      rw [List.getLast?_cons, ih]
      rfl

theorem NodeOK.chain_steps {n : Node} (hn : NodeOK gw gh grid sx sy tx ty n) :
    List.Chain' (fun b a => Step gw gh grid a b) n.chain := by
  induction hn with
  | root => simp [Node.chain]
  | child p d hp hd hin hg ih =>
      simp only [Node.chain]
      rw [List.chain'_cons']
      refine ⟨?_, ih⟩
      intro a ha
      rw [Node.chain_head] at ha
      simp only [Option.mem_def, Option.some.injEq] at ha
      subst ha
      exact ⟨d, hd, rfl, hin, hg⟩

theorem NodeOK.chain_length {n : Node} (hn : NodeOK gw gh grid sx sy tx ty n) :
    (n.chain.length : Int) = n.g + 1 := by
  induction hn with
  | root => rfl
  | child p d hp hd hin hg ih =>
      simp only [Node.chain, List.length_cons, Node.g_mk]
      push_cast
      rw [ih]

/-- The heuristic is consistent, so `f` never falls from parent to child:
no node has `f` below the Manhattan distance from start to target. -/
theorem NodeOK.f_ge {n : Node} (hn : NodeOK gw gh grid sx sy tx ty n) :
    manhattanDistance sx sy tx ty ≤ n.f := by
  induction hn with
  | root => simp [Node.f]
  | child p d hp hd hin hg ih =>
      have h1 := (manhattan_dir_le p.x p.y tx ty d hd).1
      have h2 := hp.h_eq
      simp only [Node.f, Node.g_mk, Node.h_mk] at ih ⊢
      omega

/-- On the parent chain of a node whose `f` is the Manhattan distance from
start to target, every step comes closer to the target by exactly 1. -/
theorem NodeOK.chain_closer {n : Node} (hn : NodeOK gw gh grid sx sy tx ty n)
    (hf : n.f = manhattanDistance sx sy tx ty) :
    List.Chain' (fun b a => manhattanDistance b.1 b.2 tx ty + 1 = manhattanDistance a.1 a.2 tx ty)
      n.chain := by
  induction hn with
  | root => simp [Node.chain]
  | child p d hp hd hin hg ih =>
      have h1 := (manhattan_dir_le p.x p.y tx ty d hd).1
      have h2 := hp.h_eq
      have h3 := hp.f_ge
      simp only [Node.f, Node.g_mk, Node.h_mk] at hf h3 ih
      simp only [Node.chain]
      rw [List.chain'_cons']
      refine ⟨?_, ih (by omega)⟩
      intro a ha
      rw [Node.chain_head] at ha
      simp only [Option.mem_def, Option.some.injEq] at ha
      subst ha
      dsimp only
      omega

theorem NodeOK.reach {n : Node} (hn : NodeOK gw gh grid sx sy tx ty n) :
    Reach gw gh grid (sx, sy) (n.x, n.y) := by
  induction hn with
  | root => exact Relation.ReflTransGen.refl
  | child p d hp hd hin hg ih =>
      exact Relation.ReflTransGen.tail ih ⟨d, hd, rfl, hin, hg⟩

theorem NodeOK.of_expand {o : List Node} {cl : Closed} {cur : Node}
    (hcur : NodeOK gw gh grid sx sy tx ty cur)
    (ho : ∀ n ∈ o, NodeOK gw gh grid sx sy tx ty n) :
    ∀ n ∈ expand gw gh grid cl tx ty cur o, NodeOK gw gh grid sx sy tx ty n := by
  intro n hn
  rw [mem_expand] at hn
  rcases hn with hn | ⟨d, hd, ⟨hin, hg, -⟩, rfl⟩
  · exact ho n hn
  · exact NodeOK.child cur d hcur hd hin hg

end NodeFacts

/-- Every node the loop ever holds in the open list is one a search can
allocate. -/
theorem searchLoop_nodes (gw gh : Int) (grid : Grid) (tie : Nat → Nat) (sx sy tx ty : Int)
    (Post : List Cell → Prop) (hempty : Post [])
    (hfound : ∀ cur, NodeOK gw gh grid sx sy tx ty cur → cur.x = tx ∧ cur.y = ty →
      Post cur.chain.reverse) :
    ∀ (fuel k : Nat) (o : List Node) (cl : Closed),
      (∀ n ∈ o, NodeOK gw gh grid sx sy tx ty n) →
      ∀ res, searchLoop gw gh grid tie tx ty fuel k o cl = some res → Post res := by
  apply searchLoop_rule gw gh grid tie tx ty
    (fun o _ => ∀ n ∈ o, NodeOK gw gh grid sx sy tx ty n) Post
  · intro _ _
    exact hempty
  · intro o cl cur rest hinv hperm _ ht
    exact hfound cur (hinv cur (hperm.mem_iff.2 (List.mem_cons_self _ _))) ht
  · intro o cl cur rest hinv hperm _ _
    apply NodeOK.of_expand (hinv cur (hperm.mem_iff.2 (List.mem_cons_self _ _)))
    intro n hn
    exact hinv n (hperm.mem_iff.2 (List.mem_cons_of_mem _ hn))

/-! ### Termination of the search loop -/

theorem mem_gridCells (gw gh : Int) (r c : Int) :
    (r, c) ∈ gridCells gw gh ↔ inGrid gw gh c r := by
  unfold gridCells inGrid
  simp only [List.mem_flatMap, List.mem_range, List.mem_map, Prod.mk.injEq, Int.ofNat_eq_coe]
  constructor
  · rintro ⟨a, ha, b, hb, h1, h2⟩
    omega
  · rintro ⟨h1, h2, h3, h4⟩
    exact ⟨r.toNat, by omega, c.toNat, by omega, by omega, by omega⟩

theorem gridCells_length (gw gh : Int) : (gridCells gw gh).length = gh.toNat * gw.toNat := by
  unfold gridCells
  generalize gh.toNat = a
  induction a with
  | zero => simp
  | succ a ih =>
      rw [List.range_succ, List.flatMap_append, List.length_append, ih]
      simp [Nat.succ_mul]

theorem unclosed_le (gw gh : Int) (cl : Closed) : unclosed gw gh cl ≤ gw.toNat * gh.toNat := by
  unfold unclosed
  calc List.countP _ (gridCells gw gh) ≤ (gridCells gw gh).length := List.countP_le_length _
    _ = gw.toNat * gh.toNat := by rw [gridCells_length, Nat.mul_comm]

theorem countP_lt_of_imp {α : Type} (p q : α → Bool) :
    ∀ (l : List α), (∀ a ∈ l, p a = true → q a = true) →
      (∃ a ∈ l, q a = true ∧ p a = false) → l.countP p < l.countP q := by
  intro l
  induction l with
  | nil =>
      intro _ h
      obtain ⟨a, ha, -⟩ := h
      simp at ha
  | cons b tl ih =>
      intro himp hex
      have hle : tl.countP p ≤ tl.countP q :=
        List.countP_mono_left fun a ha => himp a (List.mem_cons_of_mem _ ha)
      obtain ⟨a, ha, hqa, hpa⟩ := hex
      rcases List.mem_cons.1 ha with hab | hatl
      · subst hab
        rw [List.countP_cons_of_neg _ _ (by simp [hpa]), List.countP_cons_of_pos _ _ hqa]
        omega
      · have hlt := ih (fun a ha => himp a (List.mem_cons_of_mem _ ha)) ⟨a, hatl, hqa, hpa⟩
        by_cases hpb : p b = true
        · rw [List.countP_cons_of_pos _ _ hpb,
            List.countP_cons_of_pos _ _ (himp b (List.mem_cons_self _ _) hpb)]
          omega
        · rw [List.countP_cons_of_neg _ _ hpb]
          by_cases hqb : q b = true
          · rw [List.countP_cons_of_pos _ _ hqb]
            omega
          · rw [List.countP_cons_of_neg _ _ hqb]
            exact hlt

theorem unclosed_mark_lt (gw gh : Int) (cl : Closed) (y x : Int) (hin : inGrid gw gh x y)
    (hcl : cl y x = false) : unclosed gw gh (cl.mark y x) < unclosed gw gh cl := by
  unfold unclosed
  apply countP_lt_of_imp
  · intro a _ ha
    unfold Closed.mark at ha
    by_cases h : a.1 = y ∧ a.2 = x
    · simp [h] at ha
    · simpa [h] using ha
  · refine ⟨(y, x), (mem_gridCells gw gh y x).2 hin, by simp [hcl], by simp [Closed.mark]⟩

theorem unclosed_mark_eq (gw gh : Int) (cl : Closed) (y x : Int)
    (h : ¬ (inGrid gw gh x y ∧ cl y x = false)) :
    unclosed gw gh (cl.mark y x) = unclosed gw gh cl := by
  unfold unclosed
  apply List.countP_congr
  intro a ha
  have hin : inGrid gw gh a.2 a.1 := (mem_gridCells gw gh a.1 a.2).1 ha
  unfold Closed.mark
  by_cases hax : a.1 = y ∧ a.2 = x
  · obtain ⟨h1, h2⟩ := hax
    subst h1 h2
    have : cl a.1 a.2 = true := by
      by_contra hc
      exact h ⟨hin, by simpa using hc⟩
    simp [this]
  · simp [hax]

theorem fresh_of_mark (gw gh : Int) (cl : Closed) (y x : Int) (n : Node)
    (h : fresh gw gh (cl.mark y x) n) : fresh gw gh cl n := by
  unfold fresh Closed.mark at *
  refine ⟨h.1, ?_⟩
  have h2 := h.2
  by_cases hc : n.y = y ∧ n.x = x
  · simp [hc] at h2
  · simpa [hc] using h2

theorem weight_mark_le (gw gh : Int) (cl : Closed) (cur n : Node) :
    weight gw gh (cl.mark cur.y cur.x) n ≤ weight gw gh cl n := by
  have hpos : ∀ k : Nat, 1 ≤ 5 ^ k := fun k => Nat.one_le_pow _ _ (by decide)
  by_cases hcur : inGrid gw gh cur.x cur.y ∧ cl cur.y cur.x = false
  · have hlt := unclosed_mark_lt gw gh cl cur.y cur.x hcur.1 hcur.2
    have hpow : 5 * 5 ^ unclosed gw gh (cl.mark cur.y cur.x) ≤ 5 ^ unclosed gw gh cl := by
      calc 5 * 5 ^ unclosed gw gh (cl.mark cur.y cur.x)
          = 5 ^ (unclosed gw gh (cl.mark cur.y cur.x) + 1) := by rw [pow_succ, Nat.mul_comm]
        _ ≤ 5 ^ unclosed gw gh cl := Nat.pow_le_pow_right (by decide) hlt
    have h1 := hpos (unclosed gw gh (cl.mark cur.y cur.x))
    unfold weight
    split_ifs <;> omega
  · have heq := unclosed_mark_eq gw gh cl cur.y cur.x hcur
    unfold weight
    rw [heq]
    by_cases hf1 : fresh gw gh (cl.mark cur.y cur.x) n
    · rw [if_pos hf1, if_pos (fresh_of_mark gw gh cl _ _ n hf1)]
    · have hf : ¬ fresh gw gh cl n := by
        intro hf
        apply hf1
        refine ⟨hf.1, ?_⟩
        unfold Closed.mark
        by_cases hc : n.y = cur.y ∧ n.x = cur.x
        · exfalso
          apply hcur
          rw [← hc.1, ← hc.2]
          exact hf
        · simpa [hc] using hf.2
      rw [if_neg hf1, if_neg hf]

theorem weight_cur_gt (gw gh : Int) (cl : Closed) (cur : Node) :
    4 * 5 ^ unclosed gw gh (cl.mark cur.y cur.x) < weight gw gh cl cur := by
  by_cases hcur : inGrid gw gh cur.x cur.y ∧ cl cur.y cur.x = false
  · have hlt := unclosed_mark_lt gw gh cl cur.y cur.x hcur.1 hcur.2
    have hpow : 5 * 5 ^ unclosed gw gh (cl.mark cur.y cur.x) ≤ 5 ^ unclosed gw gh cl := by
      calc 5 * 5 ^ unclosed gw gh (cl.mark cur.y cur.x)
          = 5 ^ (unclosed gw gh (cl.mark cur.y cur.x) + 1) := by rw [pow_succ, Nat.mul_comm]
        _ ≤ 5 ^ unclosed gw gh cl := Nat.pow_le_pow_right (by decide) hlt
    have h1 : 1 ≤ 5 ^ unclosed gw gh (cl.mark cur.y cur.x) := Nat.one_le_pow _ _ (by decide)
    unfold weight
    rw [if_pos (show fresh gw gh cl cur from hcur)]
    omega
  · have heq := unclosed_mark_eq gw gh cl cur.y cur.x hcur
    unfold weight
    rw [heq, if_neg (show ¬ fresh gw gh cl cur from hcur)]
    omega

theorem sum_map_le_of_le {α : Type} (f g : α → Nat) (l : List α) (h : ∀ a ∈ l, f a ≤ g a) :
    (l.map f).sum ≤ (l.map g).sum := by
  induction l with
  | nil => simp
  | cons a tl ih =>
      simp only [List.map_cons, List.sum_cons]
      have h1 := h a (List.mem_cons_self _ _)
      have h2 := ih fun b hb => h b (List.mem_cons_of_mem _ hb)
      omega

theorem sum_map_le_const {α : Type} (f : α → Nat) (c : Nat) (l : List α)
    (h : ∀ a ∈ l, f a ≤ c) : (l.map f).sum ≤ l.length * c := by
  induction l with
  | nil => simp
  | cons a tl ih =>
      simp only [List.map_cons, List.sum_cons, List.length_cons]
      have h1 := h a (List.mem_cons_self _ _)
      have h2 := ih fun b hb => h b (List.mem_cons_of_mem _ hb)
      rw [Nat.succ_mul]
      omega

/-- Every iteration of the loop that does not leave it makes the measure
fall. -/
theorem loopMeasure_step (gw gh : Int) (grid : Grid) (tx ty : Int) (o : List Node)
    (cl : Closed) (cur : Node) (rest : List Node) (hperm : o.Perm (cur :: rest)) :
    loopMeasure gw gh (expand gw gh grid (cl.mark cur.y cur.x) tx ty cur rest)
      (cl.mark cur.y cur.x) < loopMeasure gw gh o cl := by
  have ho : loopMeasure gw gh o cl = weight gw gh cl cur + loopMeasure gw gh rest cl := by
    unfold loopMeasure
    rw [(hperm.map (weight gw gh cl)).sum_eq]
    simp
  rw [ho, expand_eq]
  unfold loopMeasure
  rw [List.map_append, List.sum_append]
  have hrest := sum_map_le_of_le (weight gw gh (cl.mark cur.y cur.x)) (weight gw gh cl) rest
    (fun n _ => weight_mark_le gw gh cl cur n)
  have hcur := weight_cur_gt gw gh cl cur
  have hchildren := sum_map_le_const (weight gw gh (cl.mark cur.y cur.x))
    (5 ^ unclosed gw gh (cl.mark cur.y cur.x))
    ((dirs.filter (fun d => decide (cur.x + d.1 ≥ 0 ∧ cur.x + d.1 < gw ∧ cur.y + d.2 ≥ 0 ∧
          cur.y + d.2 < gh ∧ grid (cur.y + d.2) (cur.x + d.1) = 0 ∧
          (cl.mark cur.y cur.x) (cur.y + d.2) (cur.x + d.1) = false))).map
        (fun d => Node.mk (cur.x + d.1) (cur.y + d.2) (cur.g + 1)
          (manhattanDistance (cur.x + d.1) (cur.y + d.2) tx ty) (some cur)))
    (by
      intro n hn
      rw [List.mem_map] at hn
      obtain ⟨d, hd, rfl⟩ := hn
      rw [List.mem_filter] at hd
      have hc := of_decide_eq_true hd.2
      have hf : fresh gw gh (cl.mark cur.y cur.x) (Node.mk (cur.x + d.1) (cur.y + d.2) (cur.g + 1)
          (manhattanDistance (cur.x + d.1) (cur.y + d.2) tx ty) (some cur)) :=
        ⟨⟨hc.1, hc.2.1, hc.2.2.1, hc.2.2.2.1⟩, hc.2.2.2.2.2⟩
      unfold weight
      rw [if_pos hf])
  have hlen : ((dirs.filter (fun d => decide (cur.x + d.1 ≥ 0 ∧ cur.x + d.1 < gw ∧
          cur.y + d.2 ≥ 0 ∧ cur.y + d.2 < gh ∧ grid (cur.y + d.2) (cur.x + d.1) = 0 ∧
          (cl.mark cur.y cur.x) (cur.y + d.2) (cur.x + d.1) = false))).map
        (fun d => Node.mk (cur.x + d.1) (cur.y + d.2) (cur.g + 1)
          (manhattanDistance (cur.x + d.1) (cur.y + d.2) tx ty) (some cur))).length ≤ 4 := by
    rw [List.length_map]
    exact (List.length_filter_le _ _).trans (by decide)
  have hmul := Nat.mul_le_mul_right (5 ^ unclosed gw gh (cl.mark cur.y cur.x)) hlen
  omega

/-- With more iterations allowed than the measure says, the loop ends. -/
theorem searchLoop_isSome (gw gh : Int) (grid : Grid) (tie : Nat → Nat) (tx ty : Int) :
    ∀ (fuel k : Nat) (o : List Node) (cl : Closed), loopMeasure gw gh o cl < fuel →
      (searchLoop gw gh grid tie tx ty fuel k o cl).isSome = true := by
  intro fuel
  induction fuel with
  | zero =>
      intro k o cl h
      omega
  | succ fuel ih =>
      intro k o cl h
      unfold searchLoop
      cases hp : popMin (tie k) o with
      | none => rfl
      | some q =>
          obtain ⟨cur, rest⟩ := q
          dsimp only
          obtain ⟨hperm, -⟩ := popMin_some _ _ _ _ hp
          by_cases ht : cur.x = tx ∧ cur.y = ty
          · rw [if_pos ht]
            rfl
          · rw [if_neg ht]
            apply ih
            have := loopMeasure_step gw gh grid tx ty o cl cur rest hperm
            omega

/-- The loop of `bestPath` ends within `searchFuel` iterations, for every
grid, start, target and choice among nodes of equal `f`. -/
theorem searchLoop_terminates (gw gh : Int) (grid : Grid) (tie : Nat → Nat)
    (sx sy tx ty : Int) :
    ∃ res, searchLoop gw gh grid tie tx ty (searchFuel gw gh) 0
      [Node.mk sx sy 0 (manhattanDistance sx sy tx ty) none] (fun _ _ => false) = some res := by
  apply Option.isSome_iff_exists.1
  apply searchLoop_isSome
  unfold loopMeasure searchFuel
  simp only [List.map_cons, List.map_nil, List.sum_cons, List.sum_nil, Nat.add_zero]
  have hu := unclosed_le gw gh (fun _ _ => false)
  have hpow : 5 ^ unclosed gw gh (fun _ _ => false) ≤ 5 ^ (gw.toNat * gh.toNat) :=
    Nat.pow_le_pow_right (by decide) hu
  unfold weight
  split_ifs <;> omega

/-! ### What `bestPath` returns -/

theorem worldToCell_eq (p : ℚ) (c : Int) (h1 : (c : ℚ) * 30 < p) (h2 : p ≤ (c + 1) * 30) :
    worldToCell p = c := by
  unfold worldToCell gridSize
  have h : ⌈p / ((30 : Int) : ℚ)⌉ = c + 1 := by
    rw [Int.ceil_eq_iff]
    push_cast
    constructor
    · rw [lt_div_iff₀ (by norm_num)]
      linarith
    · rw [div_le_iff₀ (by norm_num)]
      linarith
  omega

theorem bestPath_eq (gw gh : Int) (grid : Grid) (tie : Nat → Nat) (eMotion pMotion : Motion)
    (sx sy tx ty : Int) (h1 : worldToCell eMotion.position.x = sx)
    (h2 : worldToCell eMotion.position.y = sy) (h3 : worldToCell pMotion.position.x = tx)
    (h4 : worldToCell pMotion.position.y = ty) :
    bestPath gw gh grid tie eMotion pMotion = bestPathCells gw gh grid tie sx sy tx ty := by
  unfold bestPath
  rw [h1, h2, h3, h4]

/-- Past the early return, `bestPath` returns what the loop leaves in
`path`, and the loop does end. -/
theorem bestPathCells_eq_loop (gw gh : Int) (grid : Grid) (tie : Nat → Nat)
    (sx sy tx ty : Int) (hguard : ¬ (grid ty tx = 1 ∨ ty ≥ gh)) :
    searchLoop gw gh grid tie tx ty (searchFuel gw gh) 0
      [Node.mk sx sy 0 (manhattanDistance sx sy tx ty) none] (fun _ _ => false) =
        some (bestPathCells gw gh grid tie sx sy tx ty) := by
  obtain ⟨res, hres⟩ := searchLoop_terminates gw gh grid tie sx sy tx ty
  unfold bestPathCells
  rw [if_neg hguard, hres]
  rfl

theorem chain'_tail_pred {α : Type} (R : α → α → Prop) :
    ∀ (l : List α), List.Chain' R l → ∀ c ∈ l.tail, ∃ a, R a c := by
  intro l
  induction l with
  | nil =>
      intro _ c hc
      simp at hc
  | cons a tl ih =>
      intro h c hc
      rw [List.chain'_cons'] at h
      simp only [List.tail_cons] at hc
      cases tl with
      | nil => simp at hc
      | cons b tl2 =>
          rcases List.mem_cons.1 hc with rfl | hc2
          · exact ⟨a, h.1 c (by simp)⟩
          · exact ih h.2 c (by simpa using hc2)

/-- The sequence that `bestPath` returns is empty or leads from the start
cell to the target cell by moves of the search. -/
theorem bestPathCells_sound (gw gh : Int) (grid : Grid) (tie : Nat → Nat)
    (sx sy tx ty : Int) :
    bestPathCells gw gh grid tie sx sy tx ty = [] ∨
      ((bestPathCells gw gh grid tie sx sy tx ty).head? = some (sx, sy) ∧
        (bestPathCells gw gh grid tie sx sy tx ty).getLast? = some (tx, ty) ∧
        List.Chain' (Step gw gh grid) (bestPathCells gw gh grid tie sx sy tx ty)) := by
  by_cases hguard : grid ty tx = 1 ∨ ty ≥ gh
  · left
    unfold bestPathCells
    rw [if_pos hguard]
  · have hloop := bestPathCells_eq_loop gw gh grid tie sx sy tx ty hguard
    refine searchLoop_nodes gw gh grid tie sx sy tx ty
      (fun res => res = [] ∨ (res.head? = some (sx, sy) ∧ res.getLast? = some (tx, ty) ∧
        List.Chain' (Step gw gh grid) res)) (Or.inl rfl) ?_ _ 0 _ _ ?_ _ hloop
    · intro cur hcur ht
      right
      refine ⟨?_, ?_, ?_⟩
      · rw [List.head?_reverse]
        exact hcur.chain_last
      · rw [List.getLast?_reverse, Node.chain_head, ht.1, ht.2]
      · rw [List.chain'_reverse]
        exact hcur.chain_steps
    · intro n hn
      rw [List.mem_singleton] at hn
      subst hn
      exact NodeOK.root

/-! ### The search on a grid without obstacles -/

theorem exists_closer_dir (x y tx ty : Int) (h : ¬ (x = tx ∧ y = ty)) :
    ∃ d ∈ dirs, manhattanDistance (x + d.1) (y + d.2) tx ty + 1 = manhattanDistance x y tx ty := by
  by_cases h1 : x < tx
  · refine ⟨(1, 0), by decide, ?_⟩
    unfold manhattanDistance iabs
    dsimp only
    split_ifs <;> omega
  · by_cases h2 : tx < x
    · refine ⟨(-1, 0), by decide, ?_⟩
      unfold manhattanDistance iabs
      dsimp only
      split_ifs <;> omega
    · by_cases h3 : y < ty
      · refine ⟨(0, 1), by decide, ?_⟩
        unfold manhattanDistance iabs
        dsimp only
        split_ifs <;> omega
      · refine ⟨(0, -1), by decide, ?_⟩
        unfold manhattanDistance iabs
        dsimp only
        split_ifs <;> omega

theorem inGrid_closer (gw gh x y tx ty : Int) (d : Int × Int) (hd : d ∈ dirs)
    (hin : inGrid gw gh x y) (ht : inGrid gw gh tx ty)
    (hc : manhattanDistance (x + d.1) (y + d.2) tx ty + 1 = manhattanDistance x y tx ty) :
    inGrid gw gh (x + d.1) (y + d.2) := by
  rw [mem_dirs] at hd
  unfold inGrid at *
  unfold manhattanDistance iabs at hc
  rcases hd with rfl | rfl | rfl | rfl <;> dsimp only at hc ⊢ <;> split_ifs at hc <;> omega

/-- Under the invariant some queued node has the least possible `f`. -/
theorem FreeInv.exists_min {gw gh : Int} {grid : Grid} {sx sy tx ty : Int} {o : List Node}
    {cl : Closed} (hinv : FreeInv gw gh grid sx sy tx ty o cl) :
    ∃ n ∈ o, n.f = manhattanDistance sx sy tx ty := by
  obtain ⟨-, hb, hc, -⟩ := hinv
  have key : ∀ (m : Nat) (x y : Int), (manhattanDistance x y tx ty).toNat = m →
      (cl y x = true ∨ ∃ n ∈ o, n.x = x ∧ n.y = y ∧ n.f = manhattanDistance sx sy tx ty) →
      ∃ n ∈ o, n.f = manhattanDistance sx sy tx ty := by
    intro m
    induction m using Nat.strong_induction_on with
    | _ m ih =>
        intro x y hm h
        rcases h with hcl | ⟨n, hn, -, -, hf⟩
        · obtain ⟨hnt, hnb⟩ := hb y x hcl
          obtain ⟨d, hd, hcloser⟩ := exists_closer_dir x y tx ty hnt
          have h0 := manhattan_nonneg (x + d.1) (y + d.2) tx ty
          exact ih (manhattanDistance (x + d.1) (y + d.2) tx ty).toNat (by omega)
            (x + d.1) (y + d.2) rfl (hnb d hd hcloser)
        · exact ⟨n, hn, hf⟩
  exact key _ sx sy rfl hc

/-- The invariant holds when the loop starts. -/
theorem FreeInv.at_start (gw gh : Int) (grid : Grid) (sx sy tx ty : Int) :
    FreeInv gw gh grid sx sy tx ty [Node.mk sx sy 0 (manhattanDistance sx sy tx ty) none]
      (fun _ _ => false) := by
  refine ⟨?_, ?_, ?_, ?_⟩
  · intro n hn
    rw [List.mem_singleton] at hn
    subst hn
    exact NodeOK.root
  · intro r c h
    simp at h
  · right
    exact ⟨_, List.mem_singleton_self _, rfl, rfl, by simp [Node.f]⟩
  · intro r c h
    simp at h

/-- The node popped under the invariant has the least possible `f` and sits
in the grid. -/
theorem FreeInv.popped {gw gh : Int} {grid : Grid} {sx sy tx ty : Int} {o : List Node}
    {cl : Closed} (hinv : FreeInv gw gh grid sx sy tx ty o cl) (hs : inGrid gw gh sx sy)
    {cur : Node} {rest : List Node} (hperm : o.Perm (cur :: rest))
    (hmin : ∀ n ∈ o, cur.f ≤ n.f) :
    NodeOK gw gh grid sx sy tx ty cur ∧ cur.f = manhattanDistance sx sy tx ty ∧
      inGrid gw gh cur.x cur.y := by
  have hcur : NodeOK gw gh grid sx sy tx ty cur :=
    hinv.1 cur (hperm.mem_iff.2 (List.mem_cons_self _ _))
  obtain ⟨n, hn, hf⟩ := hinv.exists_min
  have h1 := hmin n hn
  have h2 := hcur.f_ge
  refine ⟨hcur, by omega, ?_⟩
  rcases hcur.cell with ⟨-, hx, hy⟩ | ⟨hin, -⟩
  · rw [hx, hy]
    exact hs
  · exact hin

/-- Every iteration keeps the invariant. -/
theorem FreeInv.kept {gw gh : Int} {grid : Grid} {sx sy tx ty : Int} {o : List Node}
    {cl : Closed} (hinv : FreeInv gw gh grid sx sy tx ty o cl)
    (hfree : ∀ r c, inGrid gw gh c r → grid r c = 0)
    (hs : inGrid gw gh sx sy) (ht : inGrid gw gh tx ty)
    {cur : Node} {rest : List Node} (hperm : o.Perm (cur :: rest))
    (hmin : ∀ n ∈ o, cur.f ≤ n.f) (hnt : ¬ (cur.x = tx ∧ cur.y = ty)) :
    FreeInv gw gh grid sx sy tx ty
      (expand gw gh grid (cl.mark cur.y cur.x) tx ty cur rest) (cl.mark cur.y cur.x) := by
  obtain ⟨hcur, hf, hin⟩ := hinv.popped hs hperm hmin
  obtain ⟨ha, hb, hc, he⟩ := hinv
  have hkeep : ∀ x y, (cl y x = true ∨
        ∃ n ∈ o, n.x = x ∧ n.y = y ∧ n.f = manhattanDistance sx sy tx ty) →
      (cl.mark cur.y cur.x) y x = true ∨
        ∃ n ∈ expand gw gh grid (cl.mark cur.y cur.x) tx ty cur rest,
          n.x = x ∧ n.y = y ∧ n.f = manhattanDistance sx sy tx ty := by
    intro x y h
    rcases h with hcl | ⟨n, hn, hx, hy, hnf⟩
    · left
      unfold Closed.mark
      split
      · rfl
      · exact hcl
    · rcases List.mem_cons.1 (hperm.mem_iff.1 hn) with hnc | hnr
      · left
        unfold Closed.mark
        rw [if_pos ⟨by rw [← hy, hnc], by rw [← hx, hnc]⟩]
      · right
        exact ⟨n, (mem_expand _ _ _ _ _ _ _ _ _).2 (Or.inl hnr), hx, hy, hnf⟩
  refine ⟨?_, ?_, ?_, ?_⟩
  · apply NodeOK.of_expand hcur
    intro n hn
    exact ha n (hperm.mem_iff.2 (List.mem_cons_of_mem _ hn))
  · intro r c hcl1
    by_cases hnew : r = cur.y ∧ c = cur.x
    · obtain ⟨hr, hc2⟩ := hnew
      subst hr hc2
      refine ⟨hnt, ?_⟩
      intro d hd hcloser
      by_cases hnb : (cl.mark cur.y cur.x) (cur.y + d.2) (cur.x + d.1) = true
      · exact Or.inl hnb
      · right
        have hnbin := inGrid_closer gw gh cur.x cur.y tx ty d hd hin ht hcloser
        refine ⟨Node.mk (cur.x + d.1) (cur.y + d.2) (cur.g + 1)
          (manhattanDistance (cur.x + d.1) (cur.y + d.2) tx ty) (some cur), ?_, rfl, rfl, ?_⟩
        · rw [mem_expand]
          right
          exact ⟨d, hd, ⟨hnbin, hfree _ _ hnbin, by simpa using hnb⟩, rfl⟩
        · have h1 := hcur.h_eq
          simp only [Node.f, Node.g_mk, Node.h_mk] at hf ⊢
          omega
    · have hcl : cl r c = true := by
        unfold Closed.mark at hcl1
        rw [if_neg hnew] at hcl1
        exact hcl1
      obtain ⟨h1, h2⟩ := hb r c hcl
      refine ⟨h1, ?_⟩
      intro d hd hcloser
      exact hkeep _ _ (h2 d hd hcloser)
  · exact hkeep _ _ hc
  · intro r c hcl1
    by_cases hnew : r = cur.y ∧ c = cur.x
    · rw [hnew.1, hnew.2]
      exact hin
    · unfold Closed.mark at hcl1
      rw [if_neg hnew] at hcl1
      exact he r c hcl1

/-- On a grid without obstacles, with start and target in the grid, the
loop of `bestPath` can only return a sequence of Manhattan distance plus one
cells, each closer to the target by 1 than the one before. -/
theorem searchLoop_free (gw gh : Int) (grid : Grid) (tie : Nat → Nat) (sx sy tx ty : Int)
    (hfree : ∀ r c, inGrid gw gh c r → grid r c = 0)
    (hs : inGrid gw gh sx sy) (ht : inGrid gw gh tx ty) :
    ∀ (fuel k : Nat) (o : List Node) (cl : Closed), FreeInv gw gh grid sx sy tx ty o cl →
      ∀ res, searchLoop gw gh grid tie tx ty fuel k o cl = some res →
        (res.length : Int) = manhattanDistance sx sy tx ty + 1 ∧
          List.Chain' (fun a b =>
            manhattanDistance b.1 b.2 tx ty + 1 = manhattanDistance a.1 a.2 tx ty) res := by
  apply searchLoop_rule gw gh grid tie tx ty (FreeInv gw gh grid sx sy tx ty)
  · intro cl hinv
    obtain ⟨n, hn, -⟩ := hinv.exists_min
    simp at hn
  · intro o cl cur rest hinv hperm hmin hat
    obtain ⟨hcur, hf, -⟩ := hinv.popped hs hperm hmin
    constructor
    · rw [List.length_reverse, hcur.chain_length]
      have h1 := hcur.h_eq
      have h2 := (manhattan_eq_zero cur.x cur.y tx ty).2 hat
      unfold Node.f at hf
      omega
    · rw [List.chain'_reverse]
      exact hcur.chain_closer hf
  · intro o cl cur rest hinv hperm hmin hnt
    exact hinv.kept hfree hs ht hperm hmin hnt

/-! ### The search finds the target exactly when it can be reached -/

theorem reach_of_chain (gw gh : Int) (grid : Grid) :
    ∀ (l : List Cell) (a b : Cell), List.Chain' (Step gw gh grid) l → l.head? = some a →
      l.getLast? = some b → Reach gw gh grid a b := by
  intro l
  induction l with
  | nil =>
      intro a b _ h
      simp at h
  | cons x tl ih =>
      intro a b hch hhead hlast
      simp only [List.head?_cons, Option.some.injEq] at hhead
      subst hhead
      cases tl with
      | nil =>
          simp only [List.getLast?_singleton, Option.some.injEq] at hlast
          subst hlast
          exact Relation.ReflTransGen.refl
      | cons y tl2 =>
          rw [List.chain'_cons] at hch
          rw [List.getLast?_cons_cons] at hlast
          exact Relation.ReflTransGen.head hch.1 (ih y b hch.2 rfl hlast)

theorem chain'_of_stepsOK (gw gh : Int) (grid : Grid) :
    ∀ (l : List Cell), stepsOK gw gh grid l = true → List.Chain' (Step gw gh grid) l := by
  intro l
  induction l with
  | nil => intro _; exact List.chain'_nil
  | cons a tl ih =>
      intro h
      cases tl with
      | nil => exact List.chain'_singleton a
      | cons b tl2 =>
          simp only [stepsOK, Bool.and_eq_true, decide_eq_true_eq] at h
          exact List.chain'_cons.2 ⟨h.1, ih h.2⟩

theorem ReachInv.holds_at_start (gw gh : Int) (grid : Grid) (sx sy tx ty : Int) :
    ReachInv gw gh grid sx sy tx ty [Node.mk sx sy 0 (manhattanDistance sx sy tx ty) none]
      (fun _ _ => false) := by
  refine ⟨?_, ?_, ?_⟩
  · intro n hn
    rw [List.mem_singleton] at hn
    subst hn
    exact NodeOK.root
  · intro r c h
    simp at h
  · right
    exact ⟨_, List.mem_singleton_self _, rfl, rfl⟩

theorem ReachInv.preserved {gw gh : Int} {grid : Grid} {sx sy tx ty : Int} {o : List Node}
    {cl : Closed} (hinv : ReachInv gw gh grid sx sy tx ty o cl)
    {cur : Node} {rest : List Node} (hperm : o.Perm (cur :: rest))
    (hnt : ¬ (cur.x = tx ∧ cur.y = ty)) :
    ReachInv gw gh grid sx sy tx ty
      (expand gw gh grid (cl.mark cur.y cur.x) tx ty cur rest) (cl.mark cur.y cur.x) := by
  obtain ⟨ha, hb, hc⟩ := hinv
  have hcur : NodeOK gw gh grid sx sy tx ty cur :=
    ha cur (hperm.mem_iff.2 (List.mem_cons_self _ _))
  have hkeep : ∀ x y, (cl y x = true ∨ ∃ n ∈ o, n.x = x ∧ n.y = y) →
      (cl.mark cur.y cur.x) y x = true ∨
        ∃ n ∈ expand gw gh grid (cl.mark cur.y cur.x) tx ty cur rest, n.x = x ∧ n.y = y := by
    intro x y h
    rcases h with hcl | ⟨n, hn, hx, hy⟩
    · left
      unfold Closed.mark
      split
      · rfl
      · exact hcl
    · rcases List.mem_cons.1 (hperm.mem_iff.1 hn) with hnc | hnr
      · left
        unfold Closed.mark
        rw [if_pos ⟨by rw [← hy, hnc], by rw [← hx, hnc]⟩]
      · right
        exact ⟨n, (mem_expand _ _ _ _ _ _ _ _ _).2 (Or.inl hnr), hx, hy⟩
  refine ⟨?_, ?_, ?_⟩
  · apply NodeOK.of_expand hcur
    intro n hn
    exact ha n (hperm.mem_iff.2 (List.mem_cons_of_mem _ hn))
  · intro r c hcl1
    by_cases hnew : r = cur.y ∧ c = cur.x
    · obtain ⟨hr, hc2⟩ := hnew
      subst hr hc2
      refine ⟨hnt, ?_⟩
      rintro b ⟨d, hd, hbeq, hbin, hbg⟩
      subst hbeq
      by_cases hnb : (cl.mark cur.y cur.x) (cur.y + d.2) (cur.x + d.1) = true
      · exact Or.inl hnb
      · right
        refine ⟨Node.mk (cur.x + d.1) (cur.y + d.2) (cur.g + 1)
          (manhattanDistance (cur.x + d.1) (cur.y + d.2) tx ty) (some cur), ?_, rfl, rfl⟩
        rw [mem_expand]
        right
        exact ⟨d, hd, ⟨hbin, hbg, by simpa using hnb⟩, rfl⟩
    · have hcl : cl r c = true := by
        unfold Closed.mark at hcl1
        rw [if_neg hnew] at hcl1
        exact hcl1
      obtain ⟨h1, h2⟩ := hb r c hcl
      refine ⟨h1, ?_⟩
      intro b hstep
      exact hkeep _ _ (h2 b hstep)
  · exact hkeep _ _ hc

/-- When the open list is exhausted, the closed cells hold every cell that
can be reached from the start, and the target is not among them. -/
theorem ReachInv.exhausted {gw gh : Int} {grid : Grid} {sx sy tx ty : Int} {cl : Closed}
    (hinv : ReachInv gw gh grid sx sy tx ty [] cl) :
    ¬ Reach gw gh grid (sx, sy) (tx, ty) := by
  obtain ⟨-, hb, hc⟩ := hinv
  have hstart : cl sy sx = true := by
    rcases hc with h | ⟨n, hn, -⟩
    · exact h
    · simp at hn
  have hall : ∀ b, Reach gw gh grid (sx, sy) b → cl b.2 b.1 = true := by
    intro b hreach
    induction hreach with
    | refl => exact hstart
    | tail _ hstep ih =>
        rcases (hb _ _ ih).2 _ hstep with h | ⟨n, hn, -⟩
        · exact h
        · simp at hn
  intro hreach
  exact (hb _ _ (hall _ hreach)).1 ⟨rfl, rfl⟩

theorem searchLoop_reach (gw gh : Int) (grid : Grid) (tie : Nat → Nat) (sx sy tx ty : Int) :
    ∀ (fuel k : Nat) (o : List Node) (cl : Closed), ReachInv gw gh grid sx sy tx ty o cl →
      ∀ res, searchLoop gw gh grid tie tx ty fuel k o cl = some res →
        (res ≠ [] ↔ Reach gw gh grid (sx, sy) (tx, ty)) := by
  apply searchLoop_rule gw gh grid tie tx ty (ReachInv gw gh grid sx sy tx ty)
  · intro cl hinv
    have := hinv.exhausted
    simp [this]
  · intro o cl cur rest hinv hperm _ hat
    have hcur := hinv.1 cur (hperm.mem_iff.2 (List.mem_cons_self _ _))
    have hr := hcur.reach
    rw [hat.1, hat.2] at hr
    have hne : cur.chain.reverse ≠ [] := by
      simpa using Node.chain_ne_nil cur
    simp [hne, hr]
  · intro o cl cur rest hinv hperm _ hnt
    exact hinv.preserved hperm hnt

/-- C1: after `updateGrid` on the list holding one obstacle, a cell of the
grid (row `r`, column `c`, both inside the array) is occupied exactly when
`max(left,0) ≤ c ≤ min(right, gridWidth-1)` and
`top ≤ r ≤ min(bottom, gridHeight-1)`, with `left`, `right`, `top`, `bottom`
the truncated quotients of the source (top is not clamped); every other cell
of the grid holds 0, whatever the array held before. -/
theorem updateGrid_single_obstacle (gw gh : Int) (g : Grid) (w : InitWall) (r c : Int)
    (hr : 0 ≤ r ∧ r < gh) (hc : 0 ≤ c ∧ c < gw) :
    (updateGrid gw gh [w] g r c = 1 ↔
      (max ((w.x - w.xSize.tdiv 2).tdiv 30) 0 ≤ c ∧
          c ≤ min ((w.x + w.xSize.tdiv 2).tdiv 30) (gw - 1)) ∧
        ((w.y - w.ySize.tdiv 2).tdiv 30 ≤ r ∧
          r ≤ min ((w.y + w.ySize.tdiv 2).tdiv 30) (gh - 1))) ∧
    (updateGrid gw gh [w] g r c ≠ 1 → updateGrid gw gh [w] g r c = 0) := by
  have hval : updateGrid gw gh [w] g r c =
      if (wallTop w ≤ r ∧ r ≤ min (wallBottom w) (gh - 1)) ∧
          (max (wallLeft w) 0 ≤ c ∧ c ≤ min (wallRight w) (gw - 1)) then 1 else 0 := by
    unfold updateGrid
    rw [List.foldl_cons, List.foldl_nil, markWall_apply, init_apply]
    have h0 : (if (0 ≤ r ∧ r < gh) ∧ (0 ≤ c ∧ c < gw) then (0 : Int) else g r c) = 0 :=
      if_pos ⟨hr, hc⟩
    rw [h0]
  rw [hval]
  unfold wallTop wallBottom wallLeft wallRight gridSize
  constructor
  · constructor
    · intro h
      by_contra hn
      rw [if_neg (fun hp => hn ⟨hp.2, hp.1⟩)] at h
      exact absurd h (by decide)
    · intro h
      rw [if_pos ⟨h.2, h.1⟩]
  · intro h
    split
    · rename_i hp
      rw [if_pos hp] at h
      exact absurd rfl h
    · rfl

/-- C1, the scenario of the spec: on a 10x10 grid whose memory held arbitrary
values, the obstacle centred at (150,150) of size 60x60 occupies exactly the
nine cells with row and column in 4..6. -/
theorem updateGrid_single_obstacle_witness :
    ((0 : Int) ≤ 5 ∧ (5 : Int) < 10) ∧
    (updateGrid 10 10 [⟨150, 150, 60, 60⟩] (fun r c => r + c) 5 5 = 1 ↔
      (max (((150 : Int) - (60 : Int).tdiv 2).tdiv 30) 0 ≤ 5 ∧
          5 ≤ min (((150 : Int) + (60 : Int).tdiv 2).tdiv 30) (10 - 1)) ∧
        (((150 : Int) - (60 : Int).tdiv 2).tdiv 30 ≤ 5 ∧
          5 ≤ min (((150 : Int) + (60 : Int).tdiv 2).tdiv 30) (10 - 1))) ∧
    ((List.range 10).flatMap fun r => ((List.range 10).filter fun c =>
        updateGrid 10 10 [⟨150, 150, 60, 60⟩] (fun r c => r + c) r c == 1).map
          fun c => (r, c)) =
      [(4, 4), (4, 5), (4, 6), (5, 4), (5, 5), (5, 6), (6, 4), (6, 5), (6, 6)] :=
  ⟨by decide,
    (updateGrid_single_obstacle 10 10 (fun r c => r + c) ⟨150, 150, 60, 60⟩ 5 5
      (by decide) (by decide)).1,
    by decide⟩

/-- C2: when the target cell lies inside the grid and is occupied (reads 1),
`bestPath` returns the empty sequence, for every grid, start and choice among
nodes of equal `f`. -/
theorem bestPath_target_occupied (gw gh : Int) (grid : Grid) (tie : Nat → Nat)
    (eMotion pMotion : Motion)
    (_hin : inGrid gw gh (worldToCell pMotion.position.x) (worldToCell pMotion.position.y))
    (hocc : grid (worldToCell pMotion.position.y) (worldToCell pMotion.position.x) = 1) :
    bestPath gw gh grid tie eMotion pMotion = [] := by
  unfold bestPath bestPathCells
  rw [if_pos (Or.inl hocc)]

/-- C2 at a concrete input: a 2x2 grid whose cell (1,1) is occupied, the
player standing in that cell. -/
theorem bestPath_target_occupied_witness :
    inGrid 2 2 (worldToCell (motionAt 45 45 10 10).position.x)
        (worldToCell (motionAt 45 45 10 10).position.y) ∧
      bestPath 2 2 (fun r c => if r = 1 ∧ c = 1 then 1 else 0) (fun _ => 0)
        (motionAt 15 15 10 10) (motionAt 45 45 10 10) = [] :=
  have h : worldToCell (45 : ℚ) = 1 := worldToCell_eq 45 1 (by norm_num) (by norm_num)
  have hin : inGrid 2 2 (worldToCell (motionAt 45 45 10 10).position.x)
      (worldToCell (motionAt 45 45 10 10).position.y) := by
    show inGrid 2 2 (worldToCell 45) (worldToCell 45)
    rw [h]
    decide
  ⟨hin, bestPath_target_occupied 2 2 (fun r c => if r = 1 ∧ c = 1 then 1 else 0) (fun _ => 0)
    (motionAt 15 15 10 10) (motionAt 45 45 10 10) hin (by
      show (fun r c => if r = 1 ∧ c = 1 then (1 : Int) else 0) (worldToCell 45) (worldToCell 45) = 1
      rw [h]
      decide)⟩

/-- C3 as stated fails: the search never tests the start cell.  On the grid
of one row and two columns whose cell (0,0) is occupied, the path from cell
(0,0) to cell (1,0) is returned and begins with the occupied cell.  (The open
list never holds more than one node here, so no choice among equal `f`
arises.) -/
theorem bestPath_occupied_start_counterexample :
    bestPath 2 1 (fun r c => if r = 0 ∧ c = 0 then 1 else 0) (fun _ => 0)
        (motionAt 30 30 10 10) (motionAt 60 30 10 10) = [(0, 0), (1, 0)] ∧
      (fun r c => if r = 0 ∧ c = 0 then (1 : Int) else 0) (0 : Int) (0 : Int) = 1 :=
  ⟨(bestPath_eq 2 1 _ _ (motionAt 30 30 10 10) (motionAt 60 30 10 10) 0 0 1 0
      (worldToCell_eq 30 0 (by norm_num) (by norm_num))
      (worldToCell_eq 30 0 (by norm_num) (by norm_num))
      (worldToCell_eq 60 1 (by norm_num) (by norm_num))
      (worldToCell_eq 30 0 (by norm_num) (by norm_num))).trans (by decide),
    by decide⟩

/-- C3, amended: every cell of the sequence returned by `bestPath` other than
the first lies inside the grid and reads 0 there (it is not occupied); hence,
when the start cell is not occupied, no cell of the sequence is. -/
theorem bestPath_cells_unoccupied (gw gh : Int) (grid : Grid) (tie : Nat → Nat)
    (eMotion pMotion : Motion) :
    (∀ c ∈ (bestPath gw gh grid tie eMotion pMotion).tail,
      inGrid gw gh c.1 c.2 ∧ grid c.2 c.1 = 0) ∧
    (grid (worldToCell eMotion.position.y) (worldToCell eMotion.position.x) ≠ 1 →
      ∀ c ∈ bestPath gw gh grid tie eMotion pMotion, grid c.2 c.1 ≠ 1) := by
  have htail : ∀ c ∈ (bestPath gw gh grid tie eMotion pMotion).tail,
      inGrid gw gh c.1 c.2 ∧ grid c.2 c.1 = 0 := by
    intro c hc
    unfold bestPath at hc
    rcases bestPathCells_sound gw gh grid tie (worldToCell eMotion.position.x)
      (worldToCell eMotion.position.y) (worldToCell pMotion.position.x)
      (worldToCell pMotion.position.y) with h | ⟨-, -, h⟩
    · rw [h] at hc
      simp at hc
    · obtain ⟨a, d, -, -, hin, hg⟩ := chain'_tail_pred _ _ h c hc
      exact ⟨hin, hg⟩
  refine ⟨htail, ?_⟩
  intro hstart c hc
  have hsound := bestPathCells_sound gw gh grid tie (worldToCell eMotion.position.x)
      (worldToCell eMotion.position.y) (worldToCell pMotion.position.x)
      (worldToCell pMotion.position.y)
  have hc2 := hc
  unfold bestPath at hc2
  rcases hsound with h | ⟨hhead, -, -⟩
  · rw [h] at hc2
    simp at hc2
  · cases hl : bestPath gw gh grid tie eMotion pMotion with
    | nil =>
        rw [hl] at hc
        simp at hc
    | cons a tl =>
        have hl2 := hl
        unfold bestPath at hl2
        rw [hl2] at hhead
        simp only [List.head?_cons, Option.some.injEq] at hhead
        rw [hl] at hc
        rcases List.mem_cons.1 hc with rfl | hctl
        · rw [hhead]
          exact hstart
        · have := (htail c (by rw [hl]; exact hctl)).2
          omega

/-- C3, amended, at a concrete input: on the 10x10 grid with the cells of
rows and columns 4..6 occupied, no cell of the path from cell (0,0) to cell
(9,9) is occupied. -/
theorem bestPath_cells_unoccupied_witness :
    (fun r c => if 4 ≤ r ∧ r ≤ 6 ∧ 4 ≤ c ∧ c ≤ 6 then (1 : Int) else 0)
        (worldToCell (motionAt 30 30 10 10).position.y)
        (worldToCell (motionAt 30 30 10 10).position.x) ≠ 1 ∧
      ∀ c ∈ bestPath 10 10 (fun r c => if 4 ≤ r ∧ r ≤ 6 ∧ 4 ≤ c ∧ c ≤ 6 then 1 else 0)
          (fun _ => 0) (motionAt 30 30 10 10) (motionAt 300 300 10 10),
        (fun r c => if 4 ≤ r ∧ r ≤ 6 ∧ 4 ≤ c ∧ c ≤ 6 then (1 : Int) else 0) c.2 c.1 ≠ 1 :=
  have h : worldToCell (30 : ℚ) = 0 := worldToCell_eq 30 0 (by norm_num) (by norm_num)
  have hs : (fun r c => if 4 ≤ r ∧ r ≤ 6 ∧ 4 ≤ c ∧ c ≤ 6 then (1 : Int) else 0)
      (worldToCell (motionAt 30 30 10 10).position.y)
      (worldToCell (motionAt 30 30 10 10).position.x) ≠ 1 := by
    show (fun r c => if 4 ≤ r ∧ r ≤ 6 ∧ 4 ≤ c ∧ c ≤ 6 then (1 : Int) else 0)
      (worldToCell 30) (worldToCell 30) ≠ 1
    rw [h]
    decide
  ⟨hs, (bestPath_cells_unoccupied 10 10 _ (fun _ => 0) (motionAt 30 30 10 10)
    (motionAt 300 300 10 10)).2 hs⟩

/-- C4: on a grid with no occupied cell (every cell of the grid reads 0),
for start and target cells inside the grid, `bestPath` returns exactly
`manhattanDistance(start, target) + 1` cells, from the start cell to the
target cell, and every cell of the sequence is closer to the target by
exactly 1 than the cell before it, whichever node is taken among those of
equal `f`. -/
theorem bestPath_obstacle_free (gw gh : Int) (grid : Grid) (tie : Nat → Nat)
    (eMotion pMotion : Motion)
    (hfree : ∀ r c, inGrid gw gh c r → grid r c = 0)
    (hs : inGrid gw gh (worldToCell eMotion.position.x) (worldToCell eMotion.position.y))
    (ht : inGrid gw gh (worldToCell pMotion.position.x) (worldToCell pMotion.position.y)) :
    ((bestPath gw gh grid tie eMotion pMotion).length : Int) =
        manhattanDistance (worldToCell eMotion.position.x) (worldToCell eMotion.position.y)
          (worldToCell pMotion.position.x) (worldToCell pMotion.position.y) + 1 ∧
      (bestPath gw gh grid tie eMotion pMotion).head? =
        some (worldToCell eMotion.position.x, worldToCell eMotion.position.y) ∧
      (bestPath gw gh grid tie eMotion pMotion).getLast? =
        some (worldToCell pMotion.position.x, worldToCell pMotion.position.y) ∧
      List.Chain' (fun a b =>
          manhattanDistance b.1 b.2 (worldToCell pMotion.position.x)
              (worldToCell pMotion.position.y) + 1 =
            manhattanDistance a.1 a.2 (worldToCell pMotion.position.x)
              (worldToCell pMotion.position.y))
        (bestPath gw gh grid tie eMotion pMotion) := by
  have hguard : ¬ (grid (worldToCell pMotion.position.y) (worldToCell pMotion.position.x) = 1 ∨
      worldToCell pMotion.position.y ≥ gh) := by
    have h0 := hfree _ _ ht
    have h1 := ht.2.2.2
    omega
  have hloop := bestPathCells_eq_loop gw gh grid tie (worldToCell eMotion.position.x)
    (worldToCell eMotion.position.y) _ _ hguard
  obtain ⟨hlen, hchain⟩ := searchLoop_free gw gh grid tie _ _ _ _ hfree hs ht _ 0 _ _
    (FreeInv.at_start gw gh grid _ _ _ _) _ hloop
  have hne : bestPathCells gw gh grid tie (worldToCell eMotion.position.x)
      (worldToCell eMotion.position.y) (worldToCell pMotion.position.x)
      (worldToCell pMotion.position.y) ≠ [] := by
    intro h
    rw [h] at hlen
    have := manhattan_nonneg (worldToCell eMotion.position.x) (worldToCell eMotion.position.y)
      (worldToCell pMotion.position.x) (worldToCell pMotion.position.y)
    simp only [List.length_nil, Nat.cast_zero] at hlen
    omega
  rcases bestPathCells_sound gw gh grid tie (worldToCell eMotion.position.x)
    (worldToCell eMotion.position.y) (worldToCell pMotion.position.x)
    (worldToCell pMotion.position.y) with h | ⟨h1, h2, -⟩
  · exact absurd h hne
  · exact ⟨hlen, h1, h2, hchain⟩

/-- C4 at a concrete input: the 10x10 grid without obstacles, from cell
(0,0) to cell (9,9). -/
theorem bestPath_obstacle_free_witness :
    (∀ r c, inGrid 10 10 c r → (fun _ _ => (0 : Int)) r c = 0) ∧
      inGrid 10 10 (worldToCell (motionAt 30 30 10 10).position.x)
        (worldToCell (motionAt 30 30 10 10).position.y) ∧
      inGrid 10 10 (worldToCell (motionAt 300 300 10 10).position.x)
        (worldToCell (motionAt 300 300 10 10).position.y) ∧
      ((bestPath 10 10 (fun _ _ => 0) (fun k => 3 * k + 1) (motionAt 30 30 10 10)
        (motionAt 300 300 10 10)).length : Int) =
        manhattanDistance (worldToCell (motionAt 30 30 10 10).position.x)
          (worldToCell (motionAt 30 30 10 10).position.y)
          (worldToCell (motionAt 300 300 10 10).position.x)
          (worldToCell (motionAt 300 300 10 10).position.y) + 1 :=
  have h0 : worldToCell (30 : ℚ) = 0 := worldToCell_eq 30 0 (by norm_num) (by norm_num)
  have h9 : worldToCell (300 : ℚ) = 9 := worldToCell_eq 300 9 (by norm_num) (by norm_num)
  have hs : inGrid 10 10 (worldToCell (motionAt 30 30 10 10).position.x)
      (worldToCell (motionAt 30 30 10 10).position.y) := by
    show inGrid 10 10 (worldToCell 30) (worldToCell 30)
    rw [h0]
    decide
  have ht : inGrid 10 10 (worldToCell (motionAt 300 300 10 10).position.x)
      (worldToCell (motionAt 300 300 10 10).position.y) := by
    show inGrid 10 10 (worldToCell 300) (worldToCell 300)
    rw [h9]
    decide
  ⟨fun _ _ _ => rfl, hs, ht,
    (bestPath_obstacle_free 10 10 (fun _ _ => 0) (fun k => 3 * k + 1) (motionAt 30 30 10 10)
      (motionAt 300 300 10 10) (fun _ _ _ => rfl) hs ht).1⟩

/-- C5: a non-empty sequence returned by `bestPath` begins with the start
cell, ends with the target cell, and every two consecutive cells differ by
exactly 1 in exactly one coordinate, the second of them (so every cell after
the first) lying inside the grid. -/
theorem bestPath_path_shape (gw gh : Int) (grid : Grid) (tie : Nat → Nat)
    (eMotion pMotion : Motion) (hne : bestPath gw gh grid tie eMotion pMotion ≠ []) :
    (bestPath gw gh grid tie eMotion pMotion).head? =
        some (worldToCell eMotion.position.x, worldToCell eMotion.position.y) ∧
      (bestPath gw gh grid tie eMotion pMotion).getLast? =
        some (worldToCell pMotion.position.x, worldToCell pMotion.position.y) ∧
      List.Chain' (fun a b => unitStep a b ∧ inGrid gw gh b.1 b.2)
        (bestPath gw gh grid tie eMotion pMotion) := by
  unfold bestPath at hne ⊢
  rcases bestPathCells_sound gw gh grid tie (worldToCell eMotion.position.x)
    (worldToCell eMotion.position.y) (worldToCell pMotion.position.x)
    (worldToCell pMotion.position.y) with h | ⟨h1, h2, h3⟩
  · exact absurd h hne
  · refine ⟨h1, h2, h3.imp ?_⟩
    rintro a b ⟨d, hd, hb, hin, -⟩
    refine ⟨?_, hin⟩
    rw [hb]
    exact unitStep_of_dir a d hd

/-- C5 at a concrete input: the 10x10 grid with the cells of rows and columns
4..6 occupied, from cell (0,0) to cell (9,9). -/
theorem bestPath_path_shape_witness :
    bestPath 10 10 (fun r c => if 4 ≤ r ∧ r ≤ 6 ∧ 4 ≤ c ∧ c ≤ 6 then 1 else 0) (fun _ => 0)
        (motionAt 30 30 10 10) (motionAt 300 300 10 10) ≠ [] ∧
      (bestPath 10 10 (fun r c => if 4 ≤ r ∧ r ≤ 6 ∧ 4 ≤ c ∧ c ≤ 6 then 1 else 0) (fun _ => 0)
        (motionAt 30 30 10 10) (motionAt 300 300 10 10)).getLast? =
        some (worldToCell (motionAt 300 300 10 10).position.x,
          worldToCell (motionAt 300 300 10 10).position.y) :=
  have hne : bestPath 10 10 (fun r c => if 4 ≤ r ∧ r ≤ 6 ∧ 4 ≤ c ∧ c ≤ 6 then 1 else 0)
      (fun _ => 0) (motionAt 30 30 10 10) (motionAt 300 300 10 10) ≠ [] := by
    rw [bestPath_eq 10 10 _ _ (motionAt 30 30 10 10) (motionAt 300 300 10 10) 0 0 9 9
      (worldToCell_eq 30 0 (by norm_num) (by norm_num))
      (worldToCell_eq 30 0 (by norm_num) (by norm_num))
      (worldToCell_eq 300 9 (by norm_num) (by norm_num))
      (worldToCell_eq 300 9 (by norm_num) (by norm_num))]
    decide
  ⟨hne, (bestPath_path_shape 10 10 _ (fun _ => 0) (motionAt 30 30 10 10)
    (motionAt 300 300 10 10) hne).2.1⟩

/-- C6: for a start cell inside the grid and a target cell inside the grid
that is not occupied, `bestPath` returns a non-empty sequence exactly when
the target can be reached from the start by moves to neighbouring cells that
lie in the grid and read 0; otherwise the open list runs empty and the empty
sequence is returned. -/
theorem bestPath_nonempty_iff_reachable (gw gh : Int) (grid : Grid) (tie : Nat → Nat)
    (eMotion pMotion : Motion)
    (_hs : inGrid gw gh (worldToCell eMotion.position.x) (worldToCell eMotion.position.y))
    (ht : inGrid gw gh (worldToCell pMotion.position.x) (worldToCell pMotion.position.y))
    (hfree : grid (worldToCell pMotion.position.y) (worldToCell pMotion.position.x) ≠ 1) :
    (bestPath gw gh grid tie eMotion pMotion ≠ [] ↔
      Reach gw gh grid (worldToCell eMotion.position.x, worldToCell eMotion.position.y)
        (worldToCell pMotion.position.x, worldToCell pMotion.position.y)) ∧
    (¬ Reach gw gh grid (worldToCell eMotion.position.x, worldToCell eMotion.position.y)
        (worldToCell pMotion.position.x, worldToCell pMotion.position.y) →
      bestPath gw gh grid tie eMotion pMotion = []) := by
  have hguard : ¬ (grid (worldToCell pMotion.position.y) (worldToCell pMotion.position.x) = 1 ∨
      worldToCell pMotion.position.y ≥ gh) := by
    have h1 := ht.2.2.2
    omega
  have hloop := bestPathCells_eq_loop gw gh grid tie (worldToCell eMotion.position.x)
    (worldToCell eMotion.position.y) _ _ hguard
  have hiff := searchLoop_reach gw gh grid tie _ _ _ _ _ 0 _ _
    (ReachInv.holds_at_start gw gh grid _ _ _ _) _ hloop
  refine ⟨hiff, ?_⟩
  intro hn
  by_contra hne
  exact hn (hiff.1 hne)

/-- C6, the scenario of the spec: on the 10x10 grid with the cells of rows
and columns 4..6 occupied, the search from cell (0,0) to cell (9,9) returns a
non-empty path that holds none of the nine occupied cells. -/
theorem bestPath_nonempty_iff_reachable_witness :
    inGrid 10 10 (worldToCell (motionAt 30 30 10 10).position.x)
        (worldToCell (motionAt 30 30 10 10).position.y) ∧
      inGrid 10 10 (worldToCell (motionAt 300 300 10 10).position.x)
        (worldToCell (motionAt 300 300 10 10).position.y) ∧
      (fun r c => if 4 ≤ r ∧ r ≤ 6 ∧ 4 ≤ c ∧ c ≤ 6 then (1 : Int) else 0)
        (worldToCell (motionAt 300 300 10 10).position.y)
        (worldToCell (motionAt 300 300 10 10).position.x) ≠ 1 ∧
      bestPath 10 10 (fun r c => if 4 ≤ r ∧ r ≤ 6 ∧ 4 ≤ c ∧ c ≤ 6 then 1 else 0)
        (fun k => 5 * k + 2) (motionAt 30 30 10 10) (motionAt 300 300 10 10) ≠ [] ∧
      (bestPath 10 10 (fun r c => if 4 ≤ r ∧ r ≤ 6 ∧ 4 ≤ c ∧ c ≤ 6 then 1 else 0)
        (fun _ => 0) (motionAt 30 30 10 10) (motionAt 300 300 10 10)).all
          (fun c => !(decide (4 ≤ c.1 ∧ c.1 ≤ 6 ∧ 4 ≤ c.2 ∧ c.2 ≤ 6))) = true :=
  have h0 : worldToCell (30 : ℚ) = 0 := worldToCell_eq 30 0 (by norm_num) (by norm_num)
  have h9 : worldToCell (300 : ℚ) = 9 := worldToCell_eq 300 9 (by norm_num) (by norm_num)
  have hs : inGrid 10 10 (worldToCell (motionAt 30 30 10 10).position.x)
      (worldToCell (motionAt 30 30 10 10).position.y) := by
    show inGrid 10 10 (worldToCell 30) (worldToCell 30)
    rw [h0]
    decide
  have ht : inGrid 10 10 (worldToCell (motionAt 300 300 10 10).position.x)
      (worldToCell (motionAt 300 300 10 10).position.y) := by
    show inGrid 10 10 (worldToCell 300) (worldToCell 300)
    rw [h9]
    decide
  have hfree : (fun r c => if 4 ≤ r ∧ r ≤ 6 ∧ 4 ≤ c ∧ c ≤ 6 then (1 : Int) else 0)
      (worldToCell (motionAt 300 300 10 10).position.y)
      (worldToCell (motionAt 300 300 10 10).position.x) ≠ 1 := by
    show (fun r c => if 4 ≤ r ∧ r ≤ 6 ∧ 4 ≤ c ∧ c ≤ 6 then (1 : Int) else 0)
      (worldToCell 300) (worldToCell 300) ≠ 1
    rw [h9]
    decide
  have hreach : Reach 10 10 (fun r c => if 4 ≤ r ∧ r ≤ 6 ∧ 4 ≤ c ∧ c ≤ 6 then 1 else 0)
      (worldToCell (motionAt 30 30 10 10).position.x,
        worldToCell (motionAt 30 30 10 10).position.y)
      (worldToCell (motionAt 300 300 10 10).position.x,
        worldToCell (motionAt 300 300 10 10).position.y) := by
    show Reach 10 10 _ (worldToCell 30, worldToCell 30) (worldToCell 300, worldToCell 300)
    rw [h0, h9]
    exact reach_of_chain 10 10 _
      [(0, 0), (1, 0), (2, 0), (3, 0), (4, 0), (5, 0), (6, 0), (7, 0), (8, 0), (9, 0),
        (9, 1), (9, 2), (9, 3), (9, 4), (9, 5), (9, 6), (9, 7), (9, 8), (9, 9)]
      (0, 0) (9, 9) (chain'_of_stepsOK 10 10 _ _ (by decide)) rfl rfl
  ⟨hs, ht, hfree,
    (bestPath_nonempty_iff_reachable 10 10 _ (fun k => 5 * k + 2) (motionAt 30 30 10 10)
      (motionAt 300 300 10 10) hs ht hfree).1.2 hreach,
    by
      rw [bestPath_eq 10 10 _ _ (motionAt 30 30 10 10) (motionAt 300 300 10 10) 0 0 9 9
        (worldToCell_eq 30 0 (by norm_num) (by norm_num))
        (worldToCell_eq 30 0 (by norm_num) (by norm_num))
        (worldToCell_eq 300 9 (by norm_num) (by norm_num))
        (worldToCell_eq 300 9 (by norm_num) (by norm_num))]
      decide⟩

/-! ## Line of sight -/

theorem losLoop_eq_false_iff (platforms : List Entity) (minX maxX minY maxY : ℚ) :
    ∀ (ms : List (Entity × Motion)),
      losLoop platforms minX maxX minY maxY ms = false ↔
        ∃ em ∈ ms, em.1 ∈ platforms ∧
          (aabb em.2).overlaps ⟨minX, maxX, minY, maxY⟩ := by
  intro ms
  induction ms with
  | nil => simp [losLoop]
  | cons em rest ih =>
      obtain ⟨e, m⟩ := em
      unfold losLoop
      by_cases hp : e ∈ platforms
      · have hov : (aabb m).overlaps ⟨minX, maxX, minY, maxY⟩ ↔
            ((m.position.x - m.scale.x / 2 ≤ maxX ∧ m.position.x + m.scale.x / 2 ≥ minX) ∧
              (m.position.y - m.scale.y / 2 ≤ maxY ∧ m.position.y + m.scale.y / 2 ≥ minY)) := by
          unfold Rect.overlaps aabb
          simp only [not_or, not_lt, ge_iff_le]
          constructor
          · rintro ⟨h1, h2, h3, h4⟩
            exact ⟨⟨h2, h1⟩, ⟨h4, h3⟩⟩
          · rintro ⟨⟨h2, h1⟩, ⟨h4, h3⟩⟩
            exact ⟨h1, h2, h3, h4⟩
        simp only [hp, not_true_eq_false, if_false]
        by_cases hhit : (m.position.x - m.scale.x / 2 ≤ maxX ∧
            m.position.x + m.scale.x / 2 ≥ minX) ∧
            (m.position.y - m.scale.y / 2 ≤ maxY ∧ m.position.y + m.scale.y / 2 ≥ minY)
        · have h1 : (decide (m.position.x - m.scale.x / 2 ≤ maxX ∧
              m.position.x + m.scale.x / 2 ≥ minX) &&
              decide (m.position.y - m.scale.y / 2 ≤ maxY ∧
                m.position.y + m.scale.y / 2 ≥ minY)) = true := by
            simp only [Bool.and_eq_true, decide_eq_true_eq]
            exact hhit
          rw [if_pos h1]
          simp only [true_iff]
          exact ⟨(e, m), List.mem_cons_self _ _, hp, hov.2 hhit⟩
        · have h1 : ¬ (decide (m.position.x - m.scale.x / 2 ≤ maxX ∧
              m.position.x + m.scale.x / 2 ≥ minX) &&
              decide (m.position.y - m.scale.y / 2 ≤ maxY ∧
                m.position.y + m.scale.y / 2 ≥ minY)) = true := by
            simp only [Bool.and_eq_true, decide_eq_true_eq]
            exact hhit
          rw [if_neg h1, ih]
          constructor
          · rintro ⟨em, hem, h⟩
            exact ⟨em, List.mem_cons_of_mem _ hem, h⟩
          · rintro ⟨em, hem, h2, h3⟩
            rcases List.mem_cons.1 hem with rfl | hem
            · exact absurd (hov.1 h3) hhit
            · exact ⟨em, hem, h2, h3⟩
      · simp only [hp, not_false_eq_true, if_true]
        rw [ih]
        constructor
        · rintro ⟨em, hem, h⟩
          exact ⟨em, List.mem_cons_of_mem _ hem, h⟩
        · rintro ⟨em, hem, h2, h3⟩
          rcases List.mem_cons.1 hem with rfl | hem
          · exact absurd h2 hp
          · exact ⟨em, hem, h2, h3⟩

/-- For rectangles of non-negative size, to overlap (touching included) is to
have a point in common. -/
theorem Rect.overlaps_iff_common_point (r s : Rect) (hr : r.xlo ≤ r.xhi ∧ r.ylo ≤ r.yhi)
    (hs : s.xlo ≤ s.xhi ∧ s.ylo ≤ s.yhi) :
    r.overlaps s ↔ ∃ x y : ℚ, (r.xlo ≤ x ∧ x ≤ r.xhi ∧ r.ylo ≤ y ∧ y ≤ r.yhi) ∧
      (s.xlo ≤ x ∧ x ≤ s.xhi ∧ s.ylo ≤ y ∧ y ≤ s.yhi) := by
  unfold Rect.overlaps
  simp only [not_or, not_lt]
  constructor
  · rintro ⟨h1, h2, h3, h4⟩
    refine ⟨max r.xlo s.xlo, max r.ylo s.ylo, ⟨le_max_left _ _, max_le hr.1 h1, le_max_left _ _,
      max_le hr.2 h3⟩, ⟨le_max_right _ _, max_le h2 hs.1, le_max_right _ _, max_le h4 hs.2⟩⟩
  · rintro ⟨x, y, ⟨a1, a2, a3, a4⟩, ⟨b1, b2, b3, b4⟩⟩
    exact ⟨b1.trans a2, a1.trans b2, b3.trans a4, a3.trans b4⟩

/-- C8: `hasLineOfSight(a, b)` returns false exactly when the AABB (centre
`position`, full size `scale`) of at least one entity that is a platform
overlaps, touching included, the bounding rectangle of `a` and `b`, and true
otherwise; with no platform it returns true; entities that are not platforms
do not affect the result. -/
theorem hasLineOfSight_iff (reg : Registry) (a b : Vec2) :
    (hasLineOfSight reg a b = false ↔
      ∃ em ∈ reg.motions, em.1 ∈ reg.platforms ∧ (aabb em.2).overlaps (boundingRect a b)) ∧
    (hasLineOfSight reg a b = true ↔
      ¬ ∃ em ∈ reg.motions, em.1 ∈ reg.platforms ∧ (aabb em.2).overlaps (boundingRect a b)) ∧
    hasLineOfSight { reg with platforms := [] } a b = true ∧
    hasLineOfSight reg a b =
      hasLineOfSight { reg with motions := reg.motions.filter fun em => em.1 ∈ reg.platforms }
        a b := by
  have h1 : ∀ reg : Registry, hasLineOfSight reg a b = false ↔
      ∃ em ∈ reg.motions, em.1 ∈ reg.platforms ∧ (aabb em.2).overlaps (boundingRect a b) := by
    intro reg
    unfold hasLineOfSight boundingRect
    exact losLoop_eq_false_iff _ _ _ _ _ _
  have h2 : ∀ reg : Registry, hasLineOfSight reg a b = true ↔
      ¬ ∃ em ∈ reg.motions, em.1 ∈ reg.platforms ∧ (aabb em.2).overlaps (boundingRect a b) := by
    intro reg
    rw [← h1 reg]
    simp
  refine ⟨h1 reg, h2 reg, ?_, ?_⟩
  · rw [h2]
    rintro ⟨em, -, h, -⟩
    simp at h
  · have h3 : (∃ em ∈ reg.motions, em.1 ∈ reg.platforms ∧
          (aabb em.2).overlaps (boundingRect a b)) ↔
        ∃ em ∈ reg.motions.filter (fun em => em.1 ∈ reg.platforms), em.1 ∈ reg.platforms ∧
          (aabb em.2).overlaps (boundingRect a b) := by
      constructor
      · rintro ⟨em, hem, hp, ho⟩
        exact ⟨em, List.mem_filter.2 ⟨hem, by simpa using hp⟩, hp, ho⟩
      · rintro ⟨em, hem, hp, ho⟩
        exact ⟨em, (List.mem_filter.1 hem).1, hp, ho⟩
    cases hv : hasLineOfSight reg a b with
    | false =>
        symm
        rw [h1]
        exact h3.1 ((h1 reg).1 hv)
    | true =>
        symm
        rw [h2]
        intro hex
        exact (h2 reg).1 hv (h3.2 hex)

/-! ## The physics step -/

theorem setInStore_fst (e : Entity) (m : Motion) (ms : List (Entity × Motion)) :
    (setInStore e m ms).map Prod.fst = ms.map Prod.fst := by
  induction ms with
  | nil => rfl
  | cons em rest ih =>
      obtain ⟨e1, m1⟩ := em
      unfold setInStore
      by_cases h : (e1 == e) = true
      · rw [if_pos h]
        rfl
      · rw [if_neg h]
        simp only [List.map_cons, ih]

theorem setAtStore_fst (i : Nat) (m : Motion) (ms : List (Entity × Motion)) :
    (setAtStore i m ms).map Prod.fst = ms.map Prod.fst := by
  induction ms generalizing i with
  | nil => cases i <;> rfl
  | cons em rest ih =>
      cases i with
      | zero => rfl
      | succ i =>
          simp only [setAtStore, List.map_cons, ih]

theorem Registry.sameFrame_refl (reg : Registry) : reg.sameFrame reg :=
  ⟨rfl, rfl, rfl, rfl, rfl, rfl, rfl⟩

theorem Registry.sameFrame_setMotion {reg0 reg : Registry} (h : reg0.sameFrame reg)
    (e : Entity) (m : Motion) : reg0.sameFrame (reg.setMotion e m) := by
  obtain ⟨h1, h2⟩ := h
  refine ⟨?_, h2⟩
  unfold Registry.setMotion
  rw [← h1]
  exact setInStore_fst e m reg.motions

theorem Registry.sameFrame_setAt {reg0 reg : Registry} (h : reg0.sameFrame reg)
    (i : Nat) (m : Motion) : reg0.sameFrame (reg.setAt i m) := by
  obtain ⟨h1, h2⟩ := h
  refine ⟨?_, h2⟩
  unfold Registry.setAt
  rw [← h1]
  exact setAtStore_fst i m reg.motions

theorem forEachM_preserves {α : Type} (body : Registry → α → Option Registry)
    (P : Registry → Prop)
    (hbody : ∀ reg a reg1, P reg → body reg a = some reg1 → P reg1) :
    ∀ (l : List α) (reg reg1 : Registry), P reg → forEachM body l reg = some reg1 → P reg1 := by
  intro l
  induction l with
  | nil =>
      intro reg reg1 hp h
      simp only [forEachM, Option.some.injEq] at h
      subst h
      exact hp
  | cons a rest ih =>
      intro reg reg1 hp h
      unfold forEachM at h
      cases hb : body reg a with
      | none =>
          rw [hb] at h
          simp at h
      | some reg2 =>
          rw [hb] at h
          exact ih reg2 reg1 (hbody reg a reg2 hp hb) h

theorem updatePaintCan_sameFrame (cs : CollisionSystem) (reg0 reg reg1 : Registry)
    (e : Entity) (h : reg0.sameFrame reg) (hu : updatePaintCan cs reg e = some reg1) :
    reg0.sameFrame reg1 := by
  unfold updatePaintCan at hu
  cases hm : reg.getMotion e with
  | none =>
      rw [hm] at hu
      simp at hu
  | some m =>
      rw [hm] at hu
      dsimp only at hu
      cases hf : firstPlatformHit cs reg m reg.platforms with
      | none =>
          rw [hf] at hu
          simp at hu
      | some hit =>
          rw [hf] at hu
          cases hit with
          | none =>
              simp only [Option.some.injEq] at hu
              subst hu
              exact Registry.sameFrame_setMotion h _ _
          | some pm =>
              simp only [Option.some.injEq] at hu
              subst hu
              exact Registry.sameFrame_setMotion h _ _

theorem updatePaintCanGroundedState_sameFrame (cs : CollisionSystem)
    (reg0 reg reg1 : Registry) (h : reg0.sameFrame reg)
    (hu : updatePaintCanGroundedState cs reg = some reg1) : reg0.sameFrame reg1 := by
  unfold updatePaintCanGroundedState at hu
  exact forEachM_preserves (updatePaintCan cs) reg0.sameFrame
    (fun r a r1 hp hb => updatePaintCan_sameFrame cs reg0 r r1 a hp hb) _ _ _ h hu

theorem integrateAt_sameFrame (c : Consts) (cs : CollisionSystem) (elapsed_ms : ℚ)
    (reg0 reg reg1 : Registry) (i : Nat) (h : reg0.sameFrame reg)
    (hu : integrateAt c cs elapsed_ms reg i = some reg1) : reg0.sameFrame reg1 := by
  unfold integrateAt at hu
  cases hg : reg.motions[i]? with
  | none =>
      rw [hg] at hu
      simp only [Option.some.injEq] at hu
      subst hu
      exact h
  | some em =>
      obtain ⟨e, m⟩ := em
      rw [hg] at hu
      dsimp only at hu
      by_cases hfix : m.fixed = true
      · rw [if_pos hfix] at hu
        simp only [Option.some.injEq] at hu
        subst hu
        exact h
      · rw [if_neg hfix] at hu
        cases hpc : updatePaintCanGroundedState cs (reg.setAt i
            (if e ∈ reg.players then
              if e ∈ reg.deathTimers then
                { applyFriction c (checkWindowBoundary c
                    (verticalUpdate c (decide (e ∈ reg.boulders)) elapsed_ms m)) with
                  velocity := ⟨0, (applyFriction c (checkWindowBoundary c
                    (verticalUpdate c (decide (e ∈ reg.boulders)) elapsed_ms m))).velocity.y⟩ }
              else applyFriction c (checkWindowBoundary c
                (verticalUpdate c (decide (e ∈ reg.boulders)) elapsed_ms m))
            else verticalUpdate c (decide (e ∈ reg.boulders)) elapsed_ms m)) with
        | none =>
            rw [hpc] at hu
            simp at hu
        | some reg2 =>
            rw [hpc] at hu
            dsimp only at hu
            have h2 : reg0.sameFrame reg2 :=
              updatePaintCanGroundedState_sameFrame cs reg0 _ reg2
                (Registry.sameFrame_setAt h _ _) hpc
            cases hg2 : reg2.motions[i]? with
            | none =>
                rw [hg2] at hu
                simp only [Option.some.injEq] at hu
                subst hu
                exact h2
            | some em2 =>
                rw [hg2] at hu
                simp only [Option.some.injEq] at hu
                subst hu
                exact Registry.sameFrame_setAt h2 _ _

theorem integrateAll_sameFrame (c : Consts) (cs : CollisionSystem) (elapsed_ms : ℚ)
    (reg reg1 : Registry) (hu : integrateAll c cs elapsed_ms reg = some reg1) :
    reg.sameFrame reg1 := by
  unfold integrateAll at hu
  exact forEachM_preserves (integrateAt c cs elapsed_ms) reg.sameFrame
    (fun r a r1 hp hb => integrateAt_sameFrame c cs elapsed_ms reg r r1 a hp hb) _ _ _
    (Registry.sameFrame_refl reg) hu

theorem updatePlayerGrounded_collisions (cs : CollisionSystem) (reg reg1 : Registry)
    (hu : updatePlayerGrounded cs reg = some reg1) : reg1.collisions = reg.collisions := by
  unfold updatePlayerGrounded at hu
  cases hp : reg.players.head? with
  | none =>
      rw [hp] at hu
      simp at hu
  | some pe =>
      rw [hp] at hu
      dsimp only at hu
      cases hm : reg.getMotion pe with
      | none =>
          rw [hm] at hu
          simp at hu
      | some pm =>
          rw [hm] at hu
          dsimp only at hu
          cases ht : touchingAnyPlatform cs reg pm reg.platforms with
          | none =>
              rw [ht] at hu
              simp at hu
          | some t =>
              rw [ht] at hu
              simp only [Option.some.injEq] at hu
              subst hu
              rfl

theorem touchingAnyPlatform_spec (cs : CollisionSystem) (reg : Registry) (player : Motion) :
    ∀ (ps : List Entity) (t : Bool), touchingAnyPlatform cs reg player ps = some t →
      (t = true ↔ ∃ e ∈ ps, ∃ m, reg.getMotion e = some m ∧
        cs.rectangleCollides m player = true) := by
  intro ps
  induction ps with
  | nil =>
      intro t h
      simp only [touchingAnyPlatform, Option.some.injEq] at h
      subst h
      simp
  | cons e rest ih =>
      intro t h
      unfold touchingAnyPlatform at h
      cases hm : reg.getMotion e with
      | none =>
          rw [hm] at h
          simp at h
      | some m =>
          rw [hm] at h
          dsimp only at h
          by_cases hc : cs.rectangleCollides m player = true
          · rw [if_pos hc] at h
            simp only [Option.some.injEq] at h
            subst h
            simp only [true_iff]
            exact ⟨e, List.mem_cons_self _ _, m, hm, hc⟩
          · rw [if_neg hc] at h
            rw [ih t h]
            constructor
            · rintro ⟨e1, he1, h1⟩
              exact ⟨e1, List.mem_cons_of_mem _ he1, h1⟩
            · rintro ⟨e1, he1, m1, hm1, hc1⟩
              rcases List.mem_cons.1 he1 with rfl | he1
              · rw [hm] at hm1
                simp only [Option.some.injEq] at hm1
                subst hm1
                exact absurd hc1 hc
              · exact ⟨e1, he1, m1, hm1, hc1⟩

/-- The end of the step does for the player what C9 says: the flag written
is true exactly when some platform collides with the player, on the
positions that the integration loop has left. -/
theorem updatePlayerGrounded_spec (cs : CollisionSystem) (reg reg1 : Registry)
    (h : updatePlayerGrounded cs reg = some reg1) :
    ∃ playerEntity player flag, reg.players.head? = some playerEntity ∧
      reg.getMotion playerEntity = some player ∧
      reg1 = reg.setMotion playerEntity { player with grounded := flag } ∧
      (flag = true ↔ ∃ e ∈ reg.platforms, ∃ m, reg.getMotion e = some m ∧
        cs.rectangleCollides m player = true) := by
  unfold updatePlayerGrounded at h
  cases hp : reg.players.head? with
  | none =>
      rw [hp] at h
      simp at h
  | some pe =>
      rw [hp] at h
      dsimp only at h
      cases hm : reg.getMotion pe with
      | none =>
          rw [hm] at h
          simp at h
      | some pm =>
          rw [hm] at h
          dsimp only at h
          cases ht : touchingAnyPlatform cs reg pm reg.platforms with
          | none =>
              rw [ht] at h
              simp at h
          | some t =>
              rw [ht] at h
              simp only [Option.some.injEq] at h
              exact ⟨pe, pm, t, rfl, hm, h.symm, touchingAnyPlatform_spec cs reg pm _ t ht⟩

/-- One step of 16 ms on the example registry: the paint can is snapped to
the platform, then moved 3.2 units to the right, off the platform. -/
theorem step_example :
    PhysicsSystem.step exampleConsts exampleCollisions 16 exampleRegistry = some exampleAfter := by
  norm_num [PhysicsSystem.step, integrateAll, forEachM, integrateAt, exampleRegistry,
    exampleAfter, exampleConsts, exampleCollisions, motionAt, verticalUpdate,
    checkWindowBoundary, applyFriction, updatePaintCanGroundedState, updatePaintCan,
    firstPlatformHit, Registry.getMotion, Registry.setMotion, Registry.setAt, setInStore,
    setAtStore, rectanglesOverlap, updatePlayerGrounded, touchingAnyPlatform, collisionEvents,
    pairEvents, List.range, List.range.loop, List.range', abs_of_nonneg, abs_of_pos]

/-! ### The collision pass -/

theorem pairEvents_eq (cs : CollisionSystem) (ms : List (Entity × Motion)) (i j : Nat) :
    pairEvents cs ms i j = if collidesAt cs ms i j then directedEvents ms (i, j) else [] := by
  unfold pairEvents collidesAt directedEvents
  cases ms[i]? with
  | none => simp
  | some a =>
      cases ms[j]? with
      | none => simp
      | some b => rfl

theorem flatMap_filter_eq {α β : Type} (p : α → Bool) (f : α → List β) (l : List α) :
    (l.filter p).flatMap f = l.flatMap fun a => if p a then f a else [] := by
  induction l with
  | nil => rfl
  | cons a tl ih =>
      by_cases h : p a = true
      · rw [List.filter_cons_of_pos h, List.flatMap_cons, List.flatMap_cons, ih, if_pos h]
      · rw [List.filter_cons_of_neg h, List.flatMap_cons, ih, if_neg h, List.nil_append]

/-- The events of the collision pass are the two directed events of every
colliding index pair `i < j`, pair after pair. -/
theorem collisionEvents_eq (cs : CollisionSystem) (ms : List (Entity × Motion)) :
    collisionEvents cs ms = (collidingPairs cs ms).flatMap (directedEvents ms) := by
  unfold collisionEvents collidingPairs
  rw [List.flatMap_assoc]
  apply List.flatMap_congr
  intro i hi
  rw [List.mem_range] at hi
  rw [List.flatMap_map, flatMap_filter_eq]
  have hsplit : List.range ms.length =
      List.range' 0 (i + 1) ++ List.range' (i + 1) (ms.length - (i + 1)) := by
    rw [List.range_eq_range']
    have := List.range'_append_1 0 (i + 1) (ms.length - (i + 1))
    rw [Nat.zero_add] at this
    rw [this]
    congr 1
    omega
  rw [hsplit, List.flatMap_append]
  have hfirst : (List.range' 0 (i + 1)).flatMap (fun j =>
      if (decide (i < j) && collidesAt cs ms i j) = true then directedEvents ms (i, j) else [])
      = [] := by
    rw [List.flatMap_eq_nil_iff]
    intro j hj
    rw [List.mem_range'_1] at hj
    have : ¬ i < j := by omega
    simp [this]
  rw [hfirst, List.nil_append]
  apply List.flatMap_congr
  intro j hj
  rw [List.mem_range'_1] at hj
  have : i < j := by omega
  rw [pairEvents_eq]
  simp [this]

theorem mem_collidingPairs (cs : CollisionSystem) (ms : List (Entity × Motion)) (p : Nat × Nat) :
    p ∈ collidingPairs cs ms ↔
      p.1 < p.2 ∧ p.2 < ms.length ∧ collidesAt cs ms p.1 p.2 = true := by
  unfold collidingPairs
  simp only [List.mem_flatMap, List.mem_range, List.mem_map, List.mem_filter,
    Bool.and_eq_true, decide_eq_true_eq]
  constructor
  · rintro ⟨i, hi, j, ⟨hj, hij, hc⟩, rfl⟩
    exact ⟨hij, hj, hc⟩
  · rintro ⟨h1, h2, h3⟩
    exact ⟨p.1, by omega, p.2, ⟨h2, h1, h3⟩, rfl⟩

theorem directedEvents_of_mem (cs : CollisionSystem) (ms : List (Entity × Motion))
    (p : Nat × Nat) (hp : p ∈ collidingPairs cs ms) :
    ∃ a b, ms[p.1]? = some a ∧ ms[p.2]? = some b ∧
      directedEvents ms p = [(a.1, b.1), (b.1, a.1)] := by
  rw [mem_collidingPairs] at hp
  obtain ⟨h1, h2, -⟩ := hp
  have hi : p.1 < ms.length := by omega
  refine ⟨ms[p.1], ms[p.2], List.getElem?_eq_getElem hi, List.getElem?_eq_getElem h2, ?_⟩
  unfold directedEvents
  rw [List.getElem?_eq_getElem hi, List.getElem?_eq_getElem h2]
  rcases ms[p.1] with ⟨e1, m1⟩
  rcases ms[p.2] with ⟨e2, m2⟩
  rfl

theorem length_flatMap_two {α β : Type} (f : α → List β) (l : List α)
    (h : ∀ a ∈ l, (f a).length = 2) : (l.flatMap f).length = 2 * l.length := by
  induction l with
  | nil => rfl
  | cons a tl ih =>
      rw [List.flatMap_cons, List.length_append, h a (List.mem_cons_self _ _),
        ih fun b hb => h b (List.mem_cons_of_mem _ hb), List.length_cons]
      omega

/-- C10: in one `PhysicsSystem::step` the collision events appended are
exactly the two directed events `(entity_i, entity_j)`, `(entity_j, entity_i)`
of every index pair `i < j` of the motion store (as the integration loop
leaves it) whose entities collide, and nothing else.  Hence the events of the
tick are closed under swapping the two entities, are twice as many as the
colliding pairs and, the store holding every entity once, never pair an
entity with itself. -/
theorem step_collision_events (c : Consts) (cs : CollisionSystem) (elapsed_ms : ℚ)
    (reg reg1 : Registry) (hnd : (reg.motions.map Prod.fst).Nodup)
    (hstep : PhysicsSystem.step c cs elapsed_ms reg = some reg1) :
    ∃ mid events, integrateAll c cs elapsed_ms reg = some mid ∧
      reg1.collisions = reg.collisions ++ events ∧
      events = (collidingPairs cs mid.motions).flatMap (directedEvents mid.motions) ∧
      (events.map Prod.swap).Perm events ∧
      events.length = 2 * (collidingPairs cs mid.motions).length ∧
      ∀ ev ∈ events, ev.1 ≠ ev.2 := by
  unfold PhysicsSystem.step at hstep
  cases hint : integrateAll c cs elapsed_ms reg with
  | none =>
      rw [hint] at hstep
      simp at hstep
  | some mid =>
      rw [hint] at hstep
      dsimp only at hstep
      have hframe := integrateAll_sameFrame c cs elapsed_ms reg mid hint
      have hcol := updatePlayerGrounded_collisions cs _ reg1 hstep
      dsimp only at hcol
      refine ⟨mid, collisionEvents cs mid.motions, rfl, ?_, collisionEvents_eq cs mid.motions,
        ?_, ?_, ?_⟩
      · rw [hcol, hframe.2.2.2.2.2.2]
      · rw [collisionEvents_eq, List.map_flatMap]
        apply List.Perm.flatMap_left
        intro p hp
        obtain ⟨a, b, -, -, hd⟩ := directedEvents_of_mem cs mid.motions p hp
        rw [hd]
        exact List.Perm.swap _ _ _
      · rw [collisionEvents_eq]
        apply length_flatMap_two
        intro p hp
        obtain ⟨a, b, -, -, hd⟩ := directedEvents_of_mem cs mid.motions p hp
        rw [hd]
        rfl
      · intro ev hev
        rw [collisionEvents_eq, List.mem_flatMap] at hev
        obtain ⟨p, hp, hevp⟩ := hev
        obtain ⟨a, b, ha, hb, hd⟩ := directedEvents_of_mem cs mid.motions p hp
        rw [mem_collidingPairs] at hp
        have hnd2 : (mid.motions.map Prod.fst).Nodup := by
          rw [hframe.1]
          exact hnd
        have hne := (List.nodup_iff_getElem?_ne_getElem?.1 hnd2) p.1 p.2 hp.1
          (by rw [List.length_map]; exact hp.2.1)
        rw [List.getElem?_map, List.getElem?_map, ha, hb] at hne
        simp only [Option.map_some', ne_eq, Option.some.injEq] at hne
        rw [hd] at hevp
        simp only [List.mem_cons, List.mem_singleton, List.not_mem_nil, or_false] at hevp
        rcases hevp with rfl | rfl
        · exact hne
        · exact fun h => hne h.symm

/-- C10 on the example registry: the player and the platform under it are
the one colliding pair, and the step appends the two events (0,1), (1,0). -/
theorem step_collision_events_witness :
    (exampleRegistry.motions.map Prod.fst).Nodup ∧
      PhysicsSystem.step exampleConsts exampleCollisions 16 exampleRegistry =
        some exampleAfter ∧
      ∃ mid events, integrateAll exampleConsts exampleCollisions 16 exampleRegistry = some mid ∧
        exampleAfter.collisions = exampleRegistry.collisions ++ events ∧
        events = (collidingPairs exampleCollisions mid.motions).flatMap
          (directedEvents mid.motions) ∧
        (events.map Prod.swap).Perm events ∧
        events.length = 2 * (collidingPairs exampleCollisions mid.motions).length ∧
        ∀ ev ∈ events, ev.1 ≠ ev.2 :=
  ⟨by decide, step_example,
    step_collision_events exampleConsts exampleCollisions 16 exampleRegistry exampleAfter
      (by decide) step_example⟩

/-- C9 fails in the code for paint cans: `updatePaintCanGroundedState` runs
inside the integration loop, before `motion.position += ...`, so the flag of
a paint can is that of the position it had before it was moved.  On the
example registry the can ends 2.2 units to the right of the only platform,
with `grounded` still true. -/
theorem step_paintCan_grounded_stale :
    ∃ reg1 can platform,
      PhysicsSystem.step exampleConsts exampleCollisions 16 exampleRegistry = some reg1 ∧
      reg1.paintCans = [2] ∧ reg1.platforms = [1] ∧
      reg1.getMotion 2 = some can ∧ reg1.getMotion 1 = some platform ∧
      can.grounded = true ∧ rectanglesOverlap can platform = false ∧
      platform.position.x + |platform.scale.x| / 2 < can.position.x - |can.scale.x| / 2 := by
  refine ⟨exampleAfter, { motionAt (536 / 5) 100 10 10 with
      grounded := true, velocity := ⟨200, 0⟩, jumpsLeft := 1 },
    { motionAt 50 100 100 10 with fixed := true }, step_example, rfl, rfl, rfl, rfl, rfl, ?_, ?_⟩
  · norm_num [rectanglesOverlap, motionAt, abs_of_nonneg, abs_of_pos]
  · norm_num [motionAt, abs_of_nonneg, abs_of_pos]

/-! ### The search with its bookkeeping -/

/-- The recording loop returns the same `path` as the loop. -/
theorem searchRun_path (gw gh : Int) (grid : Grid) (tie : Nat → Nat) (tx ty : Int) :
    ∀ (fuel k : Nat) (o : List Node) (cl : Closed) (heap : List Node) (pops : List Cell),
      (searchRun gw gh grid tie tx ty fuel k o cl heap pops).map SearchRun.path =
        searchLoop gw gh grid tie tx ty fuel k o cl := by
  intro fuel
  induction fuel with
  | zero =>
      intro k o cl heap pops
      rfl
  | succ fuel ih =>
      intro k o cl heap pops
      unfold searchRun searchLoop
      cases hp : popMin (tie k) o with
      | none => rfl
      | some q =>
          obtain ⟨cur, rest⟩ := q
          dsimp only
          by_cases ht : cur.x = tx ∧ cur.y = ty
          · rw [if_pos ht, if_pos ht]
            rfl
          · rw [if_neg ht, if_neg ht]
            exact ih _ _ _ _ _

/-- Invariants of the recording loop: what it returns extends the records it
started from; every allocated node is popped or still queued; a found path
ends the loop with the target popped last, an empty path with the open list
empty; and no more pops are made than iterations are allowed. -/
theorem searchRun_spec (gw gh : Int) (grid : Grid) (tie : Nat → Nat) (tx ty : Int) :
    ∀ (fuel k : Nat) (o : List Node) (cl : Closed) (heap : List Node) (pops : List Cell)
      (run : SearchRun),
      searchRun gw gh grid tie tx ty fuel k o cl heap pops = some run →
      heap <+: run.allocated ∧ pops <+: run.popped ∧
      run.popped.length ≤ pops.length + fuel ∧
      (heap.length = pops.length + o.length →
        run.allocated.length = run.popped.length + run.openAtEnd.length) ∧
      ((run.path ≠ [] ∧ run.popped.getLast? = some (tx, ty)) ∨
        (run.path = [] ∧ run.openAtEnd = [])) := by
  intro fuel
  induction fuel with
  | zero =>
      intro k o cl heap pops run h
      simp [searchRun] at h
  | succ fuel ih =>
      intro k o cl heap pops run h
      unfold searchRun at h
      cases hp : popMin (tie k) o with
      | none =>
          rw [hp] at h
          have ho : o = [] := (popMin_eq_none _ _).1 hp
          simp only [Option.some.injEq] at h
          subst h
          subst ho
          refine ⟨List.prefix_refl _, List.prefix_refl _, by simp, ?_, Or.inr ⟨rfl, rfl⟩⟩
          intro hlen
          simpa using hlen
      | some q =>
          obtain ⟨cur, rest⟩ := q
          rw [hp] at h
          dsimp only at h
          obtain ⟨hperm, -⟩ := popMin_some _ _ _ _ hp
          have holen : o.length = rest.length + 1 := by
            rw [hperm.length_eq, List.length_cons]
          by_cases ht : cur.x = tx ∧ cur.y = ty
          · rw [if_pos ht] at h
            simp only [Option.some.injEq] at h
            subst h
            refine ⟨List.prefix_refl _, List.prefix_append _ _, ?_, ?_, Or.inl ⟨?_, ?_⟩⟩
            · simp
            · intro hlen
              simp only [List.length_append, List.length_singleton]
              omega
            · simpa using Node.chain_ne_nil cur
            · simp [ht.1, ht.2]
          · rw [if_neg ht] at h
            obtain ⟨h1, h2, h3, h4, h5⟩ := ih _ _ _ _ _ _ h
            refine ⟨?_, ?_, ?_, ?_, h5⟩
            · refine List.IsPrefix.trans ?_ h1
              rw [expand_eq]
              exact List.prefix_append _ _
            · exact List.IsPrefix.trans (List.prefix_append _ _) h2
            · simp only [List.length_append, List.length_singleton] at h3
              omega
            · intro hlen
              apply h4
              rw [expand_eq, expand_eq]
              simp only [List.length_append, List.length_singleton]
              omega

/-- Past the early return, the recording loop ends within `searchFuel`
iterations and `bestPathRun` is what it returns; its `path` is the path
returned by `bestPath`. -/
theorem bestPathRun_eq_loop (gw gh : Int) (grid : Grid) (tie : Nat → Nat)
    (sx sy tx ty : Int) (hguard : ¬ (grid ty tx = 1 ∨ ty ≥ gh)) :
    searchRun gw gh grid tie tx ty (searchFuel gw gh) 0
      [Node.mk sx sy 0 (manhattanDistance sx sy tx ty) none] (fun _ _ => false)
      [Node.mk sx sy 0 (manhattanDistance sx sy tx ty) none] [] =
        some (bestPathRun gw gh grid tie sx sy tx ty) ∧
      (bestPathRun gw gh grid tie sx sy tx ty).path =
        bestPathCells gw gh grid tie sx sy tx ty := by
  have hloop := bestPathCells_eq_loop gw gh grid tie sx sy tx ty hguard
  have hpath := searchRun_path gw gh grid tie tx ty (searchFuel gw gh) 0
    [Node.mk sx sy 0 (manhattanDistance sx sy tx ty) none] (fun _ _ => false)
    [Node.mk sx sy 0 (manhattanDistance sx sy tx ty) none] []
  rw [hloop] at hpath
  unfold bestPathRun
  rw [if_neg hguard]
  cases hr : searchRun gw gh grid tie tx ty (searchFuel gw gh) 0
      [Node.mk sx sy 0 (manhattanDistance sx sy tx ty) none] (fun _ _ => false)
      [Node.mk sx sy 0 (manhattanDistance sx sy tx ty) none] [] with
  | none =>
      rw [hr] at hpath
      simp at hpath
  | some run =>
      rw [hr] at hpath
      simp only [Option.map_some', Option.some.injEq] at hpath
      exact ⟨rfl, hpath⟩

theorem bestPathRun_path (gw gh : Int) (grid : Grid) (tie : Nat → Nat) (sx sy tx ty : Int) :
    (bestPathRun gw gh grid tie sx sy tx ty).path =
      bestPathCells gw gh grid tie sx sy tx ty := by
  by_cases hguard : grid ty tx = 1 ∨ ty ≥ gh
  · unfold bestPathRun bestPathCells
    rw [if_pos hguard, if_pos hguard]
  · exact (bestPathRun_eq_loop gw gh grid tie sx sy tx ty hguard).2

theorem bestPathTrace_eq (gw gh : Int) (grid : Grid) (tie : Nat → Nat)
    (eMotion pMotion : Motion) (sx sy tx ty : Int) (h1 : worldToCell eMotion.position.x = sx)
    (h2 : worldToCell eMotion.position.y = sy) (h3 : worldToCell pMotion.position.x = tx)
    (h4 : worldToCell pMotion.position.y = ty) :
    bestPathTrace gw gh grid tie eMotion pMotion = bestPathRun gw gh grid tie sx sy tx ty := by
  unfold bestPathTrace
  rw [h1, h2, h3, h4]

/-- C16 as stated fails: `bestPath` has no `delete`.  On the grid of one row
and two columns without obstacles, the call from cell (0,0) to cell (1,0)
returns the path of two cells and leaves both nodes it allocated. -/
theorem bestPath_nodes_never_released :
    (bestPathTrace 2 1 (fun _ _ => 0) (fun _ => 0) (motionAt 30 30 10 10)
        (motionAt 60 30 10 10)).path = [(0, 0), (1, 0)] ∧
      (bestPathTrace 2 1 (fun _ _ => 0) (fun _ => 0) (motionAt 30 30 10 10)
        (motionAt 60 30 10 10)).allocated.length = 2 :=
  have h := bestPathTrace_eq 2 1 (fun _ _ => 0) (fun _ => 0) (motionAt 30 30 10 10)
    (motionAt 60 30 10 10) 0 0 1 0
    (worldToCell_eq 30 0 (by norm_num) (by norm_num))
    (worldToCell_eq 30 0 (by norm_num) (by norm_num))
    (worldToCell_eq 60 1 (by norm_num) (by norm_num))
    (worldToCell_eq 30 0 (by norm_num) (by norm_num))
  ⟨by rw [h]; decide, by rw [h]; decide⟩

/-- C16, amended: `bestPath` releases no node.  After the early return no
node has been allocated.  Otherwise, when the call returns, every node it
allocated is still allocated: the start node first, and as many nodes as were
popped plus those still in the open list.  The path returned is that of
`bestPath`. -/
theorem bestPath_allocated_at_return (gw gh : Int) (grid : Grid) (tie : Nat → Nat)
    (eMotion pMotion : Motion) :
    (bestPathTrace gw gh grid tie eMotion pMotion).path =
        bestPath gw gh grid tie eMotion pMotion ∧
    ((grid (worldToCell pMotion.position.y) (worldToCell pMotion.position.x) = 1 ∨
        worldToCell pMotion.position.y ≥ gh) →
      (bestPathTrace gw gh grid tie eMotion pMotion).allocated = []) ∧
    (¬ (grid (worldToCell pMotion.position.y) (worldToCell pMotion.position.x) = 1 ∨
        worldToCell pMotion.position.y ≥ gh) →
      (bestPathTrace gw gh grid tie eMotion pMotion).allocated.head? =
          some (Node.mk (worldToCell eMotion.position.x) (worldToCell eMotion.position.y) 0
            (manhattanDistance (worldToCell eMotion.position.x)
              (worldToCell eMotion.position.y) (worldToCell pMotion.position.x)
              (worldToCell pMotion.position.y)) none) ∧
        (bestPathTrace gw gh grid tie eMotion pMotion).allocated.length =
          (bestPathTrace gw gh grid tie eMotion pMotion).popped.length +
            (bestPathTrace gw gh grid tie eMotion pMotion).openAtEnd.length) := by
  refine ⟨bestPathRun_path _ _ _ _ _ _ _ _, ?_, ?_⟩
  · intro hguard
    unfold bestPathTrace bestPathRun
    rw [if_pos hguard]
  · intro hguard
    obtain ⟨hrun, -⟩ := bestPathRun_eq_loop gw gh grid tie (worldToCell eMotion.position.x)
      (worldToCell eMotion.position.y) _ _ hguard
    obtain ⟨h1, -, -, h4, -⟩ := searchRun_spec gw gh grid tie _ _ _ _ _ _ _ _ _ hrun
    unfold bestPathTrace
    constructor
    · obtain ⟨t, ht⟩ := h1
      rw [← ht]
      rfl
    · exact h4 rfl

/-- C16, amended, at a concrete input: the 10x10 grid with the cells of rows
and columns 4..6 occupied, from cell (0,0) to cell (9,9). -/
theorem bestPath_allocated_at_return_witness :
    ¬ ((fun r c => if 4 ≤ r ∧ r ≤ 6 ∧ 4 ≤ c ∧ c ≤ 6 then (1 : Int) else 0)
          (worldToCell (motionAt 300 300 10 10).position.y)
          (worldToCell (motionAt 300 300 10 10).position.x) = 1 ∨
        worldToCell (motionAt 300 300 10 10).position.y ≥ 10) ∧
      (bestPathTrace 10 10 (fun r c => if 4 ≤ r ∧ r ≤ 6 ∧ 4 ≤ c ∧ c ≤ 6 then 1 else 0)
          (fun _ => 0) (motionAt 30 30 10 10) (motionAt 300 300 10 10)).allocated.length =
        (bestPathTrace 10 10 (fun r c => if 4 ≤ r ∧ r ≤ 6 ∧ 4 ≤ c ∧ c ≤ 6 then 1 else 0)
          (fun _ => 0) (motionAt 30 30 10 10) (motionAt 300 300 10 10)).popped.length +
        (bestPathTrace 10 10 (fun r c => if 4 ≤ r ∧ r ≤ 6 ∧ 4 ≤ c ∧ c ≤ 6 then 1 else 0)
          (fun _ => 0) (motionAt 30 30 10 10) (motionAt 300 300 10 10)).openAtEnd.length :=
  have h9 : worldToCell (300 : ℚ) = 9 := worldToCell_eq 300 9 (by norm_num) (by norm_num)
  have hguard : ¬ ((fun r c => if 4 ≤ r ∧ r ≤ 6 ∧ 4 ≤ c ∧ c ≤ 6 then (1 : Int) else 0)
        (worldToCell (motionAt 300 300 10 10).position.y)
        (worldToCell (motionAt 300 300 10 10).position.x) = 1 ∨
      worldToCell (motionAt 300 300 10 10).position.y ≥ 10) := by
    show ¬ ((fun r c => if 4 ≤ r ∧ r ≤ 6 ∧ 4 ≤ c ∧ c ≤ 6 then (1 : Int) else 0)
        (worldToCell 300) (worldToCell 300) = 1 ∨ worldToCell 300 ≥ 10)
    rw [h9]
    decide
  ⟨hguard, ((bestPath_allocated_at_return 10 10 _ (fun _ => 0) (motionAt 30 30 10 10)
    (motionAt 300 300 10 10)).2.2 hguard).2⟩

/-- C18: the loop of `bestPath` ends, for every grid, every start cell in the
grid, every target cell and every choice among nodes of equal `f`: within
`searchFuel` pops either the target has been popped (and the path is built)
or the open list is empty (and the path stays empty).  Unless the early
return is taken, what the loop leaves in `path` is what `bestPath` returns. -/
theorem bestPath_loop_terminates (gw gh : Int) (grid : Grid) (tie : Nat → Nat)
    (eMotion pMotion : Motion)
    (_hs : inGrid gw gh (worldToCell eMotion.position.x) (worldToCell eMotion.position.y)) :
    ∃ run, searchRun gw gh grid tie (worldToCell pMotion.position.x)
        (worldToCell pMotion.position.y) (searchFuel gw gh) 0
        [Node.mk (worldToCell eMotion.position.x) (worldToCell eMotion.position.y) 0
          (manhattanDistance (worldToCell eMotion.position.x) (worldToCell eMotion.position.y)
            (worldToCell pMotion.position.x) (worldToCell pMotion.position.y)) none]
        (fun _ _ => false)
        [Node.mk (worldToCell eMotion.position.x) (worldToCell eMotion.position.y) 0
          (manhattanDistance (worldToCell eMotion.position.x) (worldToCell eMotion.position.y)
            (worldToCell pMotion.position.x) (worldToCell pMotion.position.y)) none] [] =
          some run ∧
      run.popped.length ≤ searchFuel gw gh ∧
      ((run.path ≠ [] ∧ run.popped.getLast? =
          some (worldToCell pMotion.position.x, worldToCell pMotion.position.y)) ∨
        (run.path = [] ∧ run.openAtEnd = [])) ∧
      ((grid (worldToCell pMotion.position.y) (worldToCell pMotion.position.x) = 1 ∨
          worldToCell pMotion.position.y ≥ gh) ∨
        bestPath gw gh grid tie eMotion pMotion = run.path) := by
  obtain ⟨res, hres⟩ := searchLoop_terminates gw gh grid tie (worldToCell eMotion.position.x)
    (worldToCell eMotion.position.y) (worldToCell pMotion.position.x)
    (worldToCell pMotion.position.y)
  have hpath := searchRun_path gw gh grid tie (worldToCell pMotion.position.x)
    (worldToCell pMotion.position.y) (searchFuel gw gh) 0
    [Node.mk (worldToCell eMotion.position.x) (worldToCell eMotion.position.y) 0
      (manhattanDistance (worldToCell eMotion.position.x) (worldToCell eMotion.position.y)
        (worldToCell pMotion.position.x) (worldToCell pMotion.position.y)) none]
    (fun _ _ => false)
    [Node.mk (worldToCell eMotion.position.x) (worldToCell eMotion.position.y) 0
      (manhattanDistance (worldToCell eMotion.position.x) (worldToCell eMotion.position.y)
        (worldToCell pMotion.position.x) (worldToCell pMotion.position.y)) none] []
  rw [hres] at hpath
  cases hr : searchRun gw gh grid tie (worldToCell pMotion.position.x)
      (worldToCell pMotion.position.y) (searchFuel gw gh) 0
      [Node.mk (worldToCell eMotion.position.x) (worldToCell eMotion.position.y) 0
        (manhattanDistance (worldToCell eMotion.position.x) (worldToCell eMotion.position.y)
          (worldToCell pMotion.position.x) (worldToCell pMotion.position.y)) none]
      (fun _ _ => false)
      [Node.mk (worldToCell eMotion.position.x) (worldToCell eMotion.position.y) 0
        (manhattanDistance (worldToCell eMotion.position.x) (worldToCell eMotion.position.y)
          (worldToCell pMotion.position.x) (worldToCell pMotion.position.y)) none] [] with
  | none =>
      rw [hr] at hpath
      simp at hpath
  | some run =>
      rw [hr] at hpath
      simp only [Option.map_some', Option.some.injEq] at hpath
      obtain ⟨-, -, h3, -, h5⟩ := searchRun_spec gw gh grid tie _ _ _ _ _ _ _ _ _ hr
      refine ⟨run, rfl, by simpa using h3, h5, ?_⟩
      by_cases hguard : grid (worldToCell pMotion.position.y) (worldToCell pMotion.position.x) = 1 ∨
          worldToCell pMotion.position.y ≥ gh
      · exact Or.inl hguard
      · right
        have := bestPathCells_eq_loop gw gh grid tie (worldToCell eMotion.position.x)
          (worldToCell eMotion.position.y) _ _ hguard
        rw [hres] at this
        simp only [Option.some.injEq] at this
        unfold bestPath
        rw [← this, hpath]

/-- C18 at a concrete input: the 10x10 grid with the cells of rows and columns
4..6 occupied, from cell (0,0) to cell (9,9). -/
theorem bestPath_loop_terminates_witness :
    inGrid 10 10 (worldToCell (motionAt 30 30 10 10).position.x)
        (worldToCell (motionAt 30 30 10 10).position.y) ∧
      ∃ run, searchRun 10 10 (fun r c => if 4 ≤ r ∧ r ≤ 6 ∧ 4 ≤ c ∧ c ≤ 6 then 1 else 0)
          (fun k => 5 * k + 2) (worldToCell (motionAt 300 300 10 10).position.x)
          (worldToCell (motionAt 300 300 10 10).position.y) (searchFuel 10 10) 0
          [Node.mk (worldToCell (motionAt 30 30 10 10).position.x)
            (worldToCell (motionAt 30 30 10 10).position.y) 0
            (manhattanDistance (worldToCell (motionAt 30 30 10 10).position.x)
              (worldToCell (motionAt 30 30 10 10).position.y)
              (worldToCell (motionAt 300 300 10 10).position.x)
              (worldToCell (motionAt 300 300 10 10).position.y)) none]
          (fun _ _ => false)
          [Node.mk (worldToCell (motionAt 30 30 10 10).position.x)
            (worldToCell (motionAt 30 30 10 10).position.y) 0
            (manhattanDistance (worldToCell (motionAt 30 30 10 10).position.x)
              (worldToCell (motionAt 30 30 10 10).position.y)
              (worldToCell (motionAt 300 300 10 10).position.x)
              (worldToCell (motionAt 300 300 10 10).position.y)) none] [] = some run ∧
        run.popped.length ≤ searchFuel 10 10 :=
  have h0 : worldToCell (30 : ℚ) = 0 := worldToCell_eq 30 0 (by norm_num) (by norm_num)
  have hs : inGrid 10 10 (worldToCell (motionAt 30 30 10 10).position.x)
      (worldToCell (motionAt 30 30 10 10).position.y) := by
    show inGrid 10 10 (worldToCell 30) (worldToCell 30)
    rw [h0]
    decide
  ⟨hs, (bestPath_loop_terminates 10 10 _ (fun k => 5 * k + 2) (motionAt 30 30 10 10)
    (motionAt 300 300 10 10) hs).imp fun _ h => ⟨h.1, h.2.1⟩⟩

/-- C19 fails in the code: the loop tests `closedList` when it pushes a
neighbour but not when it pops a node, so a cell queued twice before it is
closed is popped and expanded twice.  On the 4x2 grid whose column 2 is
occupied, the search from cell (0,0) to cell (3,0) pops cell (0,1) twice when
(1,1) is taken first among the nodes of equal `f`, and cell (1,1) twice when
(0,1) is taken first.  On the 4x4 grid `pocketGrid` (16 cells) the search
from cell (0,0) to cell (3,0) makes 22 pops. -/
theorem bestPath_pops_cell_twice :
    (bestPathTrace 4 2 wallGrid (fun _ => 0) (motionAt 30 30 10 10)
        (motionAt 120 30 10 10)).popped = [(0, 0), (1, 0), (1, 1), (0, 1), (0, 1)] ∧
      (bestPathTrace 4 2 wallGrid (fun k => k + 1) (motionAt 30 30 10 10)
        (motionAt 120 30 10 10)).popped = [(0, 0), (1, 0), (0, 1), (1, 1), (1, 1)] ∧
      (bestPathTrace 4 4 pocketGrid (fun _ => 0) (motionAt 30 30 10 10)
        (motionAt 120 30 10 10)).popped.length = 22 :=
  have h0 : worldToCell (30 : ℚ) = 0 := worldToCell_eq 30 0 (by norm_num) (by norm_num)
  have h3 : worldToCell (120 : ℚ) = 3 := worldToCell_eq 120 3 (by norm_num) (by norm_num)
  ⟨by rw [bestPathTrace_eq 4 2 _ _ (motionAt 30 30 10 10) (motionAt 120 30 10 10) 0 0 3 0
        h0 h0 h3 h0]; decide,
    by rw [bestPathTrace_eq 4 2 _ _ (motionAt 30 30 10 10) (motionAt 120 30 10 10) 0 0 3 0
        h0 h0 h3 h0]; decide,
    by rw [bestPathTrace_eq 4 4 _ _ (motionAt 30 30 10 10) (motionAt 120 30 10 10) 0 0 3 0
        h0 h0 h3 h0]; decide⟩

/-- C11 as stated fails: `AISystem::rectangleCollides` compares with `<`.
Two squares of size 10 centred at (0,0) and (10,0) share the edge x = 5 and
the whole y-range, and the function returns false. -/
theorem rectangleCollides_touching_counterexample :
    (aabbAbs (motionAt 0 0 10 10)).xhi = (aabbAbs (motionAt 10 0 10 10)).xlo ∧
      (aabbAbs (motionAt 0 0 10 10)).overlaps (aabbAbs (motionAt 10 0 10 10)) ∧
      AISystem.rectangleCollides (motionAt 0 0 10 10) (motionAt 10 0 10 10) = false := by
  refine ⟨?_, ?_, ?_⟩
  · norm_num [aabbAbs, motionAt, abs_of_nonneg]
  · norm_num [Rect.overlaps, aabbAbs, motionAt, abs_of_nonneg]
  · norm_num [AISystem.rectangleCollides, motionAt, abs_of_nonneg]

/-- C11, amended: `AISystem::rectangleCollides` returns true exactly when the
two AABBs (centre `position`, size `|scale|`) overlap by more than a
boundary, each low edge strictly below the other's high edge on both axes;
for two Motions whose AABBs share only a boundary it returns false. -/
theorem rectangleCollides_iff_strict (motion1 motion2 : Motion) :
    (AISystem.rectangleCollides motion1 motion2 = true ↔
      (aabbAbs motion1).overlapsStrictly (aabbAbs motion2)) ∧
    ((aabbAbs motion1).overlaps (aabbAbs motion2) →
      ((aabbAbs motion1).xhi = (aabbAbs motion2).xlo ∨
        (aabbAbs motion2).xhi = (aabbAbs motion1).xlo ∨
        (aabbAbs motion1).yhi = (aabbAbs motion2).ylo ∨
        (aabbAbs motion2).yhi = (aabbAbs motion1).ylo) →
      AISystem.rectangleCollides motion1 motion2 = false) := by
  have hiff : AISystem.rectangleCollides motion1 motion2 = true ↔
      (aabbAbs motion1).overlapsStrictly (aabbAbs motion2) := by
    unfold AISystem.rectangleCollides Rect.overlapsStrictly aabbAbs
    have h1 : |motion1.scale.x / 2| = |motion1.scale.x| / 2 := by
      rw [abs_div, abs_of_pos (by norm_num : (0 : ℚ) < 2)]
    have h2 : |motion2.scale.x / 2| = |motion2.scale.x| / 2 := by
      rw [abs_div, abs_of_pos (by norm_num : (0 : ℚ) < 2)]
    simp only [h1, h2, Bool.and_eq_true, decide_eq_true_eq, not_or, not_le]
    constructor
    · rintro ⟨⟨a, b⟩, ⟨c, d⟩⟩
      exact ⟨d, c, b, a⟩
    · rintro ⟨d, c, b, a⟩
      exact ⟨⟨a, b⟩, ⟨c, d⟩⟩
  refine ⟨hiff, ?_⟩
  intro _ htouch
  cases hv : AISystem.rectangleCollides motion1 motion2 with
  | false => rfl
  | true =>
      exfalso
      have hs := hiff.1 hv
      unfold Rect.overlapsStrictly at hs
      simp only [not_or, not_le] at hs
      obtain ⟨a, b, c, d⟩ := hs
      rcases htouch with h | h | h | h
      · rw [h] at a
        exact lt_irrefl _ a
      · rw [h] at b
        exact lt_irrefl _ b
      · rw [h] at c
        exact lt_irrefl _ c
      · rw [h] at d
        exact lt_irrefl _ d

/-- C11, amended, at a concrete input: the two touching squares. -/
theorem rectangleCollides_iff_strict_witness :
    (aabbAbs (motionAt 0 0 10 10)).overlaps (aabbAbs (motionAt 10 0 10 10)) ∧
      ((aabbAbs (motionAt 0 0 10 10)).xhi = (aabbAbs (motionAt 10 0 10 10)).xlo ∨
        (aabbAbs (motionAt 10 0 10 10)).xhi = (aabbAbs (motionAt 0 0 10 10)).xlo ∨
        (aabbAbs (motionAt 0 0 10 10)).yhi = (aabbAbs (motionAt 10 0 10 10)).ylo ∨
        (aabbAbs (motionAt 10 0 10 10)).yhi = (aabbAbs (motionAt 0 0 10 10)).ylo) ∧
      AISystem.rectangleCollides (motionAt 0 0 10 10) (motionAt 10 0 10 10) = false :=
  have h1 : (aabbAbs (motionAt 0 0 10 10)).overlaps (aabbAbs (motionAt 10 0 10 10)) := by
    norm_num [Rect.overlaps, aabbAbs, motionAt, abs_of_nonneg]
  have h2 : (aabbAbs (motionAt 0 0 10 10)).xhi = (aabbAbs (motionAt 10 0 10 10)).xlo ∨
      (aabbAbs (motionAt 10 0 10 10)).xhi = (aabbAbs (motionAt 0 0 10 10)).xlo ∨
      (aabbAbs (motionAt 0 0 10 10)).yhi = (aabbAbs (motionAt 10 0 10 10)).ylo ∨
      (aabbAbs (motionAt 10 0 10 10)).yhi = (aabbAbs (motionAt 0 0 10 10)).ylo := by
    left
    norm_num [aabbAbs, motionAt, abs_of_nonneg]
  ⟨h1, h2, (rectangleCollides_iff_strict (motionAt 0 0 10 10) (motionAt 10 0 10 10)).2 h1 h2⟩

/-- C13: with a terminal velocity that is not negative, for every non-zero
`velocity.x` and non-zero `acceleration.x` of opposite sign, `applyFriction`
leaves `velocity.x` either 0 or with the sign it had, never larger in
absolute value, and sets it to exactly 0 when `|velocity.x| < |acceleration.x|`. -/
theorem applyFriction_no_overshoot (c : Consts) (m : Motion) (htv : 0 ≤ c.terminal_velocity)
    (hv : m.velocity.x ≠ 0) (ha : m.acceleration.x ≠ 0)
    (hopp : m.velocity.x * m.acceleration.x < 0) :
    ((applyFriction c m).velocity.x = 0 ∨
        (0 < m.velocity.x ∧ 0 < (applyFriction c m).velocity.x) ∨
        (m.velocity.x < 0 ∧ (applyFriction c m).velocity.x < 0)) ∧
      (|m.velocity.x| < |m.acceleration.x| → (applyFriction c m).velocity.x = 0) ∧
      |(applyFriction c m).velocity.x| ≤ |m.velocity.x| := by
  unfold applyFriction
  rw [if_pos ⟨hv, ha⟩]
  by_cases hlt : |m.velocity.x| < |m.acceleration.x|
  · rw [if_pos hlt]
    exact ⟨Or.inl rfl, fun _ => rfl, by simp⟩
  · rw [if_neg hlt]
    dsimp only
    refine ⟨?_, fun h => absurd h hlt, ?_⟩
    · rcases lt_or_gt_of_ne hv with hneg | hpos
      · have hapos : 0 < m.acceleration.x := by
          by_contra hn
          have : 0 ≤ m.velocity.x * m.acceleration.x :=
            mul_nonneg_of_nonpos_of_nonpos hneg.le (not_lt.1 hn)
          linarith
        rw [abs_of_neg hneg, abs_of_pos hapos] at hlt
        unfold clamp
        rcases le_or_lt (min (max (m.velocity.x + m.acceleration.x) (-c.terminal_velocity))
            c.terminal_velocity) 0 with h | h
        · rcases h.lt_or_eq with h | h
          · exact Or.inr (Or.inr ⟨hneg, h⟩)
          · exact Or.inl h
        · exfalso
          have h1 : max (m.velocity.x + m.acceleration.x) (-c.terminal_velocity) ≤ 0 :=
            max_le (by linarith) (by linarith)
          have h2 := min_le_left (max (m.velocity.x + m.acceleration.x) (-c.terminal_velocity))
            c.terminal_velocity
          linarith
      · have haneg : m.acceleration.x < 0 := by
          by_contra hn
          have : 0 ≤ m.velocity.x * m.acceleration.x := mul_nonneg hpos.le (not_lt.1 hn)
          linarith
        rw [abs_of_pos hpos, abs_of_neg haneg] at hlt
        unfold clamp
        have h1 : 0 ≤ max (m.velocity.x + m.acceleration.x) (-c.terminal_velocity) :=
          le_max_of_le_left (by linarith)
        have h2 : 0 ≤ min (max (m.velocity.x + m.acceleration.x) (-c.terminal_velocity))
            c.terminal_velocity := le_min h1 htv
        rcases h2.lt_or_eq with h | h
        · exact Or.inr (Or.inl ⟨hpos, h⟩)
        · exact Or.inl h.symm
    · unfold clamp
      rcases lt_or_gt_of_ne hv with hneg | hpos
      · have hapos : 0 < m.acceleration.x := by
          by_contra hn
          have : 0 ≤ m.velocity.x * m.acceleration.x :=
            mul_nonneg_of_nonpos_of_nonpos hneg.le (not_lt.1 hn)
          linarith
        rw [abs_of_neg hneg, abs_of_pos hapos] at hlt
        have h1 : max (m.velocity.x + m.acceleration.x) (-c.terminal_velocity) ≤ 0 :=
          max_le (by linarith) (by linarith)
        have h2 := min_le_left (max (m.velocity.x + m.acceleration.x) (-c.terminal_velocity))
          c.terminal_velocity
        have h3 : m.velocity.x ≤ min (max (m.velocity.x + m.acceleration.x)
            (-c.terminal_velocity)) c.terminal_velocity :=
          le_min (le_max_of_le_left (by linarith)) (by linarith)
        rw [abs_of_nonpos (by linarith), abs_of_neg hneg]
        linarith
      · have haneg : m.acceleration.x < 0 := by
          by_contra hn
          have : 0 ≤ m.velocity.x * m.acceleration.x := mul_nonneg hpos.le (not_lt.1 hn)
          linarith
        rw [abs_of_pos hpos, abs_of_neg haneg] at hlt
        have h1 : 0 ≤ max (m.velocity.x + m.acceleration.x) (-c.terminal_velocity) :=
          le_max_of_le_left (by linarith)
        have h2 : 0 ≤ min (max (m.velocity.x + m.acceleration.x) (-c.terminal_velocity))
            c.terminal_velocity := le_min h1 htv
        have h3 : max (m.velocity.x + m.acceleration.x) (-c.terminal_velocity) ≤
            m.velocity.x := max_le (by linarith) (by linarith)
        have h4 := min_le_left (max (m.velocity.x + m.acceleration.x) (-c.terminal_velocity))
          c.terminal_velocity
        rw [abs_of_nonneg h2, abs_of_pos hpos]
        linarith

/-- C13, the scenario of the spec: from velocity 12 with acceleration -5 and
terminal velocity 600, repeated application gives the velocities 12, 7, 2, 0
and then stays at 0. -/
theorem applyFriction_no_overshoot_witness :
    (0 ≤ exampleConsts.terminal_velocity ∧ brakingMotion.velocity.x ≠ 0 ∧
      brakingMotion.acceleration.x ≠ 0 ∧
      brakingMotion.velocity.x * brakingMotion.acceleration.x < 0) ∧
    |(applyFriction exampleConsts brakingMotion).velocity.x| ≤ |brakingMotion.velocity.x| ∧
    (List.range 6).map (fun n => (frictionSteps exampleConsts n brakingMotion).velocity.x) =
      [12, 7, 2, 0, 0, 0] :=
  have h1 : 0 ≤ exampleConsts.terminal_velocity := by norm_num [exampleConsts]
  have h2 : brakingMotion.velocity.x ≠ 0 := by norm_num [brakingMotion]
  have h3 : brakingMotion.acceleration.x ≠ 0 := by norm_num [brakingMotion]
  have h4 : brakingMotion.velocity.x * brakingMotion.acceleration.x < 0 := by
    norm_num [brakingMotion]
  ⟨⟨h1, h2, h3, h4⟩, (applyFriction_no_overshoot exampleConsts brakingMotion h1 h2 h3 h4).2.2,
    by
      norm_num [List.range, List.range.loop, frictionSteps, applyFriction, brakingMotion,
        exampleConsts, motionAt, clamp, abs_of_nonneg, abs_of_pos, abs_of_neg]⟩

theorem segmentPoint_in_boundingRect (a b : Vec2) (t : ℚ) (h0 : 0 ≤ t) (h1 : t ≤ 1) :
    (boundingRect a b).contains (segmentPoint a b t) := by
  have key : ∀ p q : ℚ, min p q ≤ p + t * (q - p) ∧ p + t * (q - p) ≤ max p q := by
    intro p q
    rcases le_total p q with h | h
    · rw [min_eq_left h, max_eq_right h]
      constructor
      · nlinarith
      · nlinarith
    · rw [min_eq_right h, max_eq_left h]
      constructor
      · nlinarith
      · nlinarith
  unfold Rect.contains boundingRect segmentPoint
  exact ⟨(key a.x b.x).1, (key a.x b.x).2, (key a.y b.y).1, (key a.y b.y).2⟩

/-- C17: when every platform has a size that is not negative and
`hasLineOfSight(a, b)` returns true, no point of the straight segment from
`a` to `b` lies inside or on the boundary of the AABB of a platform. -/
theorem hasLineOfSight_conservative (reg : Registry) (a b : Vec2)
    (hsize : ∀ em ∈ reg.motions, em.1 ∈ reg.platforms → 0 ≤ em.2.scale.x ∧ 0 ≤ em.2.scale.y)
    (hlos : hasLineOfSight reg a b = true) :
    ∀ em ∈ reg.motions, em.1 ∈ reg.platforms → ∀ t : ℚ, 0 ≤ t → t ≤ 1 →
      ¬ (aabbAbs em.2).contains (segmentPoint a b t) := by
  intro em hem hp t h0 h1 hin
  have hfalse : hasLineOfSight reg a b = false := by
    unfold hasLineOfSight
    rw [losLoop_eq_false_iff]
    refine ⟨em, hem, hp, ?_⟩
    obtain ⟨hsx, hsy⟩ := hsize em hem hp
    have hb := segmentPoint_in_boundingRect a b t h0 h1
    unfold Rect.contains aabbAbs at hin
    rw [abs_of_nonneg hsx, abs_of_nonneg hsy] at hin
    unfold Rect.contains boundingRect at hb
    unfold Rect.overlaps aabb
    simp only [not_or, not_lt]
    obtain ⟨i1, i2, i3, i4⟩ := hin
    obtain ⟨b1, b2, b3, b4⟩ := hb
    exact ⟨b1.trans i2, i1.trans b2, b3.trans i4, i3.trans b4⟩
  rw [hlos] at hfalse
  exact Bool.noConfusion hfalse

/-- C17 at a concrete input: a platform of centre (50,100) and size 100x10
off to the side of the segment from (200,0) to (300,50). -/
theorem hasLineOfSight_conservative_witness :
    (∀ em ∈ onePlatformRegistry.motions, em.1 ∈ onePlatformRegistry.platforms →
        0 ≤ em.2.scale.x ∧ 0 ≤ em.2.scale.y) ∧
      hasLineOfSight onePlatformRegistry ⟨200, 0⟩ ⟨300, 50⟩ = true ∧
      ¬ (aabbAbs { motionAt 50 100 100 10 with fixed := true }).contains
        (segmentPoint ⟨200, 0⟩ ⟨300, 50⟩ (1 / 2)) :=
  have hsize : ∀ em ∈ onePlatformRegistry.motions, em.1 ∈ onePlatformRegistry.platforms →
      0 ≤ em.2.scale.x ∧ 0 ≤ em.2.scale.y := by
    intro em hem _
    simp only [onePlatformRegistry, List.mem_singleton] at hem
    subst hem
    norm_num [motionAt]
  have hlos : hasLineOfSight onePlatformRegistry ⟨200, 0⟩ ⟨300, 50⟩ = true := by
    norm_num [hasLineOfSight, losLoop, onePlatformRegistry, motionAt]
  ⟨hsize, hlos, hasLineOfSight_conservative onePlatformRegistry ⟨200, 0⟩ ⟨300, 50⟩ hsize hlos
    (1, { motionAt 50 100 100 10 with fixed := true }) (List.mem_singleton_self _)
    (List.mem_singleton_self _) (1 / 2) (by norm_num) (by norm_num)⟩

theorem setInStore_same (e : Entity) (m : Motion) (ms : List (Entity × Motion))
    (h : (ms.find? fun em => em.1 == e).map Prod.snd = some m) : setInStore e m ms = ms := by
  induction ms with
  | nil => rfl
  | cons a rest ih =>
      obtain ⟨e1, m1⟩ := a
      rw [setInStore]
      by_cases he : (e1 == e) = true
      · rw [if_pos he]
        simp only [List.find?_cons, he, Option.map_some', Option.some.injEq] at h
        rw [h]
      · rw [if_neg he]
        simp only [List.find?_cons, he] at h
        rw [ih h]

theorem Registry.setMotion_same (reg : Registry) (e : Entity) (m : Motion)
    (h : reg.getMotion e = some m) : reg.setMotion e m = reg := by
  unfold Registry.setMotion
  rw [setInStore_same e m reg.motions h]

theorem followPath_nil (elapsed_ms : ℚ) (w : WorldSystem) (eMotion : Motion)
    (h : w.bestPath = []) : followPath elapsed_ms w eMotion = (w, eMotion) := by
  unfold followPath
  rw [if_neg]
  rw [h]
  simp

theorem followPath_bestPath (elapsed_ms : ℚ) (w : WorldSystem) (eMotion : Motion) :
    (followPath elapsed_ms w eMotion).1.bestPath = w.bestPath ∧
      (followPath elapsed_ms w eMotion).1.FrameCount = w.FrameCount := by
  unfold followPath
  split_ifs with h1
  · split
    · exact ⟨rfl, rfl⟩
    · dsimp only
      split_ifs
      · exact ⟨rfl, rfl⟩
      · exact ⟨rfl, rfl⟩
  · exact ⟨rfl, rfl⟩

/-- C20, the claim fails: for the hazard at (0,0) and the next path cell
(1,0), whose centre is (45,15), the point the block interpolates toward is
(60,30); for the hazard at (100,100) it is (30,0).  With the path
(0,0), (1,0) and 100 ms elapsed the hazard at (0,0) moves to (6,3), a tenth
of the way to (60,30). -/
theorem followTarget_not_centre :
    followTarget 0 0 (1, 0) = (60, 30) ∧ followTarget 100 100 (1, 0) = (30, 0) ∧
      (followPath 100 { examplePursuit with bestPath := [(0, 0), (1, 0)], currentNode := 0 }
        (motionAt 0 0 10 10)).2.position = ⟨6, 3⟩ := by
  have h1 : followTarget 0 0 (1, 0) = (60, 30) := by norm_num [followTarget, gridSize]
  refine ⟨h1, by norm_num [followTarget, gridSize], ?_⟩
  unfold followPath
  rw [if_pos (by decide)]
  simp only [examplePursuit]
  have : ([((0 : Int), (0 : Int)), (1, 0)] : List Cell)[((0 : Int) + 1).toNat]? = some (1, 0) := by
    decide
  rw [this]
  simp only [motionAt, h1]
  norm_num [advancedAIlerp]

/-- C20, amended: for every hazard position `(x0, y0)` and next path cell
`(c, r)`, the point interpolated toward has the abscissa `(c + 1) * 30`, or
`c * 30` when `x0 > (c + 1) * 30`, and the ordinate `(r + 1) * 30`, or
`r * 30` when `y0 > (r + 1) * 30`: a corner of the cell, never its centre.
When the block runs (a path is stored and `currentNode` is not at its last
index) and the point is at distance 1 or more, the new position is
`advancedAIlerp` toward that point by `elapsed_ms / 1000`. -/
theorem followPath_target (elapsed_ms : ℚ) (w : WorldSystem) (eMotion : Motion) (next : Cell)
    (h0 : 0 ≤ w.currentNode) (hlt : w.currentNode < (w.bestPath.length : Int) - 1)
    (hnext : w.bestPath[(w.currentNode + 1).toNat]? = some next) :
    (followTarget eMotion.position.x eMotion.position.y next).1 =
        (if eMotion.position.x > ((next.1 : ℚ) + 1) * 30 then (next.1 : ℚ) * 30
          else ((next.1 : ℚ) + 1) * 30) ∧
      (followTarget eMotion.position.x eMotion.position.y next).2 =
        (if eMotion.position.y > ((next.2 : ℚ) + 1) * 30 then (next.2 : ℚ) * 30
          else ((next.2 : ℚ) + 1) * 30) ∧
      (followTarget eMotion.position.x eMotion.position.y next).1 ≠ ((next.1 : ℚ) + 1 / 2) * 30 ∧
      (followTarget eMotion.position.x eMotion.position.y next).2 ≠ ((next.2 : ℚ) + 1 / 2) * 30 ∧
      (¬ (((followTarget eMotion.position.x eMotion.position.y next).1 - eMotion.position.x) ^ 2 +
          ((followTarget eMotion.position.x eMotion.position.y next).2 - eMotion.position.y) ^ 2
            < 1) →
        (followPath elapsed_ms w eMotion).1 = w ∧
        (followPath elapsed_ms w eMotion).2.position =
          ⟨eMotion.position.x + elapsed_ms / 1000 *
              ((followTarget eMotion.position.x eMotion.position.y next).1 - eMotion.position.x),
            eMotion.position.y + elapsed_ms / 1000 *
              ((followTarget eMotion.position.x eMotion.position.y next).2 -
                eMotion.position.y)⟩) := by
  have hx : (followTarget eMotion.position.x eMotion.position.y next).1 =
      (if eMotion.position.x > ((next.1 : ℚ) + 1) * 30 then (next.1 : ℚ) * 30
        else ((next.1 : ℚ) + 1) * 30) := by
    simp only [followTarget, gridSize]
    push_cast
    rfl
  have hy : (followTarget eMotion.position.x eMotion.position.y next).2 =
      (if eMotion.position.y > ((next.2 : ℚ) + 1) * 30 then (next.2 : ℚ) * 30
        else ((next.2 : ℚ) + 1) * 30) := by
    simp only [followTarget, gridSize]
    push_cast
    rfl
  refine ⟨hx, hy, ?_, ?_, ?_⟩
  · rw [hx]
    split_ifs
    · intro h
      linarith
    · intro h
      linarith
  · rw [hy]
    split_ifs
    · intro h
      linarith
    · intro h
      linarith
  · intro hfar
    have hlen : w.bestPath.length ≠ 0 := by
      intro h
      rw [h] at hlt
      omega
    unfold followPath
    rw [if_pos ⟨hlen, h0, hlt⟩, hnext]
    dsimp only
    rw [if_neg hfar]
    exact ⟨rfl, rfl⟩

/-- C20, amended, at a concrete input: the hazard at (0,0) on the path
(0,0), (1,0). -/
theorem followPath_target_witness :
    (followTarget 0 0 (1, 0)).1 = (60 : ℚ) ∧
      (followPath 100 { examplePursuit with bestPath := [(0, 0), (1, 0)], currentNode := 0 }
        (motionAt 0 0 10 10)).2.position =
        ⟨0 + 100 / 1000 * ((followTarget 0 0 (1, 0)).1 - 0),
          0 + 100 / 1000 * ((followTarget 0 0 (1, 0)).2 - 0)⟩ :=
  have h := followPath_target 100
    { examplePursuit with bestPath := [(0, 0), (1, 0)], currentNode := 0 }
    (motionAt 0 0 10 10) (1, 0) (by decide) (by decide) (by decide)
  ⟨h.1.trans (by norm_num [motionAt]),
    (h.2.2.2.2 (by norm_num [followTarget, gridSize, motionAt])).2⟩

/-! ### Which entries of the motion container a step writes -/

theorem setAtStore_get_ne (m : Motion) :
    ∀ (ms : List (Entity × Motion)) (i j : Nat), i ≠ j → (setAtStore j m ms)[i]? = ms[i]? := by
  intro ms
  induction ms with
  | nil =>
      intro i j _
      cases j <;> rfl
  | cons a rest ih =>
      intro i j hij
      obtain ⟨e1, m1⟩ := a
      cases j with
      | zero =>
          cases i with
          | zero => exact absurd rfl hij
          | succ i => rfl
      | succ j =>
          cases i with
          | zero => simp only [setAtStore, List.getElem?_cons_zero]
          | succ i =>
              simp only [setAtStore, List.getElem?_cons_succ]
              exact ih i j (fun h => hij (by rw [h]))

theorem setAtStore_get_self (m : Motion) :
    ∀ (ms : List (Entity × Motion)) (i : Nat) (e : Entity) (m0 : Motion),
      ms[i]? = some (e, m0) → (setAtStore i m ms)[i]? = some (e, m) := by
  intro ms
  induction ms with
  | nil =>
      intro i e m0 h
      simp at h
  | cons a rest ih =>
      intro i e m0 h
      obtain ⟨e1, m1⟩ := a
      cases i with
      | zero =>
          simp only [List.getElem?_cons_zero, Option.some.injEq, Prod.mk.injEq] at h
          simp only [setAtStore, List.getElem?_cons_zero, h.1]
      | succ i =>
          simp only [List.getElem?_cons_succ] at h
          simp only [setAtStore, List.getElem?_cons_succ]
          exact ih i e m0 h

theorem setInStore_get_ne (e : Entity) (m : Motion) :
    ∀ (ms : List (Entity × Motion)) (i : Nat) (e1 : Entity) (m1 : Motion),
      ms[i]? = some (e1, m1) → e1 ≠ e → (setInStore e m ms)[i]? = some (e1, m1) := by
  intro ms
  induction ms with
  | nil =>
      intro i e1 m1 h
      simp at h
  | cons a rest ih =>
      intro i e1 m1 h hne
      obtain ⟨e2, m2⟩ := a
      rw [setInStore]
      by_cases he : (e2 == e) = true
      · rw [if_pos he]
        cases i with
        | zero =>
            simp only [List.getElem?_cons_zero, Option.some.injEq, Prod.mk.injEq] at h
            exact absurd (h.1 ▸ beq_iff_eq.1 he) hne
        | succ i =>
            simp only [List.getElem?_cons_succ] at h ⊢
            exact h
      · rw [if_neg he]
        cases i with
        | zero =>
            simp only [List.getElem?_cons_zero] at h ⊢
            exact h
        | succ i =>
            simp only [List.getElem?_cons_succ] at h ⊢
            exact ih i e1 m1 h hne

theorem setInStore_get_grounded (e : Entity) (t : Bool) :
    ∀ (ms : List (Entity × Motion)) (p : Motion) (i : Nat) (e1 : Entity) (m1 : Motion),
      (ms.find? fun em => em.1 == e).map Prod.snd = some p → ms[i]? = some (e1, m1) →
      ∃ m2, (setInStore e { p with grounded := t } ms)[i]? = some (e1, m2) ∧
        m2.position = m1.position ∧ m2.velocity = m1.velocity := by
  intro ms
  induction ms with
  | nil =>
      intro p i e1 m1 _ h
      simp at h
  | cons a rest ih =>
      intro p i e1 m1 hp h
      obtain ⟨e2, m2⟩ := a
      rw [setInStore]
      by_cases he : (e2 == e) = true
      · rw [if_pos he]
        simp only [List.find?_cons, he, Option.map_some', Option.some.injEq] at hp
        cases i with
        | zero =>
            simp only [List.getElem?_cons_zero, Option.some.injEq, Prod.mk.injEq] at h
            refine ⟨{ p with grounded := t }, ?_, ?_, ?_⟩
            · simp only [List.getElem?_cons_zero, h.1]
            · rw [← hp, h.2]
            · rw [← hp, h.2]
        | succ i =>
            simp only [List.getElem?_cons_succ] at h ⊢
            exact ⟨m1, h, rfl, rfl⟩
      · rw [if_neg he]
        simp only [List.find?_cons, he] at hp
        cases i with
        | zero =>
            simp only [List.getElem?_cons_zero] at h ⊢
            exact ⟨m1, h, rfl, rfl⟩
        | succ i =>
            simp only [List.getElem?_cons_succ] at h ⊢
            exact ih p i e1 m1 hp h

theorem updatePaintCan_keeps (cs : CollisionSystem) (reg reg1 : Registry) (pc : Entity)
    (i : Nat) (e : Entity) (m : Motion) (hu : updatePaintCan cs reg pc = some reg1)
    (hi : reg.motions[i]? = some (e, m)) (hne : e ≠ pc) : reg1.motions[i]? = some (e, m) := by
  unfold updatePaintCan at hu
  cases hm : reg.getMotion pc with
  | none =>
      rw [hm] at hu
      simp at hu
  | some pm =>
      rw [hm] at hu
      dsimp only at hu
      cases hf : firstPlatformHit cs reg pm reg.platforms with
      | none =>
          rw [hf] at hu
          simp at hu
      | some hit =>
          rw [hf] at hu
          cases hit with
          | none =>
              simp only [Option.some.injEq] at hu
              subst hu
              exact setInStore_get_ne pc _ reg.motions i e m hi hne
          | some plat =>
              simp only [Option.some.injEq] at hu
              subst hu
              exact setInStore_get_ne pc _ reg.motions i e m hi hne

theorem forEachM_updatePaintCan_keeps (cs : CollisionSystem) (i : Nat) (e : Entity)
    (m : Motion) :
    ∀ (l : List Entity) (reg reg1 : Registry), e ∉ l →
      forEachM (updatePaintCan cs) l reg = some reg1 → reg.motions[i]? = some (e, m) →
      reg1.motions[i]? = some (e, m) := by
  intro l
  induction l with
  | nil =>
      intro reg reg1 _ h hi
      simp only [forEachM, Option.some.injEq] at h
      subst h
      exact hi
  | cons pc rest ih =>
      intro reg reg1 hnot h hi
      unfold forEachM at h
      cases hb : updatePaintCan cs reg pc with
      | none =>
          rw [hb] at h
          simp at h
      | some reg2 =>
          rw [hb] at h
          exact ih reg2 reg1 (fun hmem => hnot (List.mem_cons_of_mem _ hmem)) h
            (updatePaintCan_keeps cs reg reg2 pc i e m hb hi
              (fun heq => hnot (heq ▸ List.mem_cons_self _ _)))

theorem updatePaintCanGroundedState_keeps (cs : CollisionSystem) (reg reg1 : Registry)
    (i : Nat) (e : Entity) (m : Motion) (hnot : e ∉ reg.paintCans)
    (hu : updatePaintCanGroundedState cs reg = some reg1)
    (hi : reg.motions[i]? = some (e, m)) : reg1.motions[i]? = some (e, m) :=
  forEachM_updatePaintCan_keeps cs i e m reg.paintCans reg reg1 hnot hu hi

/-- The body of the integration loop at an index holding a `Motion` that is
not fixed: the `Motion` written before the paint-can pass, the registry the
pass leaves, and the final write of the position. -/
theorem integrateAt_unfold (c : Consts) (cs : CollisionSystem) (elapsed_ms : ℚ)
    (reg reg1 : Registry) (i : Nat) (e : Entity) (m : Motion)
    (hg : reg.motions[i]? = some (e, m)) (hfix : m.fixed = false)
    (hu : integrateAt c cs elapsed_ms reg i = some reg1) :
    ∃ m2 reg2 m4, (e ∉ reg.players → m2 = verticalUpdate c (decide (e ∈ reg.boulders)) elapsed_ms m) ∧
      updatePaintCanGroundedState cs (reg.setAt i m2) = some reg2 ∧
      reg2.motions[i]? = some (e, m4) ∧
      reg1 = reg2.setAt i
        { m4 with position :=
            ⟨m4.position.x + m4.velocity.x * (elapsed_ms / 1000),
              m4.position.y + m4.velocity.y * (elapsed_ms / 1000)⟩ } := by
  unfold integrateAt at hu
  rw [hg] at hu
  dsimp only at hu
  rw [if_neg (by rw [hfix]; decide)] at hu
  cases hpc : updatePaintCanGroundedState cs (reg.setAt i
      (if e ∈ reg.players then
        if e ∈ reg.deathTimers then
          { applyFriction c (checkWindowBoundary c
              (verticalUpdate c (decide (e ∈ reg.boulders)) elapsed_ms m)) with
            velocity := ⟨0, (applyFriction c (checkWindowBoundary c
              (verticalUpdate c (decide (e ∈ reg.boulders)) elapsed_ms m))).velocity.y⟩ }
        else applyFriction c (checkWindowBoundary c
          (verticalUpdate c (decide (e ∈ reg.boulders)) elapsed_ms m))
      else verticalUpdate c (decide (e ∈ reg.boulders)) elapsed_ms m)) with
  | none =>
      rw [hpc] at hu
      simp at hu
  | some reg2 =>
      rw [hpc] at hu
      dsimp only at hu
      have hframe : reg.sameFrame reg2 :=
        updatePaintCanGroundedState_sameFrame cs reg _ reg2
          (Registry.sameFrame_setAt (Registry.sameFrame_refl reg) _ _) hpc
      have hfst : (reg2.motions.map Prod.fst)[i]? = some e := by
        rw [hframe.1, List.getElem?_map, hg]
        rfl
      rw [List.getElem?_map] at hfst
      cases hg2 : reg2.motions[i]? with
      | none =>
          rw [hg2] at hfst
          simp at hfst
      | some em2 =>
          obtain ⟨e2, m4⟩ := em2
          rw [hg2] at hfst hu
          simp only [Option.map_some', Option.some.injEq] at hfst
          subst hfst
          simp only [Option.some.injEq] at hu
          exact ⟨_, reg2, m4, fun hnp => if_neg hnp, hpc, hg2, hu.symm⟩

theorem integrateAt_keeps (c : Consts) (cs : CollisionSystem) (elapsed_ms : ℚ)
    (reg reg1 : Registry) (i j : Nat) (e : Entity) (m : Motion)
    (hi : reg.motions[i]? = some (e, m)) (hnot : e ∉ reg.paintCans)
    (hj : j ≠ i ∨ m.fixed = true)
    (hu : integrateAt c cs elapsed_ms reg j = some reg1) : reg1.motions[i]? = some (e, m) := by
  cases hg : reg.motions[j]? with
  | none =>
      unfold integrateAt at hu
      rw [hg] at hu
      simp only [Option.some.injEq] at hu
      subst hu
      exact hi
  | some em =>
      obtain ⟨ej, mj⟩ := em
      by_cases hfix : mj.fixed = true
      · unfold integrateAt at hu
        rw [hg] at hu
        dsimp only at hu
        rw [if_pos hfix] at hu
        simp only [Option.some.injEq] at hu
        subst hu
        exact hi
      · have hne : i ≠ j := by
          intro hij
          subst hij
          rw [hi] at hg
          simp only [Option.some.injEq, Prod.mk.injEq] at hg
          rcases hj with hj | hj
          · exact hj rfl
          · rw [hg.2] at hj
            exact hfix hj
        obtain ⟨m2, reg2, m4, _, hpc, _, hreg1⟩ :=
          integrateAt_unfold c cs elapsed_ms reg reg1 j ej mj hg (by simpa using hfix) hu
        have h1 : (reg.setAt j m2).motions[i]? = some (e, m) := by
          unfold Registry.setAt
          dsimp only
          rw [setAtStore_get_ne m2 reg.motions i j hne]
          exact hi
        have h2 := updatePaintCanGroundedState_keeps cs (reg.setAt j m2) reg2 i e m hnot hpc h1
        rw [hreg1]
        unfold Registry.setAt
        dsimp only
        rw [setAtStore_get_ne _ reg2.motions i j hne]
        exact h2

theorem forEachM_integrateAt_keeps (c : Consts) (cs : CollisionSystem) (elapsed_ms : ℚ)
    (i : Nat) (e : Entity) (m : Motion) :
    ∀ (l : List Nat) (reg reg1 : Registry), (i ∉ l ∨ m.fixed = true) → e ∉ reg.paintCans →
      reg.motions[i]? = some (e, m) →
      forEachM (integrateAt c cs elapsed_ms) l reg = some reg1 →
      reg1.motions[i]? = some (e, m) := by
  intro l
  induction l with
  | nil =>
      intro reg reg1 _ _ hi h
      simp only [forEachM, Option.some.injEq] at h
      subst h
      exact hi
  | cons j rest ih =>
      intro reg reg1 hl hnot hi h
      unfold forEachM at h
      cases hb : integrateAt c cs elapsed_ms reg j with
      | none =>
          rw [hb] at h
          simp at h
      | some reg2 =>
          rw [hb] at h
          have hframe := integrateAt_sameFrame c cs elapsed_ms reg reg reg2 j
            (Registry.sameFrame_refl reg) hb
          have hl1 : j ≠ i ∨ m.fixed = true :=
            hl.imp (fun hn hji => hn (hji ▸ List.mem_cons_self _ _)) id
          have hl2 : i ∉ rest ∨ m.fixed = true :=
            hl.imp (fun hn hmem => hn (List.mem_cons_of_mem _ hmem)) id
          exact ih reg2 reg1 hl2 (by rw [hframe.2.2.2.1]; exact hnot)
            (integrateAt_keeps c cs elapsed_ms reg reg2 i j e m hi hnot hl1 hb) h

/-- The end of the step writes the grounded flag of the player only: every
entry of the motion container keeps its entity, position and velocity. -/
theorem updatePlayerGrounded_keeps (cs : CollisionSystem) (reg reg1 : Registry) (i : Nat)
    (e : Entity) (m : Motion) (h : updatePlayerGrounded cs reg = some reg1)
    (hi : reg.motions[i]? = some (e, m)) :
    ∃ m1, reg1.motions[i]? = some (e, m1) ∧ m1.position = m.position ∧
      m1.velocity = m.velocity ∧ (e ∉ reg.players → m1 = m) := by
  obtain ⟨pe, pm, flag, hhead, hget, hreg1, _⟩ := updatePlayerGrounded_spec cs reg reg1 h
  subst hreg1
  by_cases hpe : e = pe
  · obtain ⟨m2, h1, h2, h3⟩ :=
      setInStore_get_grounded pe flag reg.motions pm i e m hget hi
    refine ⟨m2, h1, h2, h3, ?_⟩
    intro hnp
    exfalso
    apply hnp
    rw [hpe]
    exact List.mem_of_mem_head? hhead
  · exact ⟨m, setInStore_get_ne pe _ reg.motions i e m hi hpe, rfl, rfl, fun _ => rfl⟩

/-- Every fixed `Motion` of an entity that is not a paint can has the same
position and velocity after `PhysicsSystem::step` as before it, the player
included. -/
theorem step_fixed_kept (c : Consts) (cs : CollisionSystem) (elapsed_ms : ℚ)
    (reg reg1 : Registry) (i : Nat) (e : Entity) (m : Motion)
    (hstep : PhysicsSystem.step c cs elapsed_ms reg = some reg1)
    (hi : reg.motions[i]? = some (e, m)) (hfixed : m.fixed = true)
    (hnot : e ∉ reg.paintCans) :
    ∃ m1, reg1.motions[i]? = some (e, m1) ∧ m1.position = m.position ∧
      m1.velocity = m.velocity := by
  unfold PhysicsSystem.step at hstep
  cases hint : integrateAll c cs elapsed_ms reg with
  | none =>
      rw [hint] at hstep
      simp at hstep
  | some mid =>
      rw [hint] at hstep
      dsimp only at hstep
      have hmid : mid.motions[i]? = some (e, m) :=
        forEachM_integrateAt_keeps c cs elapsed_ms i e m _ reg mid (Or.inr hfixed) hnot hi hint
      obtain ⟨m1, h1, h2, h3, _⟩ := updatePlayerGrounded_keeps cs _ reg1 i e m hstep hmid
      exact ⟨m1, h1, h2, h3⟩

theorem integrateAt_self (c : Consts) (cs : CollisionSystem) (elapsed_ms : ℚ)
    (reg reg1 : Registry) (i : Nat) (e : Entity) (m : Motion)
    (hi : reg.motions[i]? = some (e, m)) (hfix : m.fixed = false)
    (hplayer : e ∉ reg.players) (hcan : e ∉ reg.paintCans)
    (hu : integrateAt c cs elapsed_ms reg i = some reg1) :
    reg1.motions[i]? = some (e,
      { verticalUpdate c (decide (e ∈ reg.boulders)) elapsed_ms m with position :=
          ⟨(verticalUpdate c (decide (e ∈ reg.boulders)) elapsed_ms m).position.x +
              (verticalUpdate c (decide (e ∈ reg.boulders)) elapsed_ms m).velocity.x *
                (elapsed_ms / 1000),
            (verticalUpdate c (decide (e ∈ reg.boulders)) elapsed_ms m).position.y +
              (verticalUpdate c (decide (e ∈ reg.boulders)) elapsed_ms m).velocity.y *
                (elapsed_ms / 1000)⟩ }) := by
  obtain ⟨m2, reg2, m4, hm2, hpc, hg2, hreg1⟩ :=
    integrateAt_unfold c cs elapsed_ms reg reg1 i e m hi hfix hu
  have hm2 := hm2 hplayer
  subst hm2
  have h1 : (reg.setAt i (verticalUpdate c (decide (e ∈ reg.boulders)) elapsed_ms m)).motions[i]?
      = some (e, verticalUpdate c (decide (e ∈ reg.boulders)) elapsed_ms m) :=
    setAtStore_get_self _ reg.motions i e m hi
  have h2 := updatePaintCanGroundedState_keeps cs
    (reg.setAt i (verticalUpdate c (decide (e ∈ reg.boulders)) elapsed_ms m)) reg2 i e _ hcan
    hpc h1
  rw [h2] at hg2
  simp only [Option.some.injEq, Prod.mk.injEq, true_and] at hg2
  subst hg2
  rw [hreg1]
  exact setAtStore_get_self _ reg2.motions i e _ h2

theorem verticalUpdate_exempt (c : Consts) (elapsed_ms : ℚ) (m : Motion)
    (hjump : m.isJumping = false) (hground : m.grounded = false)
    (hexempt : m.notAffectedByGravity = true) : verticalUpdate c false elapsed_ms m = m := by
  unfold verticalUpdate
  simp [hjump, hground, hexempt]

theorem forEachM_integrateAt_once (c : Consts) (cs : CollisionSystem) (elapsed_ms : ℚ)
    (i : Nat) (e : Entity) (m : Motion) (hfix : m.fixed = false)
    (hjump : m.isJumping = false) (hground : m.grounded = false)
    (hexempt : m.notAffectedByGravity = true) :
    ∀ (l : List Nat) (reg reg1 : Registry), l.Nodup → i ∈ l → e ∉ reg.paintCans →
      e ∉ reg.players → e ∉ reg.boulders → reg.motions[i]? = some (e, m) →
      forEachM (integrateAt c cs elapsed_ms) l reg = some reg1 →
      reg1.motions[i]? = some (e,
        { m with position :=
            ⟨m.position.x + m.velocity.x * (elapsed_ms / 1000),
              m.position.y + m.velocity.y * (elapsed_ms / 1000)⟩ }) := by
  intro l
  induction l with
  | nil =>
      intro reg reg1 _ hmem
      simp at hmem
  | cons j rest ih =>
      intro reg reg1 hnd hmem hcan hplayer hboulder hi h
      unfold forEachM at h
      cases hb : integrateAt c cs elapsed_ms reg j with
      | none =>
          rw [hb] at h
          simp at h
      | some reg2 =>
          rw [hb] at h
          dsimp only at h
          have hframe := integrateAt_sameFrame c cs elapsed_ms reg reg reg2 j
            (Registry.sameFrame_refl reg) hb
          have hcan2 : e ∉ reg2.paintCans := by rw [hframe.2.2.2.1]; exact hcan
          rw [List.nodup_cons] at hnd
          by_cases hji : j = i
          · subst hji
            have hself := integrateAt_self c cs elapsed_ms reg reg2 j e m hi hfix hplayer hcan hb
            rw [show decide (e ∈ reg.boulders) = false from decide_eq_false hboulder,
              verticalUpdate_exempt c elapsed_ms m hjump hground hexempt] at hself
            exact forEachM_integrateAt_keeps c cs elapsed_ms j e _ rest reg2 reg1
              (Or.inl hnd.1) hcan2 hself h
          · have hkeep := integrateAt_keeps c cs elapsed_ms reg reg2 i j e m hi hcan
              (Or.inl hji) hb
            have hmem2 : i ∈ rest := by
              rcases List.mem_cons.1 hmem with h1 | h1
              · exact absurd h1.symm hji
              · exact h1
            exact ih reg2 reg1 hnd.2 hmem2 hcan2 (by rw [hframe.2.1]; exact hplayer)
              (by rw [hframe.2.2.2.2.1]; exact hboulder) hkeep h

/-- One step of 16 ms on `fixedCanRegistry`. -/
theorem step_fixedCan :
    PhysicsSystem.step exampleConsts exampleCollisions 16 fixedCanRegistry
      = some fixedCanAfter := by
  norm_num [PhysicsSystem.step, integrateAll, forEachM, integrateAt, fixedCanRegistry,
    fixedCanAfter, exampleConsts, exampleCollisions, motionAt, verticalUpdate,
    checkWindowBoundary, applyFriction, updatePaintCanGroundedState, updatePaintCan,
    firstPlatformHit, Registry.getMotion, Registry.setMotion, Registry.setAt, setInStore,
    setAtStore, rectanglesOverlap, updatePlayerGrounded, touchingAnyPlatform, collisionEvents,
    pairEvents, List.range, List.range.loop, List.range', abs_of_nonneg, abs_of_pos]

/-- One step of 100 ms on `driftRegistry`. -/
theorem step_drift :
    PhysicsSystem.step exampleConsts exampleCollisions 100 driftRegistry = some driftAfter := by
  norm_num [PhysicsSystem.step, integrateAll, forEachM, integrateAt, driftRegistry,
    driftAfter, exampleConsts, exampleCollisions, motionAt, verticalUpdate,
    checkWindowBoundary, applyFriction, updatePaintCanGroundedState, updatePaintCan,
    firstPlatformHit, Registry.getMotion, Registry.setMotion, Registry.setAt, setInStore,
    setAtStore, rectanglesOverlap, updatePlayerGrounded, touchingAnyPlatform, collisionEvents,
    pairEvents, List.range, List.range.loop, List.range', clamp, abs_of_nonneg, abs_of_pos]

/-- C12, on the failing input: the paint can of `fixedCanRegistry` is fixed,
at (90,94) with velocity (0,5); after one step of 16 ms it is at (90,100)
with velocity (0,0), still fixed: the paint-can pass has written the position
and the velocity of a fixed `Motion`. -/
theorem step_fixed_paintCan_moved :
    fixedCanRegistry.motions[2]? =
        some (2, { motionAt 90 94 10 10 with fixed := true, velocity := ⟨0, 5⟩ }) ∧
      2 ∈ fixedCanRegistry.paintCans ∧
      (PhysicsSystem.step exampleConsts exampleCollisions 16 fixedCanRegistry).map
        (fun reg => reg.motions[2]?.map fun em =>
          (em.1, em.2.fixed, em.2.position, em.2.velocity))
        = some (some (2, true, ⟨90, 100⟩, ⟨0, 0⟩)) := by
  refine ⟨rfl, by decide, ?_⟩
  rw [step_fixedCan]
  rfl

/-- C14, the claim fails: in `driftRegistry` the entities 4 and 5 are not
fixed, exempt from gravity, have zero acceleration and the velocity (30,40);
after one step of 100 ms entity 4, flagged grounded, has moved by (3,0) and
has the velocity (30,0), and entity 5, a boulder, has the velocity
(30,81/2) and has moved by (3,81/20); the claim gives (3,4) and (30,40). -/
theorem step_gravity_exempt_velocity_changed :
    driftRegistry.motions[3]? = some (4, { motionAt 400 50 10 10 with
        notAffectedByGravity := true, grounded := true, velocity := ⟨30, 40⟩ }) ∧
      driftRegistry.motions[4]? = some (5, { motionAt 500 50 10 10 with
        notAffectedByGravity := true, velocity := ⟨30, 40⟩ }) ∧
      (PhysicsSystem.step exampleConsts exampleCollisions 100 driftRegistry).map
        (fun reg => (reg.motions.drop 3).map fun em => (em.1, em.2.position, em.2.velocity))
        = some [(4, ⟨403, 50⟩, ⟨30, 0⟩), (5, ⟨503, 1081 / 20⟩, ⟨30, 81 / 2⟩)] := by
  refine ⟨rfl, rfl, ?_⟩
  rw [step_drift]
  rfl

/-- C14, amended: a `Motion` that is not fixed, has `notAffectedByGravity`
set, is neither jumping nor flagged grounded, and belongs to an entity that
is neither a boulder, a player nor a paint can, has after one
`PhysicsSystem::step` that returns its position moved by exactly
`velocity * (elapsed_ms / 1000)` and every other field, the velocity
included, as before; the acceleration plays no part. -/
theorem step_gravity_exempt_drift (c : Consts) (cs : CollisionSystem) (elapsed_ms : ℚ)
    (reg reg1 : Registry) (i : Nat) (e : Entity) (m : Motion)
    (hstep : PhysicsSystem.step c cs elapsed_ms reg = some reg1)
    (hi : reg.motions[i]? = some (e, m)) (hfix : m.fixed = false)
    (hexempt : m.notAffectedByGravity = true) (hjump : m.isJumping = false)
    (hground : m.grounded = false) (hboulder : e ∉ reg.boulders)
    (hplayer : e ∉ reg.players) (hcan : e ∉ reg.paintCans) :
    reg1.motions[i]? = some (e,
      { m with position :=
          ⟨m.position.x + m.velocity.x * (elapsed_ms / 1000),
            m.position.y + m.velocity.y * (elapsed_ms / 1000)⟩ }) := by
  unfold PhysicsSystem.step at hstep
  cases hint : integrateAll c cs elapsed_ms reg with
  | none =>
      rw [hint] at hstep
      simp at hstep
  | some mid =>
      rw [hint] at hstep
      dsimp only at hstep
      have hlt : i < reg.motions.length := by
        by_contra hge
        rw [List.getElem?_eq_none (Nat.le_of_not_lt hge)] at hi
        simp at hi
      have hmid := forEachM_integrateAt_once c cs elapsed_ms i e m hfix hjump hground hexempt
        (List.range reg.motions.length) reg mid (List.nodup_range _) (List.mem_range.2 hlt)
        hcan hplayer hboulder hi hint
      have hframe := integrateAll_sameFrame c cs elapsed_ms reg mid hint
      obtain ⟨m1, h1, _, _, h4⟩ := updatePlayerGrounded_keeps cs _ reg1 i e _ hstep hmid
      rw [h1, h4 (by rw [hframe.2.1]; exact hplayer)]

/-- C14, amended, at a concrete input: entity 3 of `driftRegistry`, at
(300,50) with velocity (30,40), is at (303,54) after one step of 100 ms. -/
theorem step_gravity_exempt_drift_witness :
    PhysicsSystem.step exampleConsts exampleCollisions 100 driftRegistry = some driftAfter ∧
      driftAfter.motions[2]? = some (3,
        { motionAt 300 50 10 10 with
          notAffectedByGravity := true
          velocity := ⟨30, 40⟩
          position := ⟨300 + 30 * (100 / 1000), 50 + 40 * (100 / 1000)⟩ }) :=
  ⟨step_drift,
    step_gravity_exempt_drift exampleConsts exampleCollisions 100 driftRegistry driftAfter 2 3
      { motionAt 300 50 10 10 with notAffectedByGravity := true, velocity := ⟨30, 40⟩ }
      step_drift rfl rfl rfl rfl rfl (by decide) (by decide) (by decide)⟩

/-! ### The snap of a paint can, and the window boundary -/

/-- What the paint-can pass writes for a can that collides with a platform:
the flag, the vertical velocity 0, and a centre that puts the can's edge
`position.y + scale.y / 2` on the platform's edge `position.y + scale.y / 2`,
the first colliding platform in container order being taken. -/
theorem updatePaintCan_snap (cs : CollisionSystem) (reg : Registry) (paintCanEntity : Entity)
    (m platform : Motion) (hm : reg.getMotion paintCanEntity = some m)
    (hhit : firstPlatformHit cs reg m reg.platforms = some (some platform)) :
    ∃ m1, updatePaintCan cs reg paintCanEntity = some (reg.setMotion paintCanEntity m1) ∧
      m1.grounded = true ∧ m1.velocity.y = 0 ∧ m1.velocity.x = m.velocity.x ∧
      m1.position.x = m.position.x ∧ m1.scale = m.scale ∧
      m1.position.y + m1.scale.y / 2 = platform.position.y + platform.scale.y / 2 := by
  unfold updatePaintCan
  rw [hm]
  dsimp only
  rw [hhit]
  refine ⟨_, rfl, rfl, rfl, rfl, rfl, rfl, ?_⟩
  dsimp only
  ring

/-- C21, on the failing input: the paint can of `fallingCanRegistry`, centre
(80,92) and size 10x10, overlaps the platform of centre (50,100) and size
100x10, whose top edge is y = 95 and whose bottom edge is y = 105 (y grows
downward).  The pass sets grounded, velocity.y = 0 and keeps x = 80, but the
can's bottom edge lands on y = 105, the bottom edge of the platform, not on
its top edge. -/
theorem updatePaintCanGroundedState_snaps_to_lower_edge :
    fallingCanRegistry.getMotion 2 = some { motionAt 80 92 10 10 with velocity := ⟨0, 40⟩ } ∧
      fallingCanRegistry.getMotion 1 = some { motionAt 50 100 100 10 with fixed := true } ∧
      rectanglesOverlap { motionAt 80 92 10 10 with velocity := ⟨0, 40⟩ }
        { motionAt 50 100 100 10 with fixed := true } = true ∧
      ((100 : ℚ) - 10 / 2 = 95 ∧ (100 : ℚ) + 10 / 2 = 105) ∧
      (updatePaintCanGroundedState exampleCollisions fallingCanRegistry).map
        (fun reg => (reg.getMotion 2).map fun m =>
          (m.grounded, m.velocity.y, m.position.x, m.position.y + m.scale.y / 2))
        = some (some (true, 0, 80, 105)) := by
  refine ⟨by decide, by decide, ?_, by norm_num, ?_⟩
  · norm_num [rectanglesOverlap, motionAt, abs_of_nonneg, abs_of_pos]
  · norm_num [updatePaintCanGroundedState, forEachM, updatePaintCan, firstPlatformHit,
      fallingCanRegistry, exampleCollisions, Registry.getMotion, Registry.setMotion, setInStore,
      rectanglesOverlap, motionAt, abs_of_nonneg, abs_of_pos]

/-- C22, the claim fails: a player of size 10x10 at (2,2) with velocity
(-3,-4) crosses the left and the top edge; `checkWindowBoundary` handles the
left edge only: x becomes 3 and velocity.x 0, while y = 2 and velocity.y = -4
stay.  A player wider than the window, crossing left and right, is moved to
the right only. -/
theorem checkWindowBoundary_corner_counterexample :
    ((2 : ℚ) - |(10 : ℚ)| / 2 < 0) ∧
      checkWindowBoundary exampleConsts { motionAt 2 2 10 10 with velocity := ⟨-3, -4⟩ } =
        { motionAt 3 2 10 10 with velocity := ⟨0, -4⟩ } ∧
      checkWindowBoundary exampleConsts { motionAt 900 50 2000 10 with velocity := ⟨7, 0⟩ } =
        { motionAt 901 50 2000 10 with velocity := ⟨0, 0⟩ } := by
  refine ⟨by norm_num [abs_of_pos], ?_, ?_⟩
  · norm_num [checkWindowBoundary, exampleConsts, motionAt, abs_of_pos]
  · norm_num [checkWindowBoundary, exampleConsts, motionAt, abs_of_pos]

/-- C22, amended: `checkWindowBoundary` handles the first crossed edge in the
order left, right, top, and that edge only.  A Motion crossing the left edge
gets x + 1 and velocity.x = 0; one not crossing the left edge but the right
edge gets x - 1 and velocity.x = 0; one crossing neither of them but the top
edge gets y + 1 and velocity.y = 0; in each case nothing else changes; a
Motion crossing none of the three edges is left as it is. -/
theorem checkWindowBoundary_first_edge (c : Consts) (m : Motion) :
    (m.position.x - |m.scale.x| / 2 < 0 →
      checkWindowBoundary c m =
        { m with position := ⟨m.position.x + 1, m.position.y⟩, velocity := ⟨0, m.velocity.y⟩ }) ∧
    (¬ m.position.x - |m.scale.x| / 2 < 0 → m.position.x + |m.scale.x| / 2 > c.window_width_px →
      checkWindowBoundary c m =
        { m with position := ⟨m.position.x - 1, m.position.y⟩, velocity := ⟨0, m.velocity.y⟩ }) ∧
    (¬ m.position.x - |m.scale.x| / 2 < 0 → ¬ m.position.x + |m.scale.x| / 2 > c.window_width_px →
      m.position.y - |m.scale.y| / 2 < 0 →
      checkWindowBoundary c m =
        { m with position := ⟨m.position.x, m.position.y + 1⟩, velocity := ⟨m.velocity.x, 0⟩ }) ∧
    (¬ m.position.x - |m.scale.x| / 2 < 0 → ¬ m.position.x + |m.scale.x| / 2 > c.window_width_px →
      ¬ m.position.y - |m.scale.y| / 2 < 0 → checkWindowBoundary c m = m) := by
  refine ⟨?_, ?_, ?_, ?_⟩
  · intro h1
    unfold checkWindowBoundary
    rw [if_pos h1]
  · intro h1 h2
    unfold checkWindowBoundary
    rw [if_neg h1, if_pos h2]
  · intro h1 h2 h3
    unfold checkWindowBoundary
    rw [if_neg h1, if_neg h2, if_pos h3]
  · intro h1 h2 h3
    unfold checkWindowBoundary
    rw [if_neg h1, if_neg h2, if_neg h3]

/-- C22, amended, at a concrete input: a player crossing the top edge only,
and one below the bottom edge of a window of any height. -/
theorem checkWindowBoundary_first_edge_witness :
    checkWindowBoundary exampleConsts { motionAt 50 2 10 10 with velocity := ⟨-3, -4⟩ } =
        { motionAt 50 2 10 10 with position := ⟨50, 2 + 1⟩, velocity := ⟨-3, 0⟩ } ∧
      checkWindowBoundary exampleConsts (motionAt 50 100000 10 10) = motionAt 50 100000 10 10 :=
  ⟨(checkWindowBoundary_first_edge exampleConsts
      { motionAt 50 2 10 10 with velocity := ⟨-3, -4⟩ }).2.2.1
      (by norm_num [motionAt, abs_of_pos])
      (by norm_num [motionAt, exampleConsts, abs_of_pos])
      (by norm_num [motionAt, abs_of_pos]),
    (checkWindowBoundary_first_edge exampleConsts (motionAt 50 100000 10 10)).2.2.2
      (by norm_num [motionAt, abs_of_pos])
      (by norm_num [motionAt, exampleConsts, abs_of_pos])
      (by norm_num [motionAt, abs_of_pos])⟩

/-! ### Paint cans turning at platform edges -/

theorem find_setInStore (e : Entity) (m : Motion) (x : Entity) :
    ∀ (ms : List (Entity × Motion)),
      ((setInStore e m ms).find? fun em => em.1 == x).map Prod.snd =
        if x = e then ((ms.find? fun em => em.1 == x).map Prod.snd).map fun _ => m
        else (ms.find? fun em => em.1 == x).map Prod.snd := by
  intro ms
  induction ms with
  | nil => simp [setInStore]
  | cons a rest ih =>
      obtain ⟨e1, m1⟩ := a
      rw [setInStore]
      by_cases he : (e1 == e) = true
      · rw [if_pos he]
        have he1 : e1 = e := beq_iff_eq.1 he
        subst he1
        by_cases hx : x = e1
        · subst hx
          simp [List.find?_cons]
        · have hne : (e1 == x) = false := by
            rw [beq_eq_false_iff_ne]
            exact fun h => hx h.symm
          simp [List.find?_cons, hne, hx]
      · rw [if_neg he]
        by_cases hx1 : (e1 == x) = true
        · have : e1 = x := beq_iff_eq.1 hx1
          subst this
          have hxe : ¬ e1 = e := fun h => he (beq_iff_eq.2 h)
          simp [List.find?_cons, hxe]
        · have hx2 : (e1 == x) = false := by simpa using hx1
          simp only [List.find?_cons, hx2]
          exact ih

/-- Reading a `Motion` after a write through `registry.motions.get(e)`. -/
theorem Registry.getMotion_setMotion (reg : Registry) (e : Entity) (m : Motion) (x : Entity) :
    (reg.setMotion e m).getMotion x =
      if x = e then (reg.getMotion e).map fun _ => m else reg.getMotion x := by
  unfold Registry.getMotion Registry.setMotion
  dsimp only
  rw [find_setInStore]
  by_cases hx : x = e
  · subst hx
    simp
  · simp [hx]

/-- `AISystem::rectangleCollides` reads the positions and the scales only. -/
theorem AISystem.rectangleCollides_congr (a a1 b b1 : Motion) (ha : a1.position = a.position)
    (has : a1.scale = a.scale) (hb : b1.position = b.position) (hbs : b1.scale = b.scale) :
    AISystem.rectangleCollides a1 b1 = AISystem.rectangleCollides a b := by
  unfold AISystem.rectangleCollides
  rw [ha, has, hb, hbs]

theorem turnAtEdge_geometry (reg : Registry) (rand : Nat) (m : Motion) :
    ∀ (l : List Entity) (m1 : Motion), turnAtEdge reg rand m l = some m1 →
      m1.position = m.position ∧ m1.scale = m.scale := by
  intro l
  induction l with
  | nil =>
      intro m1 h
      simp only [turnAtEdge, Option.some.injEq] at h
      subst h
      exact ⟨rfl, rfl⟩
  | cons q rest ih =>
      intro m1 h
      unfold turnAtEdge at h
      cases hq : reg.getMotion q with
      | none =>
          rw [hq] at h
          simp at h
      | some mq =>
          rw [hq] at h
          dsimp only at h
          split_ifs at h <;>
            first
            | exact ih m1 h
            | (simp only [Option.some.injEq] at h
               subst h
               exact ⟨rfl, rfl⟩)

/-- The loop over the platforms for a can of non-zero horizontal velocity
whose first colliding platform is `platform`: the velocity is negated exactly
when the centre is within `scale.x` of the platform's left or right edge. -/
theorem turnAtEdge_first (reg : Registry) (rand : Nat) (m platform : Motion)
    (pre post : List Entity) (p : Entity)
    (hpre : ∀ q ∈ pre, ∃ mq, reg.getMotion q = some mq ∧
      AISystem.rectangleCollides m mq = false)
    (hp : reg.getMotion p = some platform) (hc : AISystem.rectangleCollides m platform = true)
    (hv : m.velocity.x ≠ 0) :
    turnAtEdge reg rand m (pre ++ p :: post) =
      some (if m.position.x ≤ platform.position.x - platform.scale.x / 2 + m.scale.x ∨
          m.position.x ≥ platform.position.x + platform.scale.x / 2 - m.scale.x then
        { m with velocity := ⟨-m.velocity.x, m.velocity.y⟩ } else m) := by
  induction pre with
  | nil =>
      rw [List.nil_append]
      unfold turnAtEdge
      rw [hp]
      dsimp only
      rw [if_pos hc]
      by_cases hcond : m.position.x ≤ platform.position.x - platform.scale.x / 2 + m.scale.x ∨
          m.position.x ≥ platform.position.x + platform.scale.x / 2 - m.scale.x
      · rw [if_pos hcond, if_pos hcond]
        dsimp only
        rw [if_neg (by simpa using hv), mul_neg_one]
      · rw [if_neg hcond, if_neg hcond, if_neg hv]
  | cons q rest ih =>
      obtain ⟨mq, hq, hqc⟩ := hpre q (List.mem_cons_self _ _)
      rw [List.cons_append]
      unfold turnAtEdge
      rw [hq]
      dsimp only
      rw [if_neg (by rw [hqc]; decide)]
      exact ih fun x hx => hpre x (List.mem_cons_of_mem _ hx)

/-- One iteration of the loop over the paint cans writes at most the `Motion`
of its paint can, and there neither position nor scale. -/
theorem movePaintCan_frame (player_position : Vec2) (rand : Nat) (reg reg1 : Registry)
    (pc : Entity) (h : movePaintCan player_position rand reg pc = some reg1) :
    reg1.platforms = reg.platforms ∧ (∀ x, x ≠ pc → reg1.getMotion x = reg.getMotion x) ∧
      ∀ m, reg.getMotion pc = some m →
        ∃ m1, reg1.getMotion pc = some m1 ∧ m1.position = m.position ∧ m1.scale = m.scale := by
  have hset : ∀ (m m1 : Motion), reg.getMotion pc = some m → m1.position = m.position →
      m1.scale = m.scale → reg1 = reg.setMotion pc m1 →
      reg1.platforms = reg.platforms ∧ (∀ x, x ≠ pc → reg1.getMotion x = reg.getMotion x) ∧
      ∀ m2, reg.getMotion pc = some m2 →
        ∃ m3, reg1.getMotion pc = some m3 ∧ m3.position = m2.position ∧ m3.scale = m2.scale := by
    intro m m1 hm hpos hsc hreg
    subst hreg
    refine ⟨rfl, ?_, ?_⟩
    · intro x hx
      rw [Registry.getMotion_setMotion, if_neg hx]
    · intro m2 hm2
      rw [hm] at hm2
      simp only [Option.some.injEq] at hm2
      subst hm2
      refine ⟨m1, ?_, hpos, hsc⟩
      rw [Registry.getMotion_setMotion, if_pos rfl, hm]
      rfl
  unfold movePaintCan at h
  rcases Option.eq_none_or_eq_some (reg.getMotion pc) with hm | ⟨m, hm⟩
  · rw [hm] at h
    simp at h
  · rw [hm] at h
    dsimp only at h
    by_cases hg : (!m.grounded) = true
    · rw [if_pos hg] at h
      simp only [Option.some.injEq] at h
      subst h
      exact ⟨rfl, fun _ _ => rfl, fun m2 hm2 => ⟨m2, hm2, rfl, rfl⟩⟩
    · rw [if_neg hg] at h
      split_ifs at h with h1 h2
      · exact hset m { m with velocity := ⟨-200, m.velocity.y⟩ } hm rfl rfl
          (Option.some.inj h).symm
      · exact hset m { m with velocity := ⟨200, m.velocity.y⟩ } hm rfl rfl
          (Option.some.inj h).symm
      · cases ht : turnAtEdge reg rand m reg.platforms with
        | none =>
            rw [ht] at h
            simp at h
        | some m1 =>
            rw [ht] at h
            obtain ⟨hp1, hs1⟩ := turnAtEdge_geometry reg rand m _ m1 ht
            exact hset m m1 hm hp1 hs1 (Option.some.inj h).symm

theorem movePaintCan_sameGeometry (player_position : Vec2) (rand : Nat)
    (reg0 reg reg1 : Registry) (pc : Entity) (hgeo : reg0.sameGeometry reg)
    (h : movePaintCan player_position rand reg pc = some reg1) : reg0.sameGeometry reg1 := by
  obtain ⟨h1, h2, h3⟩ := movePaintCan_frame player_position rand reg reg1 pc h
  refine ⟨h1.trans hgeo.1, ?_⟩
  intro x m0 hx
  obtain ⟨m1, hm1, hpos, hsc⟩ := hgeo.2 x m0 hx
  by_cases hxe : x = pc
  · subst hxe
    obtain ⟨m2, hm2, hpos2, hsc2⟩ := h3 m1 hm1
    exact ⟨m2, hm2, hpos2.trans hpos, hsc2.trans hsc⟩
  · exact ⟨m1, (h2 x hxe).trans hm1, hpos, hsc⟩

theorem forEachM_movePaintCan_other (player_position : Vec2) (rand : Nat → Nat) (e : Entity) :
    ∀ (l : List (Nat × Entity)) (reg reg1 : Registry), e ∉ l.map Prod.snd →
      forEachM (fun r (ie : Nat × Entity) => movePaintCan player_position (rand ie.1) r ie.2)
        l reg = some reg1 →
      reg1.getMotion e = reg.getMotion e := by
  intro l
  induction l with
  | nil =>
      intro reg reg1 _ h
      simp only [forEachM, Option.some.injEq] at h
      subst h
      rfl
  | cons a rest ih =>
      intro reg reg1 hnot h
      unfold forEachM at h
      cases hb : movePaintCan player_position (rand a.1) reg a.2 with
      | none =>
          rw [hb] at h
          simp at h
      | some reg2 =>
          rw [hb] at h
          dsimp only at h
          rw [List.map_cons, List.mem_cons, not_or] at hnot
          rw [ih reg2 reg1 hnot.2 h]
          exact (movePaintCan_frame player_position (rand a.1) reg reg2 a.2 hb).2.1 e hnot.1

theorem forEachM_movePaintCan_once (player_position : Vec2) (rand : Nat → Nat)
    (reg0 : Registry) (e : Entity) (m mexp : Motion)
    (hbody : ∀ (reg : Registry) (rnd : Nat), reg0.sameGeometry reg → reg.getMotion e = some m →
      movePaintCan player_position rnd reg e = some (reg.setMotion e mexp)) :
    ∀ (l : List (Nat × Entity)) (reg reg1 : Registry), (l.map Prod.snd).Nodup →
      e ∈ l.map Prod.snd → reg0.sameGeometry reg → reg.getMotion e = some m →
      forEachM (fun r (ie : Nat × Entity) => movePaintCan player_position (rand ie.1) r ie.2)
        l reg = some reg1 →
      reg1.getMotion e = some mexp := by
  intro l
  induction l with
  | nil =>
      intro reg reg1 _ hmem
      simp at hmem
  | cons a rest ih =>
      intro reg reg1 hnd hmem hgeo hm h
      unfold forEachM at h
      cases hb : movePaintCan player_position (rand a.1) reg a.2 with
      | none =>
          rw [hb] at h
          simp at h
      | some reg2 =>
          rw [hb] at h
          dsimp only at h
          rw [List.map_cons, List.nodup_cons] at hnd
          by_cases hae : a.2 = e
          · rw [hae] at hb hnd
            rw [hbody reg (rand a.1) hgeo hm] at hb
            simp only [Option.some.injEq] at hb
            subst hb
            rw [forEachM_movePaintCan_other player_position rand e rest _ reg1 hnd.1 h,
              Registry.getMotion_setMotion, if_pos rfl, hm]
            rfl
          · have hmem2 : e ∈ rest.map Prod.snd := by
              rw [List.map_cons, List.mem_cons] at hmem
              rcases hmem with h1 | h1
              · exact absurd h1.symm hae
              · exact h1
            have hfr := movePaintCan_frame player_position (rand a.1) reg reg2 a.2 hb
            exact ih reg2 reg1 hnd.2 hmem2
              (movePaintCan_sameGeometry player_position (rand a.1) reg0 reg reg2 a.2 hgeo hb)
              ((hfr.2.1 e (fun h1 => hae h1.symm)).trans hm) h

/-- C23, the claim fails: in `edgeCanRegistry` the paint can 2 is grounded,
moves at 200 units per second, overlaps the platform (left edge x = 0, right
edge x = 100) and has its centre at x = 8, further than its half-width 5 from
either edge; the player at (500,92) is 492 away.  `updatePaintCanMovement`
negates its velocity, because 8 is within the full width 10 of the left
edge. -/
theorem updatePaintCanMovement_turns_within_full_width :
    edgeCanRegistry.getMotion 2 =
        some { motionAt 8 92 10 10 with grounded := true, velocity := ⟨200, 0⟩ } ∧
      AISystem.rectangleCollides
        { motionAt 8 92 10 10 with grounded := true, velocity := ⟨200, 0⟩ }
        { motionAt 50 100 100 10 with fixed := true } = true ∧
      ¬ (((8 : ℚ) - 500) ^ 2 + ((92 : ℚ) - 92) ^ 2 < 150 ^ 2) ∧
      ¬ ((8 : ℚ) ≤ (50 - 100 / 2) + 10 / 2 ∨ (8 : ℚ) ≥ (50 + 100 / 2) - 10 / 2) ∧
      (updatePaintCanMovement ⟨500, 92⟩ (fun _ => 0) edgeCanRegistry).map
        (fun reg => (reg.getMotion 2).map fun m => m.velocity) = some (some ⟨-200, 0⟩) := by
  refine ⟨by decide, ?_, by norm_num, by norm_num, ?_⟩
  · norm_num [AISystem.rectangleCollides, motionAt, abs_of_nonneg, abs_of_pos]
  · norm_num [updatePaintCanMovement, forEachM, movePaintCan, turnAtEdge, edgeCanRegistry,
      List.enum, List.enumFrom, Registry.getMotion, Registry.setMotion, setInStore,
      AISystem.rectangleCollides, motionAt, abs_of_nonneg, abs_of_pos]

/-- C23, amended: for every paint can of the container (which holds each
entity once) that is grounded, has a non-zero horizontal velocity and is at
distance 150 or more from the player, and whose first colliding platform in
container order (by `AISystem::rectangleCollides`) is `platform`,
`updatePaintCanMovement`, when it completes, negates `velocity.x` if and only
if the can's centre x is within the can's full width `scale.x` of the left or
the right edge of that platform: `x <= leftEdge + scale.x` or
`x >= rightEdge - scale.x`; otherwise the `Motion` is unchanged; nothing but
`velocity.x` changes. -/
theorem updatePaintCanMovement_turns (player_position : Vec2) (rand : Nat → Nat)
    (reg reg1 : Registry) (e p : Entity) (m platform : Motion) (pre post : List Entity)
    (hrun : updatePaintCanMovement player_position rand reg = some reg1)
    (hnd : reg.paintCans.Nodup) (he : e ∈ reg.paintCans) (hm : reg.getMotion e = some m)
    (hground : m.grounded = true) (hv : m.velocity.x ≠ 0)
    (hfar : ¬ ((m.position.x - player_position.x) ^ 2 +
      (m.position.y - player_position.y) ^ 2 < 150 ^ 2))
    (hplat : reg.platforms = pre ++ p :: post)
    (hpre : ∀ q ∈ pre, ∃ mq, reg.getMotion q = some mq ∧
      AISystem.rectangleCollides m mq = false)
    (hp : reg.getMotion p = some platform)
    (hc : AISystem.rectangleCollides m platform = true) :
    ∃ m1, reg1.getMotion e = some m1 ∧
      (m1.velocity.x = -m.velocity.x ↔
        (m.position.x ≤ platform.position.x - platform.scale.x / 2 + m.scale.x ∨
          m.position.x ≥ platform.position.x + platform.scale.x / 2 - m.scale.x)) ∧
      (¬ (m.position.x ≤ platform.position.x - platform.scale.x / 2 + m.scale.x ∨
          m.position.x ≥ platform.position.x + platform.scale.x / 2 - m.scale.x) → m1 = m) ∧
      m1 = { m with velocity := ⟨m1.velocity.x, m.velocity.y⟩ } := by
  have hbody : ∀ (r : Registry) (rnd : Nat), reg.sameGeometry r → r.getMotion e = some m →
      movePaintCan player_position rnd r e = some (r.setMotion e
        (if m.position.x ≤ platform.position.x - platform.scale.x / 2 + m.scale.x ∨
            m.position.x ≥ platform.position.x + platform.scale.x / 2 - m.scale.x then
          { m with velocity := ⟨-m.velocity.x, m.velocity.y⟩ } else m)) := by
    intro r rnd hgeo hrm
    obtain ⟨platform1, hp1, hpos1, hsc1⟩ := hgeo.2 p platform hp
    have hpre1 : ∀ q ∈ pre, ∃ mq, r.getMotion q = some mq ∧
        AISystem.rectangleCollides m mq = false := by
      intro q hq
      obtain ⟨mq, hmq, hcq⟩ := hpre q hq
      obtain ⟨mq1, hmq1, hposq, hscq⟩ := hgeo.2 q mq hmq
      exact ⟨mq1, hmq1,
        (AISystem.rectangleCollides_congr m m mq mq1 rfl rfl hposq hscq).trans hcq⟩
    have hc1 : AISystem.rectangleCollides m platform1 = true :=
      (AISystem.rectangleCollides_congr m m platform platform1 rfl rfl hpos1 hsc1).trans hc
    have hturn := turnAtEdge_first r rnd m platform1 pre post p hpre1 hp1 hc1 hv
    rw [hpos1, hsc1] at hturn
    unfold movePaintCan
    rw [hrm]
    dsimp only
    rw [if_neg (by rw [hground]; decide), if_neg (by simpa using hfar), hgeo.1, hplat, hturn]
  have hres := forEachM_movePaintCan_once player_position rand reg e m _ hbody
    reg.paintCans.enum reg reg1 (by rw [List.enum_map_snd]; exact hnd)
    (by rw [List.enum_map_snd]; exact he) ⟨rfl, fun x m0 hx => ⟨m0, hx, rfl, rfl⟩⟩ hm hrun
  refine ⟨_, hres, ?_, ?_, ?_⟩
  · constructor
    · intro hneg
      by_contra hcond
      rw [if_neg hcond] at hneg
      apply hv
      linarith
    · intro hcond
      rw [if_pos hcond]
  · intro hcond
    rw [if_neg hcond]
  · split_ifs <;> rfl

/-- C23, amended, at a concrete input: the paint can 2 of `edgeCanRegistry`
with the player at (500,92). -/
theorem updatePaintCanMovement_turns_witness :
    ∃ reg1 m1, updatePaintCanMovement ⟨500, 92⟩ (fun _ => 0) edgeCanRegistry = some reg1 ∧
      reg1.getMotion 2 = some m1 ∧
      (m1.velocity.x = -(200 : ℚ) ↔
        ((8 : ℚ) ≤ 50 - 100 / 2 + 10 ∨ (8 : ℚ) ≥ 50 + 100 / 2 - 10)) :=
  have hrun : (updatePaintCanMovement ⟨500, 92⟩ (fun _ => 0) edgeCanRegistry).isSome = true := by
    norm_num [updatePaintCanMovement, forEachM, movePaintCan, turnAtEdge, edgeCanRegistry,
      List.enum, List.enumFrom, Registry.getMotion, Registry.setMotion, setInStore,
      AISystem.rectangleCollides, motionAt, abs_of_nonneg, abs_of_pos]
  have hsome := Option.isSome_iff_exists.1 hrun
  hsome.elim fun reg1 h1 =>
    have h := updatePaintCanMovement_turns ⟨500, 92⟩ (fun _ => 0) edgeCanRegistry reg1 2 1
      { motionAt 8 92 10 10 with grounded := true, velocity := ⟨200, 0⟩ }
      { motionAt 50 100 100 10 with fixed := true } [] [] h1 (by decide) (by decide)
      (by decide) rfl (by norm_num [motionAt]) (by norm_num [motionAt]) rfl
      (by simp) (by decide)
      (by norm_num [AISystem.rectangleCollides, motionAt, abs_of_nonneg, abs_of_pos])
    h.elim fun m1 hm1 => ⟨reg1, m1, h1, hm1.1, hm1.2.1⟩

/-! ### The search returns a shortest path -/

/-- A path given as a list of cells, last cell first, is a walk. -/
theorem walk_of_chain (gw gh : Int) (grid : Grid) (a : Cell) :
    ∀ (l : List Cell) (c : Cell), List.Chain' (fun y x => Step gw gh grid x y) l →
      l.head? = some c → l.getLast? = some a → Walk gw gh grid a c (l.length - 1) := by
  intro l
  induction l with
  | nil =>
      intro c _ h
      simp at h
  | cons x tl ih =>
      intro c hch hhead hlast
      simp only [List.head?_cons, Option.some.injEq] at hhead
      subst hhead
      cases tl with
      | nil =>
          simp only [List.getLast?_singleton, Option.some.injEq] at hlast
          subst hlast
          exact Walk.refl
      | cons y tl2 =>
          rw [List.chain'_cons] at hch
          rw [List.getLast?_cons_cons] at hlast
          have := ih y hch.2 rfl hlast
          simp only [List.length_cons, Nat.add_sub_cancel] at this ⊢
          exact Walk.tail this hch.1

/-- The Manhattan distance to the target falls by at most 1 with a move. -/
theorem step_manhattan_le (gw gh : Int) (grid : Grid) (tx ty : Int) (b c : Cell)
    (h : Step gw gh grid b c) :
    manhattanDistance b.1 b.2 tx ty ≤ manhattanDistance c.1 c.2 tx ty + 1 := by
  obtain ⟨d, hd, hc, -, -⟩ := h
  subst hc
  exact (manhattan_dir_le b.1 b.2 tx ty d hd).1

section OptFacts

variable {gw gh : Int} {grid : Grid} {sx sy tx ty : Int} {o : List Node} {cl : Closed}

/-- Under the invariant, for every walk of `k` moves from the start to a cell
that is not closed, some queued node has `f` at most `k` plus the Manhattan
distance of that cell to the target. -/
theorem OptInv.frontier (hinv : OptInv gw gh grid sx sy tx ty o cl) :
    ∀ (c : Cell) (k : Nat), Walk gw gh grid (sx, sy) c k → cl c.2 c.1 = false →
      ∃ n ∈ o, n.f ≤ k + manhattanDistance c.1 c.2 tx ty := by
  obtain ⟨ha, hb, hc⟩ := hinv
  intro c k hw
  induction hw with
  | refl =>
      intro hcl
      rcases hc with h | ⟨n, hn, hx, hy, hg⟩
      · rw [h] at hcl
        exact absurd hcl (by decide)
      · refine ⟨n, hn, ?_⟩
        have := (ha n hn).h_eq
        simp only [Node.f, this, hx, hy]
        push_cast
        omega
  | @tail b c k hw hstep ih =>
      intro hcl
      by_cases hbcl : cl b.2 b.1 = true
      · obtain ⟨-, gc, hgc, hnb⟩ := hb b.2 b.1 hbcl
        have h1 := hgc k hw
        rcases hnb c hstep with h | ⟨n, hn, hx, hy, hg⟩
        · rw [h] at hcl
          exact absurd hcl (by decide)
        · refine ⟨n, hn, ?_⟩
          have := (ha n hn).h_eq
          simp only [Node.f, this, hx, hy]
          push_cast
          omega
      · obtain ⟨n, hn, hf⟩ := ih (by simpa using hbcl)
        refine ⟨n, hn, ?_⟩
        have := step_manhattan_le gw gh grid tx ty b c hstep
        push_cast
        omega

/-- Under the invariant, a node of least `f` whose cell is not closed has the
least `g` that any walk from the start to its cell allows. -/
theorem OptInv.popped_least (hinv : OptInv gw gh grid sx sy tx ty o cl) {cur : Node}
    (hcur : cur ∈ o) (hmin : ∀ n ∈ o, cur.f ≤ n.f) (hcl : cl cur.y cur.x = false) :
    ∀ k, Walk gw gh grid (sx, sy) (cur.x, cur.y) k → cur.g ≤ k := by
  intro k hw
  obtain ⟨n, hn, hf⟩ := hinv.frontier (cur.x, cur.y) k hw hcl
  have h1 := hmin n hn
  have h2 := (hinv.1 cur hcur).h_eq
  simp only [Node.f] at h1 hf
  rw [h2] at h1
  omega

theorem OptInv.holds_initially (gw gh : Int) (grid : Grid) (sx sy tx ty : Int) :
    OptInv gw gh grid sx sy tx ty [Node.mk sx sy 0 (manhattanDistance sx sy tx ty) none]
      (fun _ _ => false) := by
  refine ⟨?_, ?_, ?_⟩
  · intro n hn
    rw [List.mem_singleton] at hn
    subst hn
    exact NodeOK.root
  · intro r c h
    simp at h
  · right
    exact ⟨_, List.mem_singleton_self _, rfl, rfl, le_refl _⟩

theorem OptInv.maintained (hinv : OptInv gw gh grid sx sy tx ty o cl) {cur : Node}
    {rest : List Node} (hperm : o.Perm (cur :: rest)) (hmin : ∀ n ∈ o, cur.f ≤ n.f)
    (hnt : ¬ (cur.x = tx ∧ cur.y = ty)) :
    OptInv gw gh grid sx sy tx ty
      (expand gw gh grid (cl.mark cur.y cur.x) tx ty cur rest) (cl.mark cur.y cur.x) := by
  have hcurmem : cur ∈ o := hperm.mem_iff.2 (List.mem_cons_self _ _)
  have hleast := fun hcl => hinv.popped_least hcurmem hmin hcl
  obtain ⟨ha, hb, hc⟩ := hinv
  have hcur : NodeOK gw gh grid sx sy tx ty cur := ha cur hcurmem
  have hkeep : ∀ (x y bound : Int),
      (cl y x = true ∨ ∃ n ∈ o, n.x = x ∧ n.y = y ∧ n.g ≤ bound) →
      (cl.mark cur.y cur.x) y x = true ∨
        ∃ n ∈ expand gw gh grid (cl.mark cur.y cur.x) tx ty cur rest,
          n.x = x ∧ n.y = y ∧ n.g ≤ bound := by
    intro x y bound h
    rcases h with hcl | ⟨n, hn, hx, hy, hg⟩
    · left
      unfold Closed.mark
      split
      · rfl
      · exact hcl
    · rcases List.mem_cons.1 (hperm.mem_iff.1 hn) with hnc | hnr
      · left
        unfold Closed.mark
        rw [if_pos ⟨by rw [← hy, hnc], by rw [← hx, hnc]⟩]
      · right
        exact ⟨n, (mem_expand _ _ _ _ _ _ _ _ _).2 (Or.inl hnr), hx, hy, hg⟩
  refine ⟨?_, ?_, ?_⟩
  · apply NodeOK.of_expand hcur
    intro n hn
    exact ha n (hperm.mem_iff.2 (List.mem_cons_of_mem _ hn))
  · intro r c hcl1
    by_cases hold : cl r c = true
    · obtain ⟨h1, gc, hgc, h2⟩ := hb r c hold
      refine ⟨h1, gc, hgc, ?_⟩
      intro b hstep
      exact hkeep _ _ _ (h2 b hstep)
    · have hnew : r = cur.y ∧ c = cur.x := by
        by_contra hne
        unfold Closed.mark at hcl1
        rw [if_neg hne] at hcl1
        exact hold hcl1
      obtain ⟨hr, hc2⟩ := hnew
      subst hr hc2
      refine ⟨hnt, cur.g, hleast (by simpa using hold), ?_⟩
      rintro b ⟨d, hd, hbeq, hbin, hbg⟩
      subst hbeq
      by_cases hnb : (cl.mark cur.y cur.x) (cur.y + d.2) (cur.x + d.1) = true
      · exact Or.inl hnb
      · right
        refine ⟨Node.mk (cur.x + d.1) (cur.y + d.2) (cur.g + 1)
          (manhattanDistance (cur.x + d.1) (cur.y + d.2) tx ty) (some cur), ?_, rfl, rfl, ?_⟩
        · rw [mem_expand]
          right
          exact ⟨d, hd, ⟨hbin, hbg, by simpa using hnb⟩, rfl⟩
        · simp
  · exact hkeep sx sy 0 hc

end OptFacts

/-- Whatever the loop returns is empty or has at most `k + 1` cells, for
every walk of `k` moves from the start to the target. -/
theorem searchLoop_shortest (gw gh : Int) (grid : Grid) (tie : Nat → Nat) (sx sy tx ty : Int) :
    ∀ (fuel k : Nat) (o : List Node) (cl : Closed), OptInv gw gh grid sx sy tx ty o cl →
      ∀ res, searchLoop gw gh grid tie tx ty fuel k o cl = some res →
        ∀ j, Walk gw gh grid (sx, sy) (tx, ty) j → res.length ≤ j + 1 := by
  apply searchLoop_rule gw gh grid tie tx ty (OptInv gw gh grid sx sy tx ty)
  · intro cl _ j _
    simp
  · intro o cl cur rest hinv hperm hmin hat j hw
    have hcurmem : cur ∈ o := hperm.mem_iff.2 (List.mem_cons_self _ _)
    have hcl : cl cur.y cur.x = false := by
      by_contra hne
      have htrue : cl cur.y cur.x = true := by simpa using hne
      exact (hinv.2.1 _ _ htrue).1 hat
    rw [← hat.1, ← hat.2] at hw
    have hg := hinv.popped_least hcurmem hmin hcl j hw
    have hlen := (hinv.1 cur hcurmem).chain_length
    rw [List.length_reverse]
    omega
  · intro o cl cur rest hinv hperm hmin hnt
    exact hinv.maintained hperm hmin hnt

/-- The sequence returned from cell to cell is empty or no longer than any
path of moves of the search from the start cell to the target cell; it is
not empty when there is such a path and the early return is not taken. -/
theorem bestPathCells_shortest (gw gh : Int) (grid : Grid) (tie : Nat → Nat)
    (sx sy tx ty : Int) (p : List Cell) (hhead : p.head? = some (sx, sy))
    (hlast : p.getLast? = some (tx, ty)) (hchain : List.Chain' (Step gw gh grid) p) :
    (bestPathCells gw gh grid tie sx sy tx ty).length ≤ p.length ∧
      (¬ (grid ty tx = 1 ∨ ty ≥ gh) → bestPathCells gw gh grid tie sx sy tx ty ≠ []) := by
  have hp : p ≠ [] := by
    intro h
    rw [h] at hhead
    simp at hhead
  have hlenpos : 0 < p.length := List.length_pos.2 hp
  by_cases hguard : grid ty tx = 1 ∨ ty ≥ gh
  · refine ⟨?_, fun h => absurd hguard h⟩
    unfold bestPathCells
    rw [if_pos hguard]
    simp
  · have hloop := bestPathCells_eq_loop gw gh grid tie sx sy tx ty hguard
    constructor
    · have hw := walk_of_chain gw gh grid (sx, sy) p.reverse (tx, ty)
        (List.chain'_reverse.2 (by simpa [flip] using hchain))
        (by rw [List.head?_reverse]; exact hlast)
        (by rw [List.getLast?_reverse]; exact hhead)
      have := searchLoop_shortest gw gh grid tie sx sy tx ty _ 0 _ _
        (OptInv.holds_initially gw gh grid sx sy tx ty) _ hloop _ hw
      rw [List.length_reverse] at this
      omega
    · intro _
      exact (searchLoop_reach gw gh grid tie sx sy tx ty _ 0 _ _
        (ReachInv.holds_at_start gw gh grid sx sy tx ty) _ hloop).2
        (reach_of_chain gw gh grid p _ _ hchain hhead hlast)

/-- C24: for every grid, every start cell inside the grid, every target cell
inside the grid that is not occupied and every choice among nodes of equal
`f`: a non-empty sequence returned by `bestPath` is a path of moves of the
search (into cells inside the grid that read 0) from the start cell to the
target cell, and no such path has fewer cells; when such a path exists the
sequence returned is not empty. -/
theorem bestPath_shortest (gw gh : Int) (grid : Grid) (tie : Nat → Nat)
    (eMotion pMotion : Motion)
    (_hs : inGrid gw gh (worldToCell eMotion.position.x) (worldToCell eMotion.position.y))
    (ht : inGrid gw gh (worldToCell pMotion.position.x) (worldToCell pMotion.position.y))
    (hfree : grid (worldToCell pMotion.position.y) (worldToCell pMotion.position.x) = 0) :
    (bestPath gw gh grid tie eMotion pMotion ≠ [] →
      (bestPath gw gh grid tie eMotion pMotion).head? =
          some (worldToCell eMotion.position.x, worldToCell eMotion.position.y) ∧
        (bestPath gw gh grid tie eMotion pMotion).getLast? =
          some (worldToCell pMotion.position.x, worldToCell pMotion.position.y) ∧
        List.Chain' (Step gw gh grid) (bestPath gw gh grid tie eMotion pMotion)) ∧
    ∀ p : List Cell,
      p.head? = some (worldToCell eMotion.position.x, worldToCell eMotion.position.y) →
      p.getLast? = some (worldToCell pMotion.position.x, worldToCell pMotion.position.y) →
      List.Chain' (Step gw gh grid) p →
      bestPath gw gh grid tie eMotion pMotion ≠ [] ∧
        (bestPath gw gh grid tie eMotion pMotion).length ≤ p.length := by
  have hguard : ¬ (grid (worldToCell pMotion.position.y) (worldToCell pMotion.position.x) = 1 ∨
      worldToCell pMotion.position.y ≥ gh) := by
    rintro (h | h)
    · rw [hfree] at h
      exact absurd h (by decide)
    · exact absurd ht.2.2.2 (not_lt.2 h)
  constructor
  · intro hne
    rcases bestPathCells_sound gw gh grid tie (worldToCell eMotion.position.x)
      (worldToCell eMotion.position.y) (worldToCell pMotion.position.x)
      (worldToCell pMotion.position.y) with h | h
    · exact absurd h hne
    · exact h
  · intro p hhead hlast hchain
    have h := bestPathCells_shortest gw gh grid tie _ _ _ _ p hhead hlast hchain
    exact ⟨h.2 hguard, h.1⟩

/-- C24 at a concrete input: on `detourGrid` from cell (0,0) to cell (0,2)
the sequence returned has the seven cells of the way around the obstacle. -/
theorem bestPath_shortest_witness :
    inGrid 3 3 (worldToCell (motionAt 30 30 10 10).position.x)
        (worldToCell (motionAt 30 30 10 10).position.y) ∧
      inGrid 3 3 (worldToCell (motionAt 30 90 10 10).position.x)
        (worldToCell (motionAt 30 90 10 10).position.y) ∧
      detourGrid (worldToCell (motionAt 30 90 10 10).position.y)
        (worldToCell (motionAt 30 90 10 10).position.x) = 0 ∧
      bestPath 3 3 detourGrid (fun k => k) (motionAt 30 30 10 10) (motionAt 30 90 10 10) ≠ [] ∧
      (bestPath 3 3 detourGrid (fun k => k) (motionAt 30 30 10 10)
        (motionAt 30 90 10 10)).length ≤
          [((0 : Int), (0 : Int)), (1, 0), (2, 0), (2, 1), (2, 2), (1, 2), (0, 2)].length :=
  have h0 : worldToCell (30 : ℚ) = 0 := worldToCell_eq 30 0 (by norm_num) (by norm_num)
  have h2 : worldToCell (90 : ℚ) = 2 := worldToCell_eq 90 2 (by norm_num) (by norm_num)
  have hs : inGrid 3 3 (worldToCell (motionAt 30 30 10 10).position.x)
      (worldToCell (motionAt 30 30 10 10).position.y) := by
    show inGrid 3 3 (worldToCell 30) (worldToCell 30)
    rw [h0]
    decide
  have ht : inGrid 3 3 (worldToCell (motionAt 30 90 10 10).position.x)
      (worldToCell (motionAt 30 90 10 10).position.y) := by
    show inGrid 3 3 (worldToCell 30) (worldToCell 90)
    rw [h0, h2]
    decide
  have hfree : detourGrid (worldToCell (motionAt 30 90 10 10).position.y)
      (worldToCell (motionAt 30 90 10 10).position.x) = 0 := by
    show detourGrid (worldToCell 90) (worldToCell 30) = 0
    rw [h0, h2]
    decide
  ⟨hs, ht, hfree,
    (bestPath_shortest 3 3 detourGrid (fun k => k) (motionAt 30 30 10 10)
      (motionAt 30 90 10 10) hs ht hfree).2
      [(0, 0), (1, 0), (2, 0), (2, 1), (2, 2), (1, 2), (0, 2)]
      (by
        show some ((0 : Int), (0 : Int)) = some (worldToCell 30, worldToCell 30)
        rw [h0])
      (by
        show some ((0 : Int), (2 : Int)) = some (worldToCell 30, worldToCell 90)
        rw [h0, h2])
      (chain'_of_stepsOK 3 3 detourGrid _ (by decide))⟩

/-! ### The indices that `bestPath` uses -/

/-- The loop that records the index expressions ends exactly when the loop
of `bestPath` ends. -/
theorem searchUses_isSome (gw gh : Int) (grid : Grid) (tie : Nat → Nat) (tx ty : Int) :
    ∀ (fuel k : Nat) (o : List Node) (cl : Closed) (uses : List IndexUse),
      (searchUses gw gh grid tie tx ty fuel k o cl uses).isSome =
        (searchLoop gw gh grid tie tx ty fuel k o cl).isSome := by
  intro fuel
  induction fuel with
  | zero =>
      intro k o cl uses
      rfl
  | succ fuel ih =>
      intro k o cl uses
      unfold searchUses searchLoop
      cases popMin (tie k) o with
      | none => rfl
      | some q =>
          obtain ⟨cur, rest⟩ := q
          dsimp only
          split_ifs
          · rfl
          · exact ih _ _ _ _

theorem popUses_inRange (gw gh : Int) (grid : Grid) (cur : Node)
    (hcur : inGrid gw gh cur.x cur.y) : ∀ u ∈ popUses gw gh grid cur, u.inRange gw gh := by
  intro u hu
  unfold popUses at hu
  rw [List.mem_cons, List.mem_flatMap] at hu
  rcases hu with rfl | ⟨d, -, hd⟩
  · exact ⟨hcur.2.2.1, hcur.2.2.2, hcur.1, hcur.2.1⟩
  · dsimp only at hd
    split_ifs at hd with h1 h2
    · simp only [List.mem_cons, List.mem_singleton, List.not_mem_nil, or_false] at hd
      rcases hd with rfl | rfl
      · exact ⟨h1.2.2.1, h1.2.2.2, h1.1, h1.2.1⟩
      · exact ⟨h1.2.2.1, h1.2.2.2, h1.1, h1.2.1⟩
    · simp only [List.mem_singleton] at hd
      subst hd
      exact ⟨h1.2.2.1, h1.2.2.2, h1.1, h1.2.1⟩
    · simp at hd

/-- When every queued node sits on a cell of the grid, every index expression
that the loop evaluates is in range. -/
theorem searchUses_inRange (gw gh : Int) (grid : Grid) (tie : Nat → Nat) (tx ty : Int) :
    ∀ (fuel k : Nat) (o : List Node) (cl : Closed) (uses res : List IndexUse),
      (∀ n ∈ o, inGrid gw gh n.x n.y) → (∀ u ∈ uses, u.inRange gw gh) →
      searchUses gw gh grid tie tx ty fuel k o cl uses = some res →
      ∀ u ∈ res, u.inRange gw gh := by
  intro fuel
  induction fuel with
  | zero =>
      intro k o cl uses res _ _ h
      simp [searchUses] at h
  | succ fuel ih =>
      intro k o cl uses res ho hu h
      unfold searchUses at h
      cases hp : popMin (tie k) o with
      | none =>
          rw [hp] at h
          simp only [Option.some.injEq] at h
          subst h
          exact hu
      | some q =>
          obtain ⟨cur, rest⟩ := q
          rw [hp] at h
          dsimp only at h
          obtain ⟨hperm, -⟩ := popMin_some _ _ _ _ hp
          have hcur : inGrid gw gh cur.x cur.y :=
            ho cur (hperm.mem_iff.2 (List.mem_cons_self _ _))
          split_ifs at h with ht
          · simp only [Option.some.injEq] at h
            subst h
            exact hu
          · refine ih _ _ _ _ res ?_ ?_ h
            · intro n hn
              rw [mem_expand] at hn
              rcases hn with hn | ⟨d, -, ⟨hin, -, -⟩, rfl⟩
              · exact ho n (hperm.mem_iff.2 (List.mem_cons_of_mem _ hn))
              · exact hin
            · intro u hmem
              rcases List.mem_append.1 hmem with h1 | h1
              · exact hu u h1
              · exact popUses_inRange gw gh grid cur hcur u h1

/-- A world coordinate in `(0, 30 * n]` converts to a cell index in
`[0, n)`. -/
theorem worldToCell_range (p : ℚ) (n : Int) (h0 : 0 < p) (h1 : p ≤ 30 * (n : ℚ)) :
    0 ≤ worldToCell p ∧ worldToCell p < n := by
  unfold worldToCell gridSize
  have h2 : 0 < ⌈p / ((30 : Int) : ℚ)⌉ := by
    rw [Int.ceil_pos]
    push_cast
    positivity
  have h3 : ⌈p / ((30 : Int) : ℚ)⌉ ≤ n := by
    rw [Int.ceil_le]
    push_cast
    rw [div_le_iff₀ (by norm_num)]
    linarith
  omega

/-- C26: `bestPath` converts a world coordinate `p` to the cell index
`ceil(p / 30) - 1`.  For start and target positions with
`0 < x <= 30 * gridWidth` and `0 < y <= 30 * gridHeight`, both cells lie
inside the grid, the call ends, and every index expression `grid[..][..]` or
`closedList[..][..]` it evaluates is in range; the coordinate 0 converts to
the cell index -1, which no cell of the grid has. -/
theorem bestPath_indices_in_range (gw gh : Int) (grid : Grid) (tie : Nat → Nat)
    (eMotion pMotion : Motion)
    (hex : 0 < eMotion.position.x ∧ eMotion.position.x ≤ 30 * (gw : ℚ))
    (hey : 0 < eMotion.position.y ∧ eMotion.position.y ≤ 30 * (gh : ℚ))
    (hpx : 0 < pMotion.position.x ∧ pMotion.position.x ≤ 30 * (gw : ℚ))
    (hpy : 0 < pMotion.position.y ∧ pMotion.position.y ≤ 30 * (gh : ℚ)) :
    (worldToCell eMotion.position.x = ⌈eMotion.position.x / 30⌉ - 1 ∧
      inGrid gw gh (worldToCell eMotion.position.x) (worldToCell eMotion.position.y) ∧
      inGrid gw gh (worldToCell pMotion.position.x) (worldToCell pMotion.position.y)) ∧
    (∃ uses, bestPathUses gw gh grid tie eMotion pMotion = some uses ∧
      ∀ u ∈ uses, u.inRange gw gh) ∧
    (worldToCell 0 = -1 ∧ ∀ x y, inGrid gw gh x y → x ≠ worldToCell 0 ∧ y ≠ worldToCell 0) := by
  have hsx := worldToCell_range _ gw hex.1 hex.2
  have hsy := worldToCell_range _ gh hey.1 hey.2
  have htx := worldToCell_range _ gw hpx.1 hpx.2
  have hty := worldToCell_range _ gh hpy.1 hpy.2
  have hzero : worldToCell 0 = -1 := by
    unfold worldToCell
    simp
  have hs : inGrid gw gh (worldToCell eMotion.position.x) (worldToCell eMotion.position.y) :=
    ⟨hsx.1, hsx.2, hsy.1, hsy.2⟩
  have ht : inGrid gw gh (worldToCell pMotion.position.x) (worldToCell pMotion.position.y) :=
    ⟨htx.1, htx.2, hty.1, hty.2⟩
  refine ⟨⟨?_, hs, ht⟩, ?_, hzero, ?_⟩
  · unfold worldToCell gridSize
    norm_num
  · have hguardUse : ∀ u ∈ [IndexUse.grid (worldToCell pMotion.position.y)
        (worldToCell pMotion.position.x)], u.inRange gw gh := by
      intro u hu
      rw [List.mem_singleton] at hu
      subst hu
      exact ⟨hty.1, hty.2, htx.1, htx.2⟩
    unfold bestPathUses
    dsimp only
    split_ifs with hguard
    · exact ⟨_, rfl, hguardUse⟩
    · obtain ⟨res, hres⟩ := searchLoop_terminates gw gh grid tie
        (worldToCell eMotion.position.x) (worldToCell eMotion.position.y)
        (worldToCell pMotion.position.x) (worldToCell pMotion.position.y)
      have hsome := searchUses_isSome gw gh grid tie (worldToCell pMotion.position.x)
        (worldToCell pMotion.position.y) (searchFuel gw gh) 0
        [Node.mk (worldToCell eMotion.position.x) (worldToCell eMotion.position.y) 0
          (manhattanDistance (worldToCell eMotion.position.x) (worldToCell eMotion.position.y)
            (worldToCell pMotion.position.x) (worldToCell pMotion.position.y)) none]
        (fun _ _ => false)
        [IndexUse.grid (worldToCell pMotion.position.y) (worldToCell pMotion.position.x)]
      rw [hres] at hsome
      obtain ⟨uses, huses⟩ := Option.isSome_iff_exists.1 hsome
      refine ⟨uses, huses, ?_⟩
      refine searchUses_inRange gw gh grid tie _ _ _ _ _ _ _ uses ?_ hguardUse huses
      intro n hn
      rw [List.mem_singleton] at hn
      subst hn
      exact hs
  · intro x y hin
    rw [hzero]
    constructor
    · have := hin.1
      omega
    · have := hin.2.2.1
      omega

/-- C26 at a concrete input: the 10x10 grid of the scenario of the spec, the
hazard at (30,30) and the player at (300,300), the last point of the window. -/
theorem bestPath_indices_in_range_witness :
    ((0 : ℚ) < (motionAt 30 30 10 10).position.x ∧
      (motionAt 300 300 10 10).position.x ≤ 30 * ((10 : Int) : ℚ)) ∧
    inGrid 10 10 (worldToCell (motionAt 300 300 10 10).position.x)
      (worldToCell (motionAt 300 300 10 10).position.y) ∧
    ∃ uses, bestPathUses 10 10 (fun r c => if 4 ≤ r ∧ r ≤ 6 ∧ 4 ≤ c ∧ c ≤ 6 then 1 else 0)
        (fun _ => 0) (motionAt 30 30 10 10) (motionAt 300 300 10 10) = some uses ∧
      ∀ u ∈ uses, u.inRange 10 10 :=
  have h1 : (0 : ℚ) < (motionAt 30 30 10 10).position.x ∧
      (motionAt 30 30 10 10).position.x ≤ 30 * ((10 : Int) : ℚ) := by
    norm_num [motionAt]
  have h2 : (0 : ℚ) < (motionAt 30 30 10 10).position.y ∧
      (motionAt 30 30 10 10).position.y ≤ 30 * ((10 : Int) : ℚ) := by
    norm_num [motionAt]
  have h3 : (0 : ℚ) < (motionAt 300 300 10 10).position.x ∧
      (motionAt 300 300 10 10).position.x ≤ 30 * ((10 : Int) : ℚ) := by
    norm_num [motionAt]
  have h4 : (0 : ℚ) < (motionAt 300 300 10 10).position.y ∧
      (motionAt 300 300 10 10).position.y ≤ 30 * ((10 : Int) : ℚ) := by
    norm_num [motionAt]
  have h := bestPath_indices_in_range 10 10
    (fun r c => if 4 ≤ r ∧ r ≤ 6 ∧ 4 ≤ c ∧ c ≤ 6 then 1 else 0) (fun _ => 0)
    (motionAt 30 30 10 10) (motionAt 300 300 10 10) h1 h2 h3 h4
  ⟨⟨h1.1, h3.2⟩, h.1.2.2, h.2.1⟩

/-! ### The search with the bounds of `closedList` checked -/

theorem popMin_singleton (choice : Nat) (n : Node) : popMin choice [n] = some (n, []) := by
  cases h : popMin choice [n] with
  | none =>
      rw [popMin_eq_none] at h
      simp at h
  | some q =>
      obtain ⟨m, rest⟩ := q
      obtain ⟨hperm, -⟩ := popMin_some _ _ _ _ h
      have hlen := hperm.length_eq
      simp only [List.length_cons, List.length_nil] at hlen
      have hrest : rest = [] := List.length_eq_zero.1 (by omega)
      subst hrest
      have hmem : m ∈ [n] := hperm.mem_iff.2 (List.mem_cons_self _ _)
      rw [List.mem_singleton] at hmem
      rw [hmem]

/-- While every queued node sits on a cell of the grid, no write to
`closedList` is out of range, and the checked loop does what the loop does. -/
theorem searchLoopChecked_of_inGrid (gw gh : Int) (grid : Grid) (tie : Nat → Nat)
    (tx ty : Int) :
    ∀ (fuel k : Nat) (o : List Node) (cl : Closed), (∀ n ∈ o, inGrid gw gh n.x n.y) →
      searchLoopChecked gw gh grid tie tx ty fuel k o cl =
        (searchLoop gw gh grid tie tx ty fuel k o cl).map some := by
  intro fuel
  induction fuel with
  | zero =>
      intro k o cl _
      rfl
  | succ fuel ih =>
      intro k o cl ho
      unfold searchLoopChecked searchLoop
      cases hp : popMin (tie k) o with
      | none => rfl
      | some q =>
          obtain ⟨cur, rest⟩ := q
          dsimp only
          obtain ⟨hperm, -⟩ := popMin_some _ _ _ _ hp
          have hcur : inGrid gw gh cur.x cur.y :=
            ho cur (hperm.mem_iff.2 (List.mem_cons_self _ _))
          split_ifs with ht
          · rfl
          · apply ih
            intro n hn
            rw [mem_expand] at hn
            rcases hn with hn | ⟨d, -, ⟨hin, -, -⟩, rfl⟩
            · exact ho n (hperm.mem_iff.2 (List.mem_cons_of_mem _ hn))
            · exact hin

theorem searchFuel_succ (gw gh : Int) :
    searchFuel gw gh = (4 * 5 ^ (gw.toNat * gh.toNat) + 1) + 1 := rfl

/-- The checked loop, started on the start node, ends within `searchFuel`
iterations: with the sequence that the loop returns if the start cell lies in
the grid or is the target cell, and with a write outside `closedList`
otherwise. -/
theorem searchLoopChecked_start (gw gh : Int) (grid : Grid) (tie : Nat → Nat)
    (sx sy tx ty : Int) :
    searchLoopChecked gw gh grid tie tx ty (searchFuel gw gh) 0
        [Node.mk sx sy 0 (manhattanDistance sx sy tx ty) none] (fun _ _ => false) =
      if inGrid gw gh sx sy ∨ (sx = tx ∧ sy = ty) then
        (searchLoop gw gh grid tie tx ty (searchFuel gw gh) 0
          [Node.mk sx sy 0 (manhattanDistance sx sy tx ty) none] (fun _ _ => false)).map some
      else some none := by
  by_cases hin : inGrid gw gh sx sy
  · rw [if_pos (Or.inl hin)]
    apply searchLoopChecked_of_inGrid
    intro n hn
    rw [List.mem_singleton] at hn
    subst hn
    exact hin
  · rw [searchFuel_succ]
    unfold searchLoopChecked searchLoop
    rw [popMin_singleton]
    dsimp only
    simp only [Node.x_mk, Node.y_mk]
    by_cases hst : sx = tx ∧ sy = ty
    · simp only [if_pos (Or.inr hst : inGrid gw gh sx sy ∨ (sx = tx ∧ sy = ty)), if_pos hst]
      rfl
    · simp only [if_neg (not_or.2 ⟨hin, hst⟩), if_neg hst, if_neg hin]

theorem searchLoopChecked_terminates (gw gh : Int) (grid : Grid) (tie : Nat → Nat)
    (sx sy tx ty : Int) :
    ∃ r, searchLoopChecked gw gh grid tie tx ty (searchFuel gw gh) 0
      [Node.mk sx sy 0 (manhattanDistance sx sy tx ty) none] (fun _ _ => false) = some r := by
  rw [searchLoopChecked_start]
  obtain ⟨res, hres⟩ := searchLoop_terminates gw gh grid tie sx sy tx ty
  split_ifs
  · exact ⟨some res, by rw [hres]; rfl⟩
  · exact ⟨none, rfl⟩

/-- What a call of `bestPath` comes to: after the early return the empty
sequence; else, for a start cell inside the grid or equal to the target cell,
the sequence that `bestPath` gives; else a write outside `closedList` in the
first iteration, and no sequence. -/
theorem bestPathChecked_eq (gw gh : Int) (grid : Grid) (tie : Nat → Nat)
    (eMotion pMotion : Motion) :
    bestPathChecked gw gh grid tie eMotion pMotion =
      if (grid (worldToCell pMotion.position.y) (worldToCell pMotion.position.x) = 1 ∨
            worldToCell pMotion.position.y ≥ gh) ∨
          inGrid gw gh (worldToCell eMotion.position.x) (worldToCell eMotion.position.y) ∨
          (worldToCell eMotion.position.x = worldToCell pMotion.position.x ∧
            worldToCell eMotion.position.y = worldToCell pMotion.position.y) then
        some (bestPath gw gh grid tie eMotion pMotion)
      else none := by
  unfold bestPathChecked bestPath
  dsimp only
  by_cases hguard : grid (worldToCell pMotion.position.y) (worldToCell pMotion.position.x) = 1 ∨
      worldToCell pMotion.position.y ≥ gh
  · rw [if_pos hguard, if_pos (Or.inl hguard)]
    unfold bestPathCells
    rw [if_pos hguard]
  · rw [if_neg hguard, searchLoopChecked_start]
    have hloop := bestPathCells_eq_loop gw gh grid tie (worldToCell eMotion.position.x)
      (worldToCell eMotion.position.y) _ _ hguard
    by_cases hok : inGrid gw gh (worldToCell eMotion.position.x)
        (worldToCell eMotion.position.y) ∨
        (worldToCell eMotion.position.x = worldToCell pMotion.position.x ∧
          worldToCell eMotion.position.y = worldToCell pMotion.position.y)
    · rw [if_pos hok, if_pos (Or.inr hok), hloop]
      rfl
    · rw [if_neg hok, if_neg (not_or.2 ⟨hguard, hok⟩)]
      rfl

/-- Whenever the call returns a sequence, it is the one `bestPath` gives. -/
theorem bestPathChecked_returns (gw gh : Int) (grid : Grid) (tie : Nat → Nat)
    (eMotion pMotion : Motion) (path : List Cell)
    (h : bestPathChecked gw gh grid tie eMotion pMotion = some path) :
    bestPath gw gh grid tie eMotion pMotion = path := by
  rw [bestPathChecked_eq] at h
  split_ifs at h
  exact Option.some.inj h

/-- C7, on the failing inputs: the guard of `bestPath` tests
`targetY >= gridHeight` but not `targetY < 0`, and it reads
`grid[targetY][targetX]` before any test of the row.  With hazard and player
both at the world point (15,0), cell (0,-1), and the out-of-range read
`grid[-1][0]` yielding 0, the first node popped is the target and the call
returns the one-cell sequence (0,-1), not the empty one.  With the hazard at
(15,0) and the player at (45,0), cell (1,-1), the first iteration writes
`closedList[-1][0]`, outside the vector, and the call returns nothing. -/
theorem bestPath_target_row_negative_same_cell :
    worldToCell (motionAt 15 0 10 10).position.y < 0 ∧
      worldToCell (motionAt 45 0 10 10).position.y < 0 ∧
      bestPathChecked 2 2 (fun _ _ => 0) (fun _ => 0) (motionAt 15 0 10 10)
        (motionAt 15 0 10 10) = some [(0, -1)] ∧
      bestPathChecked 2 2 (fun _ _ => 0) (fun _ => 0) (motionAt 15 0 10 10)
        (motionAt 45 0 10 10) = none := by
  have h0 : worldToCell (15 : ℚ) = 0 := worldToCell_eq 15 0 (by norm_num) (by norm_num)
  have h1 : worldToCell (0 : ℚ) = -1 := worldToCell_eq 0 (-1) (by norm_num) (by norm_num)
  have h2 : worldToCell (45 : ℚ) = 1 := worldToCell_eq 45 1 (by norm_num) (by norm_num)
  have hx0 : worldToCell (motionAt 15 0 10 10).position.x = 0 := h0
  have hy0 : worldToCell (motionAt 15 0 10 10).position.y = -1 := h1
  have hx1 : worldToCell (motionAt 45 0 10 10).position.x = 1 := h2
  have hy1 : worldToCell (motionAt 45 0 10 10).position.y = -1 := h1
  refine ⟨by rw [hy0]; decide, by rw [hy1]; decide, ?_, ?_⟩
  · rw [bestPathChecked_eq, hx0, hy0, if_pos (by decide),
      bestPath_eq 2 2 _ _ (motionAt 15 0 10 10) (motionAt 15 0 10 10) 0 (-1) 0 (-1)
        h0 h1 h0 h1]
    decide
  · rw [bestPathChecked_eq, hx0, hy0, hx1, hy1, if_neg (by decide)]

/-- What holds of C7: for a start cell inside the grid, the call returns, and
returns the empty sequence, whenever the target row is outside
`[0, gridHeight)`: at or above `gridHeight` by the early return, below 0
because the search cannot reach a cell outside the grid and ends with the
open list empty (unless the out-of-range read of `grid` yields 1 and the
early return is taken). -/
theorem bestPath_target_row_outside (gw gh : Int) (grid : Grid) (tie : Nat → Nat)
    (eMotion pMotion : Motion)
    (hs : inGrid gw gh (worldToCell eMotion.position.x) (worldToCell eMotion.position.y))
    (hrow : worldToCell pMotion.position.y ≥ gh ∨ worldToCell pMotion.position.y < 0) :
    bestPathChecked gw gh grid tie eMotion pMotion = some [] ∧
      bestPath gw gh grid tie eMotion pMotion = [] := by
  have hnil : bestPath gw gh grid tie eMotion pMotion = [] := by
    unfold bestPath
    by_cases hguard : grid (worldToCell pMotion.position.y) (worldToCell pMotion.position.x) = 1 ∨
        worldToCell pMotion.position.y ≥ gh
    · unfold bestPathCells
      rw [if_pos hguard]
    · have hloop := bestPathCells_eq_loop gw gh grid tie (worldToCell eMotion.position.x)
        (worldToCell eMotion.position.y) _ _ hguard
      rcases hrow with hhigh | hneg
      · exact absurd (Or.inr hhigh) hguard
      · refine searchLoop_nodes gw gh grid tie (worldToCell eMotion.position.x)
          (worldToCell eMotion.position.y) (worldToCell pMotion.position.x)
          (worldToCell pMotion.position.y) (fun res => res = []) rfl ?_ _ 0 _ _ ?_ _ hloop
        · intro cur hcur hat
          exfalso
          rcases hcur.cell with ⟨-, -, hy⟩ | ⟨hin, -⟩
          · have := hs.2.2.1
            omega
          · have := hin.2.2.1
            omega
        · intro n hn
          rw [List.mem_singleton] at hn
          subst hn
          exact NodeOK.root
  refine ⟨?_, hnil⟩
  rw [bestPathChecked_eq, if_pos (Or.inr (Or.inl hs)), hnil]

/-- The theorem `bestPath_target_row_outside` at a concrete input: the player
one row above a 2x2 grid, the hazard inside the grid. -/
theorem bestPath_target_row_outside_witness :
    inGrid 2 2 (worldToCell (motionAt 15 15 10 10).position.x)
        (worldToCell (motionAt 15 15 10 10).position.y) ∧
      worldToCell (motionAt 15 0 10 10).position.y < 0 ∧
      bestPathChecked 2 2 (fun _ _ => 0) (fun _ => 0) (motionAt 15 15 10 10)
        (motionAt 15 0 10 10) = some [] :=
  have h0 : worldToCell (15 : ℚ) = 0 := worldToCell_eq 15 0 (by norm_num) (by norm_num)
  have h1 : worldToCell (0 : ℚ) = -1 := worldToCell_eq 0 (-1) (by norm_num) (by norm_num)
  have hs : inGrid 2 2 (worldToCell (motionAt 15 15 10 10).position.x)
      (worldToCell (motionAt 15 15 10 10).position.y) := by
    show inGrid 2 2 (worldToCell 15) (worldToCell 15)
    rw [h0]
    decide
  have hrow : worldToCell (motionAt 15 0 10 10).position.y < 0 := by
    show worldToCell 0 < 0
    rw [h1]
    decide
  ⟨hs, hrow, (bestPath_target_row_outside 2 2 (fun _ _ => 0) (fun _ => 0)
    (motionAt 15 15 10 10) (motionAt 15 0 10 10) hs (Or.inr hrow)).1⟩

theorem deathCheck_alive (window_height_px : Int) (w : WorldSystem) (reg : Registry)
    (pMotion : Motion) (hp : reg.getMotion w.player = some pMotion)
    (hwin : ¬ (pMotion.position.y - |pMotion.scale.y| / 2 > (window_height_px : ℚ))) :
    deathCheck window_height_px w reg = some reg := by
  unfold deathCheck
  rw [hp]
  dsimp only
  rw [if_neg hwin]

/-- A player wholly below the window has a death timer when the pursuit block
is reached, and the block is skipped: the path is kept for that reason, not
because of the result of a recompute. -/
theorem pursuitTick_dead (window_height_px gw gh : Int) (tie : Nat → Nat) (elapsed_ms : ℚ)
    (w : WorldSystem) (reg : Registry) (pMotion : Motion)
    (hp : reg.getMotion w.player = some pMotion)
    (hbelow : pMotion.position.y - |pMotion.scale.y| / 2 > (window_height_px : ℚ)) :
    ∃ reg1, pursuitTick window_height_px gw gh tie elapsed_ms w reg = some (w, reg1) := by
  unfold pursuitTick deathCheck
  rw [hp]
  dsimp only
  rw [if_pos hbelow]
  by_cases hd : w.player ∈ reg.deathTimers
  · rw [if_pos hd]
    dsimp only
    unfold pursuitBlock
    rw [if_neg (fun h => h.1 hd)]
    exact ⟨_, rfl⟩
  · rw [if_neg hd]
    dsimp only
    unfold pursuitBlock
    rw [if_neg (fun h => h.1 (List.mem_append_right _ (List.mem_singleton_self _)))]
    exact ⟨_, rfl⟩

/-- C15, the claim fails: in a window of 120x60 (a grid of 4x2 cells) the
hazard follows the path (0,0), (1,0), (2,0) and stands at index 1; the player
at (105,45) is inside the window (it gets no death timer) and its cell (3,1)
is marked occupied for the obstacle next to it, so `bestPath` returns the
empty sequence at the recompute that is due; after the tick the stored path
is empty and the index is 0. -/
theorem pursuit_empty_result_discards_path :
    ((60 : Int).tdiv gridSize = 2 ∧ (120 : Int).tdiv gridSize = 4) ∧
      deathCheck 60 blockedPursuit blockedRegistry = some blockedRegistry ∧
      updateGrid 4 2 blockedPursuit.walls blockedPursuit.grid 1 3 = 1 ∧
      bestPathChecked 4 2 (updateGrid 4 2 blockedPursuit.walls blockedPursuit.grid) (fun _ => 0)
        (motionAt 60 30 10 10) (motionAt 105 45 10 10) = some [] ∧
      (blockedPursuit.bestPath = [(0, 0), (1, 0), (2, 0)] ∧ blockedPursuit.currentNode = 1) ∧
      (pursuitTick 60 4 2 (fun _ => 0) 16 blockedPursuit blockedRegistry).map
        (fun r => (r.1.bestPath, r.1.currentNode)) = some ([], 0) := by
  have hx : worldToCell (105 : ℚ) = 3 := worldToCell_eq 105 3 (by norm_num) (by norm_num)
  have hy : worldToCell (45 : ℚ) = 1 := worldToCell_eq 45 1 (by norm_num) (by norm_num)
  have hocc : updateGrid 4 2 blockedPursuit.walls blockedPursuit.grid 1 3 = 1 := by decide
  have hguard : updateGrid 4 2 blockedPursuit.walls blockedPursuit.grid
      (worldToCell (motionAt 105 45 10 10).position.y)
      (worldToCell (motionAt 105 45 10 10).position.x) = 1 := by
    show updateGrid 4 2 blockedPursuit.walls blockedPursuit.grid (worldToCell 45)
      (worldToCell 105) = 1
    rw [hx, hy]
    exact hocc
  have hb : bestPath 4 2 (updateGrid 4 2 blockedPursuit.walls blockedPursuit.grid) (fun _ => 0)
      (motionAt 60 30 10 10) (motionAt 105 45 10 10) = [] := by
    unfold bestPath bestPathCells
    rw [if_pos (Or.inl hguard)]
  have hp : blockedRegistry.getMotion blockedPursuit.player = some (motionAt 105 45 10 10) := by
    decide
  have he : blockedRegistry.getMotion blockedPursuit.advancedBoulder
      = some (motionAt 60 30 10 10) := by decide
  have hdc : deathCheck 60 blockedPursuit blockedRegistry = some blockedRegistry :=
    deathCheck_alive 60 blockedPursuit blockedRegistry _ hp (by norm_num [motionAt, abs_of_pos])
  refine ⟨⟨by decide, by decide⟩, hdc, hocc, ?_, ⟨rfl, rfl⟩, ?_⟩
  · rw [bestPathChecked_eq, if_pos (Or.inl (Or.inl hguard)), hb]
  · unfold pursuitTick
    rw [hdc]
    dsimp only
    unfold pursuitBlock
    rw [if_pos ⟨by decide, rfl⟩, he, hp]
    have hdue : truncToInt ((blockedPursuit.FrameCount : ℚ) + 16) ≥
        blockedPursuit.FrameInterval := by
      norm_num [truncToInt, blockedPursuit]
    simp only [recomputePath, if_pos hdue, hb, Option.map_some']
    rw [followPath_nil _ _ _ rfl]

/-- C15, amended: when the recompute is due in a tick in which the pursuit
block runs (level 2, the player has no death timer and is not wholly below
the window) and the call of `bestPath` on the rebuilt grid returns the
sequence `path`, the tick stores `path`, whatever it is, and sets `FrameCount`
to 0; when `path` is empty, the stored path is empty, `currentNode` is 0 and
no `Motion` is changed: the path followed before is not kept. -/
theorem pursuit_recompute_overwrites (window_height_px gw gh : Int) (tie : Nat → Nat)
    (elapsed_ms : ℚ) (w : WorldSystem) (reg : Registry) (eMotion pMotion : Motion)
    (path : List Cell)
    (hlevel : w.level = 2) (halive : w.player ∉ reg.deathTimers) (_hon : reg.onScreen)
    (he : reg.getMotion w.advancedBoulder = some eMotion)
    (hp : reg.getMotion w.player = some pMotion)
    (hwin : ¬ (pMotion.position.y - |pMotion.scale.y| / 2 > (window_height_px : ℚ)))
    (hdue : truncToInt ((w.FrameCount : ℚ) + elapsed_ms) ≥ w.FrameInterval)
    (hret : bestPathChecked gw gh (updateGrid gw gh w.walls w.grid) tie eMotion pMotion =
      some path) :
    ∃ w1 reg1, pursuitTick window_height_px gw gh tie elapsed_ms w reg = some (w1, reg1) ∧
      w1.bestPath = path ∧ w1.FrameCount = 0 ∧
      (path = [] → w1.bestPath = [] ∧ w1.currentNode = 0 ∧ reg1 = reg) := by
  have hpath := bestPathChecked_returns gw gh _ tie eMotion pMotion path hret
  unfold pursuitTick
  rw [deathCheck_alive window_height_px w reg pMotion hp hwin]
  dsimp only
  unfold pursuitBlock
  rw [if_pos ⟨halive, hlevel⟩, he, hp]
  have hw : (recomputePath gw gh tie elapsed_ms w eMotion pMotion).bestPath = path := by
    simp only [recomputePath, if_pos hdue]
    exact hpath
  refine ⟨_, _, rfl, ?_, ?_, ?_⟩
  · rw [(followPath_bestPath _ _ _).1]
    exact hw
  · rw [(followPath_bestPath _ _ _).2]
    simp only [recomputePath, if_pos hdue]
  · intro hnil
    rw [hnil] at hw
    rw [followPath_nil _ _ _ hw]
    refine ⟨hw, ?_, Registry.setMotion_same reg _ _ he⟩
    simp only [recomputePath, if_pos hdue]

/-- C15, amended, at a concrete input: `blockedPursuit` with 16 ms elapsed in
the window of height 60. -/
theorem pursuit_recompute_overwrites_witness :
    (blockedPursuit.level = 2 ∧ blockedPursuit.player ∉ blockedRegistry.deathTimers ∧
      blockedRegistry.onScreen ∧
      ¬ ((motionAt 105 45 10 10).position.y - |(motionAt 105 45 10 10).scale.y| / 2 >
        ((60 : Int) : ℚ)) ∧
      truncToInt ((blockedPursuit.FrameCount : ℚ) + 16) ≥ blockedPursuit.FrameInterval) ∧
      ∃ w1 reg1, pursuitTick 60 4 2 (fun _ => 0) 16 blockedPursuit blockedRegistry
          = some (w1, reg1) ∧
        w1.bestPath = [] ∧ w1.FrameCount = 0 ∧
        (([] : List Cell) = [] → w1.bestPath = [] ∧ w1.currentNode = 0 ∧
          reg1 = blockedRegistry) :=
  have hx : worldToCell (105 : ℚ) = 3 := worldToCell_eq 105 3 (by norm_num) (by norm_num)
  have hy : worldToCell (45 : ℚ) = 1 := worldToCell_eq 45 1 (by norm_num) (by norm_num)
  have hguard : updateGrid 4 2 blockedPursuit.walls blockedPursuit.grid
      (worldToCell (motionAt 105 45 10 10).position.y)
      (worldToCell (motionAt 105 45 10 10).position.x) = 1 := by
    show updateGrid 4 2 blockedPursuit.walls blockedPursuit.grid (worldToCell 45)
      (worldToCell 105) = 1
    rw [hx, hy]
    decide
  have hret : bestPathChecked 4 2 (updateGrid 4 2 blockedPursuit.walls blockedPursuit.grid)
      (fun _ => 0) (motionAt 60 30 10 10) (motionAt 105 45 10 10) = some [] := by
    unfold bestPathChecked
    dsimp only
    rw [if_pos (Or.inl hguard)]
  have hon : blockedRegistry.onScreen := by
    intro em hem _
    simp only [blockedRegistry, List.mem_cons, List.mem_singleton, List.not_mem_nil,
      or_false] at hem
    rcases hem with rfl | rfl <;> norm_num [motionAt, abs_of_pos]
  have hwin : ¬ ((motionAt 105 45 10 10).position.y - |(motionAt 105 45 10 10).scale.y| / 2 >
      ((60 : Int) : ℚ)) := by
    norm_num [motionAt, abs_of_pos]
  have hdue : truncToInt ((blockedPursuit.FrameCount : ℚ) + 16) ≥
      blockedPursuit.FrameInterval := by
    norm_num [truncToInt, blockedPursuit]
  ⟨⟨rfl, by decide, hon, hwin, hdue⟩,
    pursuit_recompute_overwrites 60 4 2 (fun _ => 0) 16 blockedPursuit blockedRegistry
      (motionAt 60 30 10 10) (motionAt 105 45 10 10) [] rfl (by decide) hon (by decide)
      (by decide) hwin hdue hret⟩

/-! ### The writes of `updateGrid` -/

theorem forUpTo_append {α : Type} (W : Int → List α) :
    ∀ (fuel : Nat) (i hi : Int) (l0 : List α),
      forUpTo fuel i hi (fun i l => l ++ W i) l0 =
        l0 ++ forUpTo fuel i hi (fun i l => l ++ W i) [] := by
  intro fuel
  induction fuel with
  | zero =>
      intro i hi l0
      simp [forUpTo]
  | succ fuel ih =>
      intro i hi l0
      unfold forUpTo
      split_ifs
      · rw [ih (i + 1) hi (l0 ++ W i), ih (i + 1) hi ([] ++ W i)]
        simp
      · simp

theorem mem_forUpTo_append {α : Type} (W : Int → List α) (a : α) :
    ∀ (fuel : Nat) (i hi : Int),
      a ∈ forUpTo fuel i hi (fun i l => l ++ W i) [] ↔
        ∃ j, i ≤ j ∧ j ≤ hi ∧ j < i + fuel ∧ a ∈ W j := by
  intro fuel
  induction fuel with
  | zero =>
      intro i hi
      simp only [forUpTo, List.not_mem_nil, CharP.cast_eq_zero, add_zero, false_iff, not_exists,
        not_and]
      intro j h1 _ h3
      omega
  | succ fuel ih =>
      intro i hi
      unfold forUpTo
      split_ifs with h
      · rw [forUpTo_append, List.mem_append, ih]
        simp only [List.nil_append]
        constructor
        · rintro (h1 | ⟨j, h1, h2, h3, h4⟩)
          · exact ⟨i, le_refl _, h, by push_cast; omega, h1⟩
          · exact ⟨j, by omega, h2, by push_cast; omega, h4⟩
        · rintro ⟨j, h1, h2, h3, h4⟩
          by_cases hji : j = i
          · subst hji
            exact Or.inl h4
          · exact Or.inr ⟨j, by omega, h2, by push_cast at h3; omega, h4⟩
      · simp only [List.not_mem_nil, false_iff, not_exists, not_and]
        intro j h1 h2
        omega

theorem mem_forLoop_append {α : Type} (W : Int → List α) (a : α) (lo hi : Int) :
    a ∈ forLoop lo hi (fun i l => l ++ W i) [] ↔ ∃ j, lo ≤ j ∧ j ≤ hi ∧ a ∈ W j := by
  unfold forLoop
  rw [mem_forUpTo_append]
  constructor
  · rintro ⟨j, h1, h2, -, h4⟩
    exact ⟨j, h1, h2, h4⟩
  · rintro ⟨j, h1, h2, h4⟩
    exact ⟨j, h1, h2, by omega, h4⟩

/-- The writes of a loop nest `for (i = lo..hi) for (j = lo2..hi2)` that
makes the write `mk i j` in its body. -/
theorem mem_forLoop_nest (mk : Int → Int → GridWrite) (lo hi lo2 hi2 : Int) (wr : GridWrite) :
    wr ∈ forLoop lo hi (fun i l => forLoop lo2 hi2 (fun j l2 => l2 ++ [mk i j]) l) [] ↔
      ∃ i j, lo ≤ i ∧ i ≤ hi ∧ lo2 ≤ j ∧ j ≤ hi2 ∧ wr = mk i j := by
  have hbody : (fun i (l : List GridWrite) =>
        forLoop lo2 hi2 (fun j l2 => l2 ++ [mk i j]) l) =
      fun i l => l ++ forLoop lo2 hi2 (fun j l2 => l2 ++ [mk i j]) [] := by
    funext i l
    unfold forLoop
    exact forUpTo_append (fun j => [mk i j]) _ _ _ l
  rw [hbody, mem_forLoop_append]
  constructor
  · rintro ⟨i, h1, h2, h3⟩
    rw [mem_forLoop_append] at h3
    obtain ⟨j, h4, h5, h6⟩ := h3
    exact ⟨i, j, h1, h2, h4, h5, List.mem_singleton.1 h6⟩
  · rintro ⟨i, j, h1, h2, h4, h5, h6⟩
    refine ⟨i, h1, h2, ?_⟩
    rw [mem_forLoop_append]
    exact ⟨j, h4, h5, List.mem_singleton.2 h6⟩

theorem mem_initWrites (gw gh : Int) (wr : GridWrite) :
    wr ∈ initWrites gw gh ↔
      (0 ≤ wr.row ∧ wr.row < gh) ∧ (0 ≤ wr.col ∧ wr.col < gw) ∧ wr.value = 0 := by
  unfold initWrites
  rw [mem_forLoop_nest (fun i j => ⟨i, j, 0⟩)]
  constructor
  · rintro ⟨i, j, h1, h2, h3, h4, rfl⟩
    dsimp only
    omega
  · rintro ⟨h1, h2, h3⟩
    refine ⟨wr.row, wr.col, h1.1, by omega, h2.1, by omega, ?_⟩
    rw [← h3]

theorem mem_wallWrites (gw gh : Int) (w : InitWall) (wr : GridWrite) :
    wr ∈ wallWrites gw gh w ↔
      (wallTop w ≤ wr.row ∧ wr.row ≤ min (wallBottom w) (gh - 1)) ∧
        (max (wallLeft w) 0 ≤ wr.col ∧ wr.col ≤ min (wallRight w) (gw - 1)) ∧ wr.value = 1 := by
  unfold wallWrites
  dsimp only
  rw [mem_forLoop_nest (fun col row => ⟨row, col, 1⟩)]
  constructor
  · rintro ⟨i, j, h1, h2, h3, h4, rfl⟩
    dsimp only
    split_ifs at h1 h2 h4 <;> omega
  · rintro ⟨h1, h2, h3⟩
    refine ⟨wr.col, wr.row, ?_, ?_, h1.1, ?_, ?_⟩
    · split_ifs <;> omega
    · split_ifs <;> omega
    · split_ifs <;> omega
    · rw [← h3]

theorem forUpTo_replay {α : Type} (W : Int → List α) (A : Grid → α → Grid) :
    ∀ (fuel : Nat) (i hi : Int) (g0 : Grid),
      forUpTo fuel i hi (fun i g => (W i).foldl A g) g0 =
        (forUpTo fuel i hi (fun i l => l ++ W i) []).foldl A g0 := by
  intro fuel
  induction fuel with
  | zero =>
      intro i hi g0
      rfl
  | succ fuel ih =>
      intro i hi g0
      unfold forUpTo
      split_ifs
      · rw [ih, forUpTo_append W fuel (i + 1) hi ([] ++ W i), List.nil_append,
          List.foldl_append]
      · rfl

/-- A loop nest that carries out the write `mk i j` in its body leaves the
grid that the writes it makes, replayed in order, leave. -/
theorem forLoop_nest_replay (mk : Int → Int → GridWrite) (lo hi lo2 hi2 : Int) (g : Grid) :
    forLoop lo hi (fun i g1 =>
        forLoop lo2 hi2 (fun j g2 => g2.set (mk i j).row (mk i j).col (mk i j).value) g1) g =
      (forLoop lo hi (fun i l => forLoop lo2 hi2 (fun j l2 => l2 ++ [mk i j]) l) []).foldl
        GridWrite.apply g := by
  have hbody : (fun i (l : List GridWrite) =>
        forLoop lo2 hi2 (fun j l2 => l2 ++ [mk i j]) l) =
      fun i l => l ++ forLoop lo2 hi2 (fun j l2 => l2 ++ [mk i j]) [] := by
    funext i l
    unfold forLoop
    exact forUpTo_append (fun j => [mk i j]) _ _ _ l
  have hinner : (fun i (g1 : Grid) =>
        forLoop lo2 hi2 (fun j g2 => g2.set (mk i j).row (mk i j).col (mk i j).value) g1) =
      fun i g1 => (forLoop lo2 hi2 (fun j l2 => l2 ++ [mk i j]) []).foldl
        GridWrite.apply g1 := by
    funext i g1
    unfold forLoop
    exact forUpTo_replay (fun j => [mk i j]) GridWrite.apply _ _ _ g1
  rw [hbody, hinner]
  unfold forLoop
  exact forUpTo_replay (fun i => forUpTo (hi2 + 1 - lo2).toNat lo2 hi2
    (fun j l2 => l2 ++ [mk i j]) []) GridWrite.apply _ _ _ g

/-- The grid that `updateGrid` leaves is the one that its writes, replayed in
order, leave: `updateGridWrites` lists the writes of `updateGrid`. -/
theorem updateGrid_eq_replay (gw gh : Int) (walls : List InitWall) (g : Grid) :
    updateGrid gw gh walls g = (updateGridWrites gw gh walls).foldl GridWrite.apply g := by
  have hinit : init gw gh g = (initWrites gw gh).foldl GridWrite.apply g :=
    forLoop_nest_replay (fun i j => ⟨i, j, 0⟩) _ _ _ _ g
  have hwall : ∀ (g1 : Grid) (w : InitWall),
      markWall gw gh g1 w = (wallWrites gw gh w).foldl GridWrite.apply g1 := by
    intro g1 w
    exact forLoop_nest_replay (fun col row => ⟨row, col, 1⟩) _ _ _ _ g1
  unfold updateGrid updateGridWrites
  rw [hinit, List.foldl_append]
  generalize (initWrites gw gh).foldl GridWrite.apply g = g0
  induction walls generalizing g0 with
  | nil => rfl
  | cons w rest ih =>
      rw [List.foldl_cons, List.flatMap_cons, List.foldl_append, ih, hwall]

/-- Replaying writes leaves a cell that none of them names as it was. -/
theorem replay_untouched (r c : Int) :
    ∀ (l : List GridWrite) (g : Grid), (∀ wr ∈ l, ¬ (wr.row = r ∧ wr.col = c)) →
      l.foldl GridWrite.apply g r c = g r c := by
  intro l
  induction l with
  | nil =>
      intro g _
      rfl
  | cons wr rest ih =>
      intro g h
      rw [List.foldl_cons, ih _ fun x hx => h x (List.mem_cons_of_mem _ hx)]
      have hne := h wr (List.mem_cons_self _ _)
      unfold GridWrite.apply Grid.set
      rw [if_neg (fun hp => hne ⟨hp.1.symm, hp.2.symm⟩)]

/-- C25: when the top row `(y - ySize/2)/30` of every obstacle of the list is
not negative, every write that `updateGrid` makes, those of `init` included,
is to a cell with `0 <= row < gridHeight` and `0 <= column < gridWidth`:
`updateGrid` leaves the grid that the writes of `updateGridWrites` leave, all
of these are in range, and whatever the memory held, `updateGrid` leaves every
location `grid[r][c]` outside the array as it was.  Without the precondition
this fails: for a grid of at least one row and one column, the obstacle of
centre (15,-15) and size 30x30, whose top edge is at y = -30, gets the top row
-1, and `updateGrid` writes 1 to `grid[-1][0]`. -/
theorem updateGrid_writes_in_range (gw gh : Int) (walls : List InitWall)
    (htop : ∀ w ∈ walls, 0 ≤ (w.y - w.ySize.tdiv 2).tdiv 30) :
    (∀ g, updateGrid gw gh walls g = (updateGridWrites gw gh walls).foldl GridWrite.apply g) ∧
    (∀ wr ∈ updateGridWrites gw gh walls,
      (0 ≤ wr.row ∧ wr.row < gh) ∧ (0 ≤ wr.col ∧ wr.col < gw)) ∧
    (∀ (g : Grid) (r c : Int), ¬ ((0 ≤ r ∧ r < gh) ∧ (0 ≤ c ∧ c < gw)) →
      updateGrid gw gh walls g r c = g r c) ∧
    (0 < gw → 0 < gh →
      ((-15 : Int) - (30 : Int).tdiv 2 = -30 ∧ ((-15 : Int) - (30 : Int).tdiv 2).tdiv 30 = -1) ∧
        (⟨-1, 0, 1⟩ : GridWrite) ∈ updateGridWrites gw gh [⟨15, -15, 30, 30⟩] ∧
        ∀ g : Grid, updateGrid gw gh [⟨15, -15, 30, 30⟩] g (-1) 0 = 1) := by
  have hrange : ∀ wr ∈ updateGridWrites gw gh walls,
      (0 ≤ wr.row ∧ wr.row < gh) ∧ (0 ≤ wr.col ∧ wr.col < gw) := by
    intro wr hwr
    unfold updateGridWrites at hwr
    rw [List.mem_append, List.mem_flatMap] at hwr
    rcases hwr with h | ⟨w, hw, h⟩
    · rw [mem_initWrites] at h
      exact ⟨h.1, h.2.1⟩
    · rw [mem_wallWrites] at h
      have h0 : 0 ≤ wallTop w := htop w hw
      obtain ⟨⟨h1, h2⟩, ⟨h3, h4⟩, -⟩ := h
      have h5 := min_le_right (wallBottom w) (gh - 1)
      have h6 := min_le_right (wallRight w) (gw - 1)
      have h7 := le_max_right (wallLeft w) 0
      omega
  refine ⟨updateGrid_eq_replay gw gh walls, hrange, ?_, ?_⟩
  · intro g r c hout
    rw [updateGrid_eq_replay]
    apply replay_untouched
    intro wr hwr hrc
    apply hout
    rw [← hrc.1, ← hrc.2]
    exact hrange wr hwr
  · intro hgw hgh
    have h1 : wallTop ⟨15, -15, 30, 30⟩ = -1 := by decide
    have h2 : wallBottom ⟨15, -15, 30, 30⟩ = 0 := by decide
    have h3 : wallLeft ⟨15, -15, 30, 30⟩ = 0 := by decide
    have h4 : wallRight ⟨15, -15, 30, 30⟩ = 1 := by decide
    refine ⟨by decide, ?_, ?_⟩
    · unfold updateGridWrites
      rw [List.mem_append]
      right
      rw [List.flatMap_cons, List.flatMap_nil, List.append_nil, mem_wallWrites, h1, h2, h3, h4]
      dsimp only
      exact ⟨⟨le_refl _, le_min (by omega) (by omega)⟩,
        ⟨by simp, le_min (by omega) (by omega)⟩, rfl⟩
    · intro g
      unfold updateGrid
      rw [List.foldl_cons, List.foldl_nil, markWall_apply, h1, h2, h3, h4]
      rw [if_pos]
      exact ⟨⟨le_refl _, le_min (by omega) (by omega)⟩,
        ⟨by simp, le_min (by omega) (by omega)⟩⟩

/-- C25 at a concrete input: for the obstacle of the scenario of the spec on
the 10x10 grid, `updateGrid` makes 100 writes in `init` and 9 for the
obstacle, all in range, and leaves `grid[-1][0]` as it was; for the obstacle
with the top edge at y = -30 it writes 1 to `grid[-1][0]` and `grid[-1][1]`. -/
theorem updateGrid_writes_in_range_witness :
    (∀ w ∈ [(⟨150, 150, 60, 60⟩ : InitWall)], 0 ≤ (w.y - w.ySize.tdiv 2).tdiv 30) ∧
      (updateGridWrites 10 10 [⟨150, 150, 60, 60⟩]).length = 109 ∧
      (∀ wr ∈ updateGridWrites 10 10 [⟨150, 150, 60, 60⟩],
        (0 ≤ wr.row ∧ wr.row < 10) ∧ (0 ≤ wr.col ∧ wr.col < 10)) ∧
      updateGrid 10 10 [⟨150, 150, 60, 60⟩] (fun _ _ => 7) (-1) 0 = 7 ∧
      wallWrites 10 10 ⟨15, -15, 30, 30⟩ = [⟨-1, 0, 1⟩, ⟨0, 0, 1⟩, ⟨-1, 1, 1⟩, ⟨0, 1, 1⟩] ∧
      updateGrid 10 10 [⟨15, -15, 30, 30⟩] (fun _ _ => 7) (-1) 0 = 1 ∧
      updateGrid 10 10 [⟨15, -15, 30, 30⟩] (fun _ _ => 7) (-1) 1 = 1 :=
  have htop : ∀ w ∈ [(⟨150, 150, 60, 60⟩ : InitWall)], 0 ≤ (w.y - w.ySize.tdiv 2).tdiv 30 := by
    decide
  have h := updateGrid_writes_in_range 10 10 [⟨150, 150, 60, 60⟩] htop
  ⟨htop, by decide, h.2.1, h.2.2.1 (fun _ _ => 7) (-1) 0 (by decide), by decide, by decide,
    by decide⟩

end Pathfinder
